import Mathlib

/-!
# Duet / Lumos: batch scheduler and batched execution engine

A shallow embedding of the proxy side (`Proxy/src/parser.cpp`,
`Proxy/src/scheduler.cpp`) and of the kernel side (`Kernel/src/exec/*.cpp`,
`Kernel/src/lumos_kernel.cpp`, `Kernel/src/pg_entry.cpp`).

Conventions of the embedding
* a `std::string` is a `String`; offsets count characters of `String.data`
  (one `Char` stands for one C `char`);
* a `std::map<K, V>` is an association list kept in ascending key order
  (namespace `StdMap`), iterated front to back like the C++ container;
* external collaborators (libpg_query, protobuf decoding, the PostgreSQL
  SPI / catalog / table access API) are records of functions passed as
  parameters; engine functions receive the history of engine calls made so
  far, so their answers may depend on everything that happened before;
* side effects are recorded as a trace of events inside an explicit state.
-/

set_option autoImplicit false
set_option linter.unusedVariables false
set_option linter.unnecessarySeqFocus false

/-! ## `std::map` -/

namespace StdMap

variable {κ : Type} {β : Type}

/-- `m.find(k)`: the value stored under the first entry with key `k`. -/
def find [DecidableEq κ] (k : κ) : List (κ × β) → Option β
  | [] => none
  | (k', v) :: t => if k' = k then some v else find k t

/-- Insertion of a key in ascending position, overwriting an equal key. -/
def insert [DecidableEq κ] [LT κ] [DecidableRel (fun (a b : κ) => a < b)]
    (k : κ) (v : β) : List (κ × β) → List (κ × β)
  | [] => [(k, v)]
  | (k', v') :: t =>
    if k < k' then (k, v) :: (k', v') :: t
    else if k' = k then (k, v) :: t
    else (k', v') :: insert k v t

/-- `m.erase(k)`: every entry with key `k` is removed. -/
def erase [DecidableEq κ] (k : κ) (m : List (κ × β)) : List (κ × β) :=
  m.filter (fun e => decide (e.1 ≠ k))

/-- `m[k]`: the map after the access (a value-initialised entry is created
when the key is absent). -/
def index [DecidableEq κ] [LT κ] [DecidableRel (fun (a b : κ) => a < b)]
    (dflt : β) (k : κ) (m : List (κ × β)) : List (κ × β) :=
  match find k m with
  | some _ => m
  | none => insert k dflt m

/-- Write through the reference returned by `m[k]`. -/
def assign [DecidableEq κ] (k : κ) (v : β) : List (κ × β) → List (κ × β)
  | [] => []
  | (k', v') :: t => if k' = k then (k, v) :: t else (k', v') :: assign k v t

end StdMap

/-! ## Proxy data model (`Proxy/include/common.hpp`) -/

inductive ParamType where
  | INTEGER
  | FLOAT
  | STRING
  | BOOL
  | NULL_VAL
  | UNKNOWN
  deriving DecidableEq, Repr

structure QueryParam where
  type : ParamType
  value : String
  deriving DecidableEq, Repr

/-- The parsed query object. The field `arrive_time` of the source is written
once and never read; it is not part of the embedding. -/
structure ParsedQuery where
  request_id : Int
  original_sql : String
  fingerprint : String
  fp_hash : Nat
  params : List QueryParam
  deriving DecidableEq, Repr

structure QueryBatch where
  fingerprint : String
  fp_hash : Nat
  queries : List ParsedQuery
  deriving DecidableEq, Repr

/-- Value-initialised `QueryBatch`, as created by `pending_batches_[key]`. -/
def QueryBatch.empty : QueryBatch := ⟨"", 0, []⟩

/-! ## Fingerprinter (`Proxy/src/parser.cpp`) -/

/-- One token of `pg_query_cpp::ScanResult`. -/
structure ScanToken where
  start : Int
  «end» : Int
  token : Int
  deriving DecidableEq, Repr

/-- The libpg_query collaborator: the fingerprint and scan entry points (a
`none` answer is the `error` field being set, or the scan protobuf failing to
decode) and the token kind codes of the generated header. -/
structure PgQuery where
  pg_query_fingerprint : String → Option Nat
  pg_query_scan : String → Option (List ScanToken)
  ICONST : Int
  FCONST : Int
  SCONST : Int
  BCONST : Int
  XCONST : Int
  TRUE_P : Int
  FALSE_P : Int
  NULL_P : Int

def TOKEN_MINUS : Int := 45

/-- `s.substr(pos, len)` with both arguments converted from `int` to `size_t`:
a negative `pos` or a `pos` past the end throws `std::out_of_range`; a
negative `len` wraps to a huge count and takes the rest of the string. -/
def substr (s : String) (pos len : Int) : Except String String :=
  if pos < 0 ∨ (s.length : Int) < pos then Except.error "std::out_of_range"
  else
    let rest := s.data.drop pos.toNat
    Except.ok (String.mk (if len < 0 then rest else rest.take len.toNat))

namespace SQLParser

/-- The body of the token loop for token `i`: the parameter extracted from
it, if any. `prev` is the token `i - 1` when `i > 0`. -/
def extractParam (pq : PgQuery) (sql : String) (prev : Option ScanToken)
    (token : ScanToken) : Except String (Option QueryParam) :=
  let kind := token.token
  if kind = pq.ICONST ∨ kind = pq.FCONST then
    let ty := if kind = pq.ICONST then ParamType.INTEGER else ParamType.FLOAT
    let is_negative :=
      match prev with
      | some p => decide (p.token = TOKEN_MINUS ∧ p.«end» = token.start)
      | none => false
    match substr sql token.start (token.«end» - token.start) with
    | Except.error e => Except.error e
    | Except.ok val => Except.ok (some ⟨ty, if is_negative then "-" ++ val else val⟩)
  else if kind = pq.SCONST then
    let len := token.«end» - token.start
    if 2 ≤ len then
      match substr sql (token.start + 1) (len - 2) with
      | Except.error e => Except.error e
      | Except.ok val => Except.ok (some ⟨ParamType.STRING, val⟩)
    else Except.ok (some ⟨ParamType.STRING, ""⟩)
  else if kind = pq.BCONST ∨ kind = pq.XCONST then
    match substr sql token.start (token.«end» - token.start) with
    | Except.error e => Except.error e
    | Except.ok val => Except.ok (some ⟨ParamType.STRING, val⟩)
  else if kind = pq.TRUE_P then Except.ok (some ⟨ParamType.BOOL, "true"⟩)
  else if kind = pq.FALSE_P then Except.ok (some ⟨ParamType.BOOL, "false"⟩)
  else if kind = pq.NULL_P then Except.ok (some ⟨ParamType.NULL_VAL, "null"⟩)
  else Except.ok none

/-- The loop `for (i = 0; i < tokens_size(); ++i)`, with the parameters pushed
so far in `acc`. -/
def scanTokens (pq : PgQuery) (sql : String) :
    Option ScanToken → List ScanToken → List QueryParam → Except String (List QueryParam)
  | _, [], acc => Except.ok acc
  | prev, token :: rest, acc =>
    match extractParam pq sql prev token with
    | Except.error e => Except.error e
    | Except.ok (some param) => scanTokens pq sql (some token) rest (acc ++ [param])
    | Except.ok none => scanTokens pq sql (some token) rest acc

/-- `SQLParser::Analyze`: `ok none` is `return false`, `ok (some q)` is
`return true` with `out_result = q`, `error` is a C++ exception leaving the
function. The member `fingerprint` of the result is never assigned and keeps
the empty string of the default-constructed `ParsedQuery`. -/
def Analyze (pq : PgQuery) (req_id : Int) (sql : String) :
    Except String (Option ParsedQuery) :=
  match pq.pg_query_fingerprint sql with
  | none => Except.ok none
  | some fp =>
    match pq.pg_query_scan sql with
    | none => Except.ok none
    | some tokens =>
      match scanTokens pq sql none tokens [] with
      | Except.error e => Except.error e
      | Except.ok params => Except.ok (some ⟨req_id, sql, "", fp, params⟩)

end SQLParser

/-! ## Batch aggregator (`Proxy/src/scheduler.cpp`) -/

/-- One statement sent to the engine through `db_conn_->ExecuteScalar`: the
text `GenerateKernelPayload(batch, use_debug_func)`, kept by its arguments. -/
structure KernelCall where
  batch : QueryBatch
  use_debug_func : Bool
  deriving DecidableEq, Repr

/-- The scheduler object: its configuration, the pending map, and the
statements it has sent to the engine so far (oldest first). -/
structure BatchScheduler where
  max_batch_size_ : Nat
  dry_run_mode_ : Bool
  pending_batches_ : List (Nat × QueryBatch)
  sent : List KernelCall
  deriving DecidableEq, Repr

namespace BatchScheduler

/-- `FlushBatch(batch, use_debug_mode)`: nothing for an empty batch; otherwise
the parameter is overwritten with `true` and the generated statement is
executed. Returns the statements sent so far. -/
def FlushBatch (batch : QueryBatch) (use_debug_mode : Bool) (sent : List KernelCall) :
    List KernelCall :=
  if batch.queries.isEmpty then sent
  else
    let use_debug_mode := true
    sent ++ [⟨batch, use_debug_mode⟩]

/-- The block of `Submit` that runs under the lock, for a parsed query. -/
def SubmitParsed (parsed : ParsedQuery) (s : BatchScheduler) : BatchScheduler :=
  let m1 := StdMap.index QueryBatch.empty parsed.fp_hash s.pending_batches_
  let batch0 := (StdMap.find parsed.fp_hash m1).getD QueryBatch.empty
  let batch1 : QueryBatch :=
    if batch0.queries.isEmpty then
      { batch0 with fingerprint := parsed.fingerprint, fp_hash := parsed.fp_hash }
    else batch0
  let batch : QueryBatch := { batch1 with queries := batch1.queries ++ [parsed] }
  let m2 := StdMap.assign parsed.fp_hash batch m1
  if s.max_batch_size_ ≤ batch.queries.length then
    { s with sent := FlushBatch batch false s.sent,
             pending_batches_ := StdMap.erase parsed.fp_hash m2 }
  else { s with pending_batches_ := m2 }

/-- `BatchScheduler::Submit`. An exception of `Analyze` leaves the call. -/
def Submit (pq : PgQuery) (req_id : Int) (sql : String) (s : BatchScheduler) :
    Except String BatchScheduler :=
  match SQLParser.Analyze pq req_id sql with
  | Except.error e => Except.error e
  | Except.ok none => Except.ok s
  | Except.ok (some parsed) => Except.ok (SubmitParsed parsed s)

/-- The iterator loop of one sweep of `RunLoop` over the entries from the
current iterator position on: each entry is flushed when non-empty and then
erased. Returns the entries left and the statements sent. -/
def sweep : List (Nat × QueryBatch) → List KernelCall → List (Nat × QueryBatch) × List KernelCall
  | [], sent => ([], sent)
  | (_, batch) :: rest, sent =>
    let sent' := if ¬ batch.queries.isEmpty then FlushBatch batch false sent else sent
    sweep rest sent'

/-- One iteration of the `while (running_)` loop of `RunLoop`, after the
sleep: the sweep under the lock. -/
def RunLoop (s : BatchScheduler) : BatchScheduler :=
  let r := sweep s.pending_batches_ s.sent
  { s with pending_batches_ := r.1, sent := r.2 }

/-- Consecutive `Submit` calls, one per `(req_id, sql)` pair, stopping at the
first call that throws. -/
def SubmitAll (pq : PgQuery) : List (Int × String) → BatchScheduler → Except String BatchScheduler
  | [], s => Except.ok s
  | r :: rest, s =>
    match Submit pq r.1 r.2 s with
    | Except.error e => Except.error e
    | Except.ok s' => SubmitAll pq rest s'

/-- The pending batch of hash `h` holds exactly the queries `pre`, under the
fingerprint `fp`; no entry at all when `pre` is empty. -/
def Holds (s : BatchScheduler) (h : Nat) (fp : String) (pre : List ParsedQuery) : Prop :=
  (pre = [] ∧ StdMap.find h s.pending_batches_ = none) ∨
  (pre ≠ [] ∧ StdMap.find h s.pending_batches_ = some ⟨fp, h, pre⟩)

/-- The hypothesis on a run of submissions: request `r` parses to query `q`,
whose fingerprint hash is `h`. -/
def ParsesTo (pq : PgQuery) (h : Nat) (r : Int × String) (q : ParsedQuery) : Prop :=
  SQLParser.Analyze pq r.1 r.2 = Except.ok (some q) ∧ q.fp_hash = h

end BatchScheduler

/-! ## Wire payload (`mqo.proto`, used through `mqo.pb.h`) -/

/-- The `oneof typed_value` of `mqo::Value`. A `float_val` is kept by its
IEEE-754 bit pattern. -/
inductive TypedValue where
  | kIntVal (int_val : Int)
  | kFloatVal (float_bits : Nat)
  | kStringVal (string_val : String)
  | kBoolVal (bool_val : Bool)
  | TYPED_VALUE_NOT_SET
  deriving DecidableEq, Repr

structure Value where
  is_null : Bool
  typed_value : TypedValue
  deriving DecidableEq, Repr

structure ParamRow where
  values : List Value
  deriving DecidableEq, Repr

structure BatchPayload where
  template_sql : String
  use_mqo : Bool
  dry_run : Bool
  scan_table : String
  scan_col : String
  param_types : List String
  rows : List ParamRow
  deriving DecidableEq, Repr

/-! ## The engine interface (PostgreSQL SPI, catalog and table access) -/

abbrev Oid := Nat
abbrev Datum := Nat
/-- A plan handle; `0` is `NULL`. -/
abbrev SPIPlanPtr := Nat

def InvalidOid : Oid := 0
def BOOLOID : Oid := 16
def INT8OID : Oid := 20
def TEXTOID : Oid := 25
def FLOAT8OID : Oid := 701
def InvalidAttrNumber : Int := 0
def SPI_OK_CONNECT : Int := 1

/-- Log levels of `pg_redef_macro.hpp`. -/
def DEBUG1 : Nat := 14
def WARNING : Nat := 19
def ERROR : Nat := 20

/-- A call made to the engine (or the entry into one of the dispatch routines
of `Executor`), with the answer where there is one. `SPI_execute_plan` with
answer `none` is a call that raised. -/
inductive Event where
  | enter (routine : String)
  | SPI_connect (ret : Int)
  | SPI_finish
  | SPI_prepare (sql : String) (arg_types : List Oid) (plan : SPIPlanPtr)
  | SPI_keepplan (plan : SPIPlanPtr) (ret : Int)
  | SPI_freeplan (plan : SPIPlanPtr)
  | SPI_plan_is_valid (plan : SPIPlanPtr) (valid : Bool)
  | SPI_execute_plan (plan : SPIPlanPtr) (values : List Datum) (nulls : List Char)
      (read_only : Bool) (ret : Option Int)
  | SPI_freetuptable
  | BeginInternalSubTransaction
  | ReleaseCurrentSubTransaction
  | RollbackAndReleaseCurrentSubTransaction
  | PushActiveSnapshot
  | PopActiveSnapshot
  | AllocSetContextCreate
  | MemoryContextReset
  | MemoryContextSwitchTo (session : Bool)
  | malloc_trim
  | table_open (table_oid : Oid)
  | table_beginscan
  | table_slot_create
  | ExecDropSingleTupleTableSlot
  | table_endscan
  | table_close
  | elog (level : Nat) (msg : String)
  deriving DecidableEq, Repr

/-- A tuple in a scan slot, read through `slot_getattr`: the datum of the
attribute, `none` when it is null. -/
abbrev TupleSlot := Int → Option Datum

/-- The engine. Every function receives the calls made so far. A `none`
answer of `CStringGetTextDatum`, `regtypein`, `regclassin` or
`SPI_execute_plan` is the call raising an exception. -/
structure Engine where
  SPI_connect : List Event → Int
  SPI_prepare : List Event → String → List Oid → SPIPlanPtr
  SPI_result : List Event → Int
  SPI_keepplan : List Event → SPIPlanPtr → Int
  SPI_plan_is_valid : List Event → SPIPlanPtr → Bool
  SPI_getargcount : List Event → SPIPlanPtr → Nat
  SPI_getargtypeid : List Event → SPIPlanPtr → Nat → Oid
  SPI_execute_plan : List Event → SPIPlanPtr → List Datum → List Char → Bool → Option Int
  CStringGetTextDatum : List Event → String → Option Datum
  regtypein : List Event → String → Option Oid
  regclassin : List Event → String → Option Oid
  get_attnum : List Event → Oid → String → Int
  get_atttype : List Event → Oid → Int → Oid
  get_typlenbyval : List Event → Oid → Int × Bool
  table_scan : List Event → Oid → List TupleSlot
  datumIsEqual : Datum → Datum → Bool → Int → Bool

/-- The process state on the engine side: the calls made so far (oldest
first) and the two static members `Planner::plan_cache_` and
`Runtime::mqo_session_context_` (`false` is `NULL`). -/
structure World where
  trace : List Event
  plan_cache_ : List (String × SPIPlanPtr)
  mqo_session_context_ : Bool

def World.emit (w : World) (evs : List Event) : World :=
  { w with trace := w.trace ++ evs }

/-- A C++ exception: a `std::exception` with its `what()`, or anything else. -/
inductive CppException where
  | std (what : String)
  | other
  deriving DecidableEq, Repr

/-- How a call ends: it returns, a C++ exception leaves it, the engine's
error exit (`elog(ERROR)`) is taken, or the behaviour is undefined (an
out-of-range access to a repeated field). -/
inductive Outcome (α : Type) where
  | ret (a : α) (w : World)
  | throw (e : CppException) (w : World)
  | pgerror (msg : String) (w : World)
  | undefined (w : World)

def Outcome.world {α : Type} : Outcome α → World
  | Outcome.ret _ w => w
  | Outcome.throw _ w => w
  | Outcome.pgerror _ w => w
  | Outcome.undefined w => w

/-- `elog(level, msg)`: the message is reported; at `ERROR` and above control
does not come back. -/
def elog (level : Nat) (msg : String) (w : World) : Outcome Unit :=
  if ERROR ≤ level then Outcome.pgerror msg (w.emit [Event.elog level msg])
  else Outcome.ret () (w.emit [Event.elog level msg])

/-! ## `TypeMapper` (`Kernel/src/exec/type_mapper.cpp`) -/

structure PgParam where
  type_id : Oid
  value : Datum
  null_flag : Char
  deriving DecidableEq, Repr

/-- `Int64GetDatum`: the two's complement 64-bit pattern. -/
def Int64GetDatum (v : Int) : Datum := (v % 2 ^ 64).toNat

def BoolGetDatum (b : Bool) : Datum := if b then 1 else 0

namespace TypeMapper

/-- `TypeMapper::ToPgParam`; `none` when building the text datum raises. -/
def ToPgParam (eng : Engine) (hist : List Event) (val : Value) (target_type : Oid) :
    Option PgParam :=
  if val.is_null then some ⟨target_type, 0, 'n'⟩
  else
    match val.typed_value with
    | TypedValue.kIntVal v => some ⟨target_type, Int64GetDatum v, ' '⟩
    | TypedValue.kFloatVal bits => some ⟨target_type, bits, ' '⟩
    | TypedValue.kStringVal s =>
      match eng.CStringGetTextDatum hist s with
      | some d => some ⟨target_type, d, ' '⟩
      | none => none
    | TypedValue.kBoolVal b => some ⟨target_type, BoolGetDatum b, ' '⟩
    | TypedValue.TYPED_VALUE_NOT_SET => some ⟨target_type, 0, 'n'⟩

def DeduceTypeOid (val : Value) : Oid :=
  match val.typed_value with
  | TypedValue.kIntVal _ => INT8OID
  | TypedValue.kFloatVal _ => FLOAT8OID
  | TypedValue.kStringVal _ => TEXTOID
  | TypedValue.kBoolVal _ => BOOLOID
  | TypedValue.TYPED_VALUE_NOT_SET => TEXTOID

def ResolveTypeOid (eng : Engine) (hist : List Event) (type_name : String) : Oid :=
  if type_name.isEmpty then TEXTOID
  else
    match eng.regtypein hist type_name with
    | some type_oid => type_oid
    | none => TEXTOID

end TypeMapper

/-- How binding one row ends. -/
inductive BindResult where
  | bound (values : List Datum) (nulls : List Char)
  | raised
  | out_of_range
  deriving DecidableEq, Repr

/-- The loop `for (i = 0; i < arg_count; ++i)` that converts `row.values(i)`
to the `i`-th target type and stores datum and null flag. -/
def bindValues (eng : Engine) (hist : List Event) : List Oid → List Value → BindResult
  | [], _ => BindResult.bound [] []
  | _ :: _, [] => BindResult.out_of_range
  | t :: ts, v :: vs =>
    match TypeMapper.ToPgParam eng hist v t with
    | none => BindResult.raised
    | some p =>
      match bindValues eng hist ts vs with
      | BindResult.bound ds ns => BindResult.bound (p.value :: ds) (p.null_flag :: ns)
      | r => r

/-! ## `Planner` (`Kernel/src/exec/planner.cpp`) -/

def MAX_PLAN_CACHE_SIZE : Nat := 50

namespace Planner

/-- `Planner::PrepareSPI`. -/
def PrepareSPI (eng : Engine) (payload : BatchPayload) (w : World) : Outcome SPIPlanPtr :=
  match payload.rows with
  | [] => Outcome.ret 0 w
  | first_row :: _ =>
    let arg_types := first_row.values.map TypeMapper.DeduceTypeOid
    let plan := eng.SPI_prepare w.trace payload.template_sql arg_types
    let w1 := w.emit [Event.SPI_prepare payload.template_sql arg_types plan]
    if plan = 0 then
      Outcome.throw
        (CppException.std ("SPI_prepare failed. Code: " ++ toString (eng.SPI_result w1.trace)))
        w1
    else Outcome.ret plan w1

/-- The loop over the cache that frees every non-`NULL` handle. -/
def freeAll : List (String × SPIPlanPtr) → List Event
  | [] => []
  | (_, plan) :: rest =>
    (if plan ≠ 0 then [Event.SPI_freeplan plan] else []) ++ freeAll rest

/-- The argument types `PrepareMQO` passes to `SPI_prepare`. -/
def argTypes (eng : Engine) (hist : List Event) (payload : BatchPayload)
    (first_row : ParamRow) : List Oid :=
  if payload.param_types.length = first_row.values.length then
    payload.param_types.map (TypeMapper.ResolveTypeOid eng hist)
  else first_row.values.map TypeMapper.DeduceTypeOid

/-- The tail of `PrepareMQO` after the cache lookup: prepare, keep, insert. -/
def prepareNew (eng : Engine) (payload : BatchPayload) (first_row : ParamRow) (w : World) :
    Outcome SPIPlanPtr :=
  let sql_key := payload.template_sql
  let arg_types := argTypes eng w.trace payload first_row
  let plan := eng.SPI_prepare w.trace sql_key arg_types
  let w1 := w.emit [Event.SPI_prepare sql_key arg_types plan]
  if plan = 0 then Outcome.throw (CppException.std "SPI_prepare MQO failed.") w1
  else
    let kept := eng.SPI_keepplan w1.trace plan
    let w2 := w1.emit [Event.SPI_keepplan plan kept]
    if kept = 0 then
      Outcome.ret plan
        { w2 with plan_cache_ :=
            StdMap.assign sql_key plan (StdMap.index 0 sql_key w2.plan_cache_) }
    else Outcome.ret plan w2

/-- `Planner::PrepareMQO`. -/
def PrepareMQO (eng : Engine) (payload : BatchPayload) (w : World) : Outcome SPIPlanPtr :=
  match payload.rows with
  | [] => Outcome.ret 0 w
  | first_row :: _ =>
    let sql_key := payload.template_sql
    let w1 : World :=
      if MAX_PLAN_CACHE_SIZE ≤ w.plan_cache_.length then
        { w.emit (Event.elog DEBUG1
            ("[Lumos] Plan cache full (" ++ toString w.plan_cache_.length ++ "), flushing...")
            :: freeAll w.plan_cache_) with plan_cache_ := [] }
      else w
    match StdMap.find sql_key w1.plan_cache_ with
    | some cached_plan =>
      let valid := eng.SPI_plan_is_valid w1.trace cached_plan
      let w2 := w1.emit [Event.SPI_plan_is_valid cached_plan valid]
      if valid then Outcome.ret cached_plan w2
      else
        prepareNew eng payload first_row
          { w2.emit [Event.SPI_freeplan cached_plan] with
            plan_cache_ := StdMap.erase sql_key w2.plan_cache_ }
    | none => prepareNew eng payload first_row w1

end Planner

/-! ## `Runtime` (`Kernel/src/exec/runtime.cpp`) -/

namespace Runtime

/-- Local state of the row loop of `ExecuteSPILoop`. -/
inductive SPILoopResult where
  | done (success_count : Nat) (trace : List Event)
  | raised (trace : List Event)
  | out_of_range (trace : List Event)

/-- The trace at the end of the loop of `ExecuteSPILoop`. -/
def SPILoopResult.events : SPILoopResult → List Event
  | SPILoopResult.done _ t => t
  | SPILoopResult.raised t => t
  | SPILoopResult.out_of_range t => t

/-- The loop over `payload.rows()` of `ExecuteSPILoop`; every value is bound
with target type `INT8OID`. -/
def spiLoop (eng : Engine) (plan : SPIPlanPtr) (arg_count : Nat) :
    List ParamRow → Nat → List Event → SPILoopResult
  | [], success_count, trace => SPILoopResult.done success_count trace
  | row :: rest, success_count, trace =>
    match bindValues eng trace (List.replicate arg_count INT8OID) row.values with
    | BindResult.raised => SPILoopResult.raised trace
    | BindResult.out_of_range => SPILoopResult.out_of_range trace
    | BindResult.bound values nulls =>
      match eng.SPI_execute_plan trace plan values nulls false with
      | none =>
        SPILoopResult.raised (trace ++ [Event.SPI_execute_plan plan values nulls false none])
      | some ret =>
        let trace1 := trace ++ [Event.SPI_execute_plan plan values nulls false (some ret)]
        if 0 ≤ ret then
          spiLoop eng plan arg_count rest (success_count + 1) (trace1 ++ [Event.SPI_freetuptable])
        else spiLoop eng plan arg_count rest success_count trace1

/-- `Runtime::ExecuteSPILoop`. -/
def ExecuteSPILoop (eng : Engine) (plan : SPIPlanPtr) (payload : BatchPayload) (w : World) :
    Outcome Nat :=
  if plan = 0 then Outcome.ret 0 w
  else
    match payload.rows with
    | [] => Outcome.undefined w
    | row0 :: _ =>
      match spiLoop eng plan row0.values.length payload.rows 0 w.trace with
      | SPILoopResult.done success_count trace =>
        Outcome.ret success_count { w with trace := trace }
      | SPILoopResult.raised trace => Outcome.throw CppException.other { w with trace := trace }
      | SPILoopResult.out_of_range trace => Outcome.undefined { w with trace := trace }

/-- Local state of the row loop of `ExecuteBatchMQO`; `threw` is set when an
exception left the loop for the `catch (...)` handler. -/
structure MQOLoop where
  success_count : Nat
  error_occurred : Bool
  threw : Bool
  trace : List Event

/-- The loop over `payload.rows()` inside the `try` block of
`ExecuteBatchMQO`. The length guard makes `out_of_range` unreachable for the
bound row, so it shares the branch of an exception. -/
def mqoLoop (eng : Engine) (plan : SPIPlanPtr) (arg_count : Nat) (arg_types : List Oid) :
    List ParamRow → MQOLoop → MQOLoop
  | [], st => st
  | row :: rest, st =>
    if row.values.length ≠ arg_count then mqoLoop eng plan arg_count arg_types rest st
    else
      let trace1 := st.trace ++ [Event.MemoryContextSwitchTo true]
      match bindValues eng trace1 arg_types row.values with
      | BindResult.bound values nulls =>
        match eng.SPI_execute_plan trace1 plan values nulls false with
        | none =>
          { st with threw := true,
                    trace := trace1 ++ [Event.SPI_execute_plan plan values nulls false none] }
        | some ret =>
          let trace2 := trace1 ++ [Event.SPI_execute_plan plan values nulls false (some ret)]
          let st1 : MQOLoop :=
            if 0 ≤ ret then
              { st with success_count := st.success_count + 1,
                        trace := trace2 ++ [Event.SPI_freetuptable] }
            else { st with error_occurred := true, trace := trace2 }
          mqoLoop eng plan arg_count arg_types rest
            { st1 with trace := st1.trace ++
                [Event.MemoryContextSwitchTo false, Event.MemoryContextReset] }
      | _ => { st with threw := true, trace := trace1 }

/-- The state of `ExecuteBatchMQO` when the row loop starts: the
sub-transaction is open, the snapshot pushed, the session context ready. -/
def mqoStart (w : World) : MQOLoop :=
  { success_count := 0, error_occurred := false, threw := false,
    trace := w.trace ++ [Event.BeginInternalSubTransaction, Event.PushActiveSnapshot,
      if w.mqo_session_context_ then Event.MemoryContextReset
      else Event.AllocSetContextCreate] }

/-- The state of `ExecuteBatchMQO` when control leaves the `try` block. -/
def mqoRows (eng : Engine) (plan : SPIPlanPtr) (payload : BatchPayload) (w : World) : MQOLoop :=
  let arg_count := eng.SPI_getargcount w.trace plan
  let arg_types := (List.range arg_count).map (eng.SPI_getargtypeid w.trace plan)
  mqoLoop eng plan arg_count arg_types payload.rows (mqoStart w)

/-- The calls that end the sub-transaction. -/
def mqoFinish (dry_run : Bool) (error_occurred : Bool) (success_count : Nat) : List Event :=
  if dry_run || error_occurred then
    Event.RollbackAndReleaseCurrentSubTransaction ::
      (if dry_run then
        [Event.elog DEBUG1 ("[Lumos Dry-Run] Simulated " ++ toString success_count ++ " ops.")]
       else [])
  else [Event.ReleaseCurrentSubTransaction]

/-- `Runtime::ExecuteBatchMQO`. -/
def ExecuteBatchMQO (eng : Engine) (plan : SPIPlanPtr) (payload : BatchPayload) (w : World) :
    Outcome Nat :=
  if plan = 0 ∨ payload.rows.length = 0 then Outcome.ret 0 w
  else
    let st := mqoRows eng plan payload w
    let error_occurred := st.error_occurred || st.threw
    Outcome.ret st.success_count
      { w with
        mqo_session_context_ := true,
        trace := st.trace ++ [Event.PopActiveSnapshot]
          ++ mqoFinish payload.dry_run error_occurred st.success_count
          ++ [Event.malloc_trim] }

/-- The vector `search_keys`: the first value of every row that has one,
converted to the column type, null keys left out; `none` when a conversion
raises. -/
def searchKeys (eng : Engine) (hist : List Event) (type_id : Oid) :
    List ParamRow → Option (List Datum)
  | [] => some []
  | row :: rest =>
    match row.values with
    | [] => searchKeys eng hist type_id rest
    | v :: _ =>
      match TypeMapper.ToPgParam eng hist v type_id with
      | none => none
      | some p =>
        match searchKeys eng hist type_id rest with
        | none => none
        | some keys => some (if p.null_flag ≠ 'n' then p.value :: keys else keys)

/-- The loop `for (Datum key : search_keys)` with its `break` on the first
equal key: whether `match_count` is incremented for the value `val`. -/
def keyLoop (eng : Engine) (typbyval : Bool) (typlen : Int) (val : Datum) : List Datum → Bool
  | [] => false
  | key :: rest =>
    let equal :=
      if typbyval then decide (val = key) else eng.datumIsEqual val key typbyval typlen
    if equal then true else keyLoop eng typbyval typlen val rest

/-- The loop `while (table_scan_getnextslot(...))`. -/
def scanLoop (eng : Engine) (att_num : Int) (typbyval : Bool) (typlen : Int)
    (search_keys : List Datum) : List TupleSlot → Nat → Nat
  | [], match_count => match_count
  | slot :: rest, match_count =>
    match slot att_num with
    | none => scanLoop eng att_num typbyval typlen search_keys rest match_count
    | some val =>
      scanLoop eng att_num typbyval typlen search_keys rest
        (if keyLoop eng typbyval typlen val search_keys then match_count + 1 else match_count)

/-- `Runtime::ExecuteSharedScan`. -/
def ExecuteSharedScan (eng : Engine) (payload : BatchPayload) (w : World) : Outcome Nat :=
  if payload.scan_table.isEmpty ∨ payload.scan_col.isEmpty then Outcome.ret 0 w
  else
    let table_name := payload.scan_table
    let col_name := payload.scan_col
    match eng.regclassin w.trace table_name with
    | none =>
      Outcome.ret 0
        (w.emit [Event.elog WARNING ("SharedScan: Table '" ++ table_name ++ "' not found.")])
    | some table_oid =>
      let att_num := eng.get_attnum w.trace table_oid col_name
      if att_num = InvalidAttrNumber then
        Outcome.ret 0
          (w.emit [Event.elog WARNING ("SharedScan: Column '" ++ col_name ++ "' not found.")])
      else
        let type_id := eng.get_atttype w.trace table_oid att_num
        let typlen := (eng.get_typlenbyval w.trace type_id).1
        let typbyval := (eng.get_typlenbyval w.trace type_id).2
        match searchKeys eng w.trace type_id payload.rows with
        | none => Outcome.throw CppException.other w
        | some search_keys =>
          let w1 := w.emit
            [Event.table_open table_oid, Event.table_beginscan, Event.table_slot_create]
          let match_count :=
            scanLoop eng att_num typbyval typlen search_keys (eng.table_scan w1.trace table_oid) 0
          Outcome.ret match_count
            (w1.emit [Event.ExecDropSingleTupleTableSlot, Event.table_endscan, Event.table_close])

end Runtime

/-! ## `Executor` (`Kernel/src/exec/executor.cpp`) -/

namespace Executor

/-- `SPI_connect()` followed by the check of its result. -/
def connect (eng : Engine) (w : World) : Outcome Unit :=
  let ret := eng.SPI_connect w.trace
  let w1 := w.emit [Event.SPI_connect ret]
  if ret ≠ SPI_OK_CONNECT then Outcome.throw (CppException.std "SPI Connect failed") w1
  else Outcome.ret () w1

/-- The end of every dispatch routine: on an exception `SPI_finish()` and
rethrow, otherwise `SPI_finish()` and the result. -/
def finish (r : Outcome Nat) : Outcome Nat :=
  match r with
  | Outcome.ret res w => Outcome.ret res (w.emit [Event.SPI_finish])
  | Outcome.throw e w => Outcome.throw e (w.emit [Event.SPI_finish])
  | other => other

/-- `Executor::DispatchStandard`. -/
def DispatchStandard (eng : Engine) (payload : BatchPayload) (w : World) : Outcome Nat :=
  match connect eng (w.emit [Event.enter "DispatchStandard"]) with
  | Outcome.ret _ w1 =>
    finish
      (match Planner.PrepareSPI eng payload w1 with
       | Outcome.ret plan w2 =>
         if plan ≠ 0 then
           match Runtime.ExecuteSPILoop eng plan payload w2 with
           | Outcome.ret res w3 => Outcome.ret res (w3.emit [Event.SPI_freeplan plan])
           | other => other
         else Outcome.ret 0 w2
       | Outcome.throw e w2 => Outcome.throw e w2
       | Outcome.pgerror m w2 => Outcome.pgerror m w2
       | Outcome.undefined w2 => Outcome.undefined w2)
  | Outcome.throw e w1 => Outcome.throw e w1
  | Outcome.pgerror m w1 => Outcome.pgerror m w1
  | Outcome.undefined w1 => Outcome.undefined w1

/-- `Executor::DispatchMQO`. -/
def DispatchMQO (eng : Engine) (payload : BatchPayload) (w : World) : Outcome Nat :=
  match connect eng (w.emit [Event.enter "DispatchMQO"]) with
  | Outcome.ret _ w1 =>
    finish
      (match Planner.PrepareMQO eng payload w1 with
       | Outcome.ret plan w2 =>
         if plan ≠ 0 then Runtime.ExecuteBatchMQO eng plan payload w2
         else Outcome.ret 0 w2
       | Outcome.throw e w2 => Outcome.throw e w2
       | Outcome.pgerror m w2 => Outcome.pgerror m w2
       | Outcome.undefined w2 => Outcome.undefined w2)
  | Outcome.throw e w1 => Outcome.throw e w1
  | Outcome.pgerror m w1 => Outcome.pgerror m w1
  | Outcome.undefined w1 => Outcome.undefined w1

/-- `Executor::DispatchSharedScan`. -/
def DispatchSharedScan (eng : Engine) (payload : BatchPayload) (w : World) : Outcome Nat :=
  match connect eng (w.emit [Event.enter "DispatchSharedScan"]) with
  | Outcome.ret _ w1 => finish (Runtime.ExecuteSharedScan eng payload w1)
  | Outcome.throw e w1 => Outcome.throw e w1
  | Outcome.pgerror m w1 => Outcome.pgerror m w1
  | Outcome.undefined w1 => Outcome.undefined w1

/-- `Executor::Execute`. -/
def Execute (eng : Engine) (payload : BatchPayload) (w : World) : Outcome Nat :=
  if ¬ payload.scan_table.isEmpty ∧ ¬ payload.scan_col.isEmpty then
    DispatchSharedScan eng payload w
  else if payload.use_mqo then DispatchMQO eng payload w
  else DispatchStandard eng payload w

end Executor

/-! ## `LumosKernel` and the SQL entry points
(`Kernel/src/lumos_kernel.cpp`, `Kernel/src/pg_entry.cpp`) -/

namespace LumosKernel

/-- `LumosKernel::Dispatch`. `ParseFromArray` is the protobuf decoder of
`mqo::BatchPayload`; `none` is a failed decode. -/
def Dispatch (eng : Engine) (ParseFromArray : List Nat → Option BatchPayload)
    (data : List Nat) (w : World) : Outcome Unit :=
  match ParseFromArray data with
  | none =>
    match elog ERROR "LumosKernel: Protobuf parsing failed." w with
    | Outcome.ret _ w1 => Outcome.ret () w1
    | other => other
  | some payload =>
    let w1 : World :=
      if payload.dry_run then
        w.emit [Event.elog DEBUG1 "[Lumos] Mode: Dry-Run (Sandboxed Execution)"]
      else if ¬ payload.scan_table.isEmpty then
        w.emit [Event.elog DEBUG1 ("[Lumos] Mode: Shared Scan on " ++ payload.scan_table)]
      else w
    match Executor.Execute eng payload w1 with
    | Outcome.ret count w2 =>
      elog DEBUG1
        ("[Lumos] Batch completed. Processed/Simulated " ++ toString count ++ " rows.") w2
    | Outcome.throw (CppException.std what) w2 =>
      elog ERROR ("LumosKernel Exception: " ++ what) w2
    | Outcome.throw CppException.other w2 => Outcome.throw CppException.other w2
    | Outcome.pgerror m w2 => Outcome.pgerror m w2
    | Outcome.undefined w2 => Outcome.undefined w2

/-- The list of parameter type names of the report, separated by `", "`. -/
def joinParams : List String → String
  | [] => ""
  | [t] => t
  | t :: rest => t ++ ", " ++ joinParams rest

/-- `LumosKernel::DebugAnalyze`. -/
def DebugAnalyze (ParseFromArray : List Nat → Option BatchPayload) (data : List Nat) : String :=
  match ParseFromArray data with
  | none => "Parse Error"
  | some payload =>
    "SQL: " ++ payload.template_sql ++ "\n"
      ++ "Rows: " ++ toString payload.rows.length ++ "\n"
      ++ "DryRun: " ++ (if payload.dry_run then "YES" else "NO") ++ "\n"
      ++ "Params: [" ++ joinParams payload.param_types ++ "]\n"
      ++ (if ¬ payload.scan_table.isEmpty then
            "ScanHint: Table=" ++ payload.scan_table ++ ", Col=" ++ payload.scan_col
          else "ScanHint: NONE")

end LumosKernel

/-- The SQL function `mqo_dispatch`: the integer it returns, or the error. -/
def mqo_dispatch (eng : Engine) (ParseFromArray : List Nat → Option BatchPayload)
    (data : List Nat) (w : World) : Outcome Int :=
  match LumosKernel.Dispatch eng ParseFromArray data w with
  | Outcome.ret _ w1 => Outcome.ret 1 w1
  | Outcome.throw _ w1 =>
    match elog ERROR "[Lumos] Critical Dispatch Error." w1 with
    | Outcome.ret _ w2 => Outcome.ret 0 w2
    | Outcome.throw e w2 => Outcome.throw e w2
    | Outcome.pgerror m w2 => Outcome.pgerror m w2
    | Outcome.undefined w2 => Outcome.undefined w2
  | Outcome.pgerror m w1 => Outcome.pgerror m w1
  | Outcome.undefined w1 => Outcome.undefined w1

/-- The SQL function `mqo_debug`: the text it returns. -/
def mqo_debug (ParseFromArray : List Nat → Option BatchPayload)
    (data : List Nat) (w : World) : Outcome String :=
  Outcome.ret (LumosKernel.DebugAnalyze ParseFromArray data) w

/-! ## Payload encoder (`Proxy/src/scheduler.cpp`) -/

/-- The library functions the encoder calls: `pg_query_normalize` (`none` is
its `error` field being set), the search of the scan-hint regular expression
(the two capture groups of the first match), `std::stoll` and `std::stod`
(`none` is a thrown exception; a double is kept by its bit pattern), and the
protobuf serializer (`none` is `SerializeToString` returning false). -/
structure ProxyLibs where
  pg_query_normalize : String → Option String
  regex_search_hint : String → Option (String × String)
  stoll : String → Option Int
  stod : String → Option Nat
  SerializeToString : BatchPayload → Option (List Nat)

namespace BatchScheduler

/-- `BatchScheduler::GetPGTypeName`. -/
def GetPGTypeName (type : ParamType) : String :=
  match type with
  | ParamType.INTEGER => "int8"
  | ParamType.FLOAT => "float8"
  | ParamType.BOOL => "bool"
  | ParamType.STRING => "text"
  | ParamType.NULL_VAL => "text"
  | _ => "text"

/-- `BatchScheduler::TryExtractScanHint`: the values of `out_table` and
`out_col` after the call, both starting empty. -/
def TryExtractScanHint (libs : ProxyLibs) (sql : String) : String × String :=
  match libs.regex_search_hint sql with
  | some (table, col) => (table, col)
  | none => ("", "")

/-- The body of the loop over the parameters of a query: the `mqo::Value`
added for the parameter `p`. -/
def encodeValue (libs : ProxyLibs) (p : QueryParam) : Value :=
  match p.type with
  | ParamType.INTEGER =>
    match libs.stoll p.value with
    | some v => ⟨false, TypedValue.kIntVal v⟩
    | none => ⟨false, TypedValue.kIntVal 0⟩
  | ParamType.FLOAT =>
    match libs.stod p.value with
    | some bits => ⟨false, TypedValue.kFloatVal bits⟩
    | none => ⟨false, TypedValue.kFloatVal 0⟩
  | ParamType.BOOL => ⟨false, TypedValue.kBoolVal (p.value == "true" || p.value == "t")⟩
  | ParamType.NULL_VAL => ⟨true, TypedValue.TYPED_VALUE_NOT_SET⟩
  | _ => ⟨false, TypedValue.kStringVal p.value⟩

/-- The message `proto_payload` that `GenerateKernelPayload` builds for a
batch whose first query is `first_query`. -/
def protoPayload (libs : ProxyLibs) (dry_run_mode_ : Bool) (batch : QueryBatch)
    (first_query : ParsedQuery) : BatchPayload :=
  let base_sql := first_query.original_sql
  let final_template :=
    match libs.pg_query_normalize base_sql with
    | none => base_sql
    | some normalized_query => normalized_query
  let hint := TryExtractScanHint libs base_sql
  let has_hint := ! hint.1.isEmpty && ! hint.2.isEmpty
  { template_sql := final_template,
    use_mqo := true,
    dry_run := dry_run_mode_,
    scan_table := if has_hint then hint.1 else "",
    scan_col := if has_hint then hint.2 else "",
    param_types := first_query.params.map (fun p => GetPGTypeName p.type),
    rows := batch.queries.map (fun query => ⟨query.params.map (encodeValue libs)⟩) }

def hex_digits : List Char := "0123456789ABCDEF".data

/-- `BatchScheduler::ToHex` on the bytes of the input, as a list of
characters. -/
def ToHexChars : List Nat → List Char
  | [] => []
  | c :: rest =>
    let c := c % 256
    hex_digits.getD (c >>> 4) '0' :: hex_digits.getD (c &&& 0x0F) '0' :: ToHexChars rest

/-- `BatchScheduler::ToHex`. -/
def ToHex (input : List Nat) : String := String.mk (ToHexChars input)

/-- `BatchScheduler::GenerateKernelPayload`; `none` for an empty batch, where
`batch.queries[0]` is undefined. -/
def GenerateKernelPayload (libs : ProxyLibs) (dry_run_mode_ : Bool) (batch : QueryBatch)
    (use_debug_func : Bool) : Option String :=
  match batch.queries with
  | [] => none
  | first_query :: _ =>
    match libs.SerializeToString (protoPayload libs dry_run_mode_ batch first_query) with
    | none => some ""
    | some binary_data =>
      if use_debug_func then
        some ("SELECT mqo_debug(decode('" ++ ToHex binary_data ++ "', 'hex'));")
      else
        some ("SELECT mqo_dispatch(decode('" ++ ToHex binary_data ++ "', 'hex'));")

/-- The text of a statement sent to the engine. -/
def statement (libs : ProxyLibs) (s : BatchScheduler) (c : KernelCall) : Option String :=
  GenerateKernelPayload libs s.dry_run_mode_ c.batch c.use_debug_func

end BatchScheduler

/-! ## Reading a trace -/

/-- The calls made during a call that started in `w` and ended as `o`. -/
def newEvents {α : Type} (w : World) (o : Outcome α) : List Event :=
  o.world.trace.drop w.trace.length

/-- A row execution: a call of `SPI_execute_plan`. -/
def Event.isExec : Event → Bool
  | Event.SPI_execute_plan _ _ _ _ _ => true
  | _ => false

/-- A row execution that reported success (`ret >= 0`). -/
def Event.execOk : Event → Bool
  | Event.SPI_execute_plan _ _ _ _ (some ret) => decide (0 ≤ ret)
  | _ => false

/-- A row execution that reported failure (`ret < 0`). -/
def Event.execFailed : Event → Bool
  | Event.SPI_execute_plan _ _ _ _ (some ret) => decide (ret < 0)
  | _ => false

/-- An event that is neither a row execution nor the begin or end of a
sub-transaction. -/
def Event.neutral : Event → Bool
  | Event.SPI_execute_plan _ _ _ _ _ => false
  | Event.BeginInternalSubTransaction => false
  | Event.ReleaseCurrentSubTransaction => false
  | Event.RollbackAndReleaseCurrentSubTransaction => false
  | _ => true

/-- Nothing is committed: read from left to right, starting inside
(`open_ = true`) or outside a sub-transaction, the trace commits no
sub-transaction, every row execution happens while a sub-transaction is open,
and the trace ends with every opened sub-transaction rolled back. -/
def sandboxed : Bool → List Event → Bool
  | open_, [] => ! open_
  | _, Event.BeginInternalSubTransaction :: rest => sandboxed true rest
  | _, Event.RollbackAndReleaseCurrentSubTransaction :: rest => sandboxed false rest
  | _, Event.ReleaseCurrentSubTransaction :: _ => false
  | open_, Event.SPI_execute_plan _ _ _ _ _ :: rest => open_ && sandboxed open_ rest
  | open_, _ :: rest => sandboxed open_ rest

/-- An event that neither opens nor ends a sub-transaction. -/
def Event.inTxn : Event → Bool
  | Event.BeginInternalSubTransaction => false
  | Event.ReleaseCurrentSubTransaction => false
  | Event.RollbackAndReleaseCurrentSubTransaction => false
  | _ => true

/-- The event `e` is an execution of `plan` on the values bound from `row`
(each value converted to the plan's argument type at its position), and the
execution returned. -/
def Runtime.Attempts (eng : Engine) (plan : SPIPlanPtr) (arg_types : List Oid)
    (row : ParamRow) (e : Event) : Prop :=
  ∃ hist values nulls ret,
    bindValues eng hist arg_types row.values = BindResult.bound values nulls ∧
    e = Event.SPI_execute_plan plan values nulls false (some ret)

/-- The outcome `o` of a call started in `w` extends the trace of `w` by
events that satisfy `P`. -/
def GrowsBy {α : Type} (P : List Event → Prop) (w : World) (o : Outcome α) : Prop :=
  ∃ evs, o.world.trace = w.trace ++ evs ∧ P evs

/-- No event of the list is a row execution or the begin or end of a
sub-transaction. -/
def AllNeutral (evs : List Event) : Prop := ∀ e ∈ evs, e.neutral = true

/-- What the row loop did between the states `st` and `st'`, in terms of the
events `levs` it appended. -/
structure Runtime.LoopFacts (eng : Engine) (plan : SPIPlanPtr) (arg_count : Nat)
    (arg_types : List Oid) (rows : List ParamRow) (st st' : Runtime.MQOLoop)
    (levs : List Event) : Prop where
  trace_eq : st'.trace = st.trace ++ levs
  in_txn : ∀ e ∈ levs, e.inTxn = true
  count : st'.success_count = st.success_count + levs.countP Event.execOk
  err : st'.error_occurred = (st.error_occurred || levs.any Event.execFailed)
  attempts : st'.threw = false →
    List.Forall₂ (Runtime.Attempts eng plan arg_types)
      (rows.filter (fun r => decide (r.values.length = arg_count)))
      (levs.filter Event.isExec)

/-- The trace of `o` extends the trace of `w` and the first new event is the
entry into `routine`. -/
def Enters {α : Type} (routine : String) (w : World) (o : Outcome α) : Prop :=
  ∃ evs, o.world.trace = w.trace ++ Event.enter routine :: evs

/-- The outcome `o` of a call started in `w` commits nothing when `dry` is
set, and a returned count is the number of successful row executions. -/
def DryRunOK (dry : Bool) (w : World) (o : Outcome Nat) : Prop :=
  ∃ evs, o.world.trace = w.trace ++ evs ∧
    (dry = true → sandboxed false evs = true) ∧
    (∀ n w', o = Outcome.ret n w' → n = evs.countP Event.execOk)

/-- The state after the whole-cache eviction of `PrepareMQO`: the eviction is
logged, every non-`NULL` handle of the cache is released once, in map order,
and the cache is empty. -/
def Planner.evicted (w : World) : World :=
  { w with
    trace := w.trace ++
      Event.elog DEBUG1
        ("[Lumos] Plan cache full (" ++ toString w.plan_cache_.length ++ "), flushing...")
      :: (w.plan_cache_.filter (fun e => decide (e.2 ≠ 0))).map
          (fun e => Event.SPI_freeplan e.2),
    plan_cache_ := [] }

/-- The equality test of the scan for the column value `val` and one key. -/
def Runtime.keyEqual (eng : Engine) (typbyval : Bool) (typlen : Int) (val key : Datum) : Bool :=
  if typbyval then decide (val = key) else eng.datumIsEqual val key typbyval typlen

/-- Whether a scanned tuple counts: its hinted column is non-null and equal
to at least one search key. -/
def Runtime.rowMatches (eng : Engine) (att_num : Int) (typbyval : Bool) (typlen : Int)
    (keys : List Datum) (slot : TupleSlot) : Bool :=
  match slot att_num with
  | none => false
  | some val => keys.any (Runtime.keyEqual eng typbyval typlen val)

/-- The first parameter of a row as a search key: nothing for a row without
values or for a null value. -/
def Runtime.firstKey (eng : Engine) (hist : List Event) (type_id : Oid) (row : ParamRow) :
    Option Datum :=
  match row.values.head? with
  | none => none
  | some v =>
    match TypeMapper.ToPgParam eng hist v type_id with
    | none => none
    | some p => if p.null_flag ≠ 'n' then some p.value else none

/-- A sequence of `PrepareMQO` calls, one per payload, each starting in the
state the previous one left (whether it returned or threw). -/
def Planner.prepareAll (eng : Engine) : List BatchPayload → World → World
  | [], w => w
  | payload :: rest, w => Planner.prepareAll eng rest (Planner.PrepareMQO eng payload w).world

/-! ## Reading the result of the fingerprinter -/

/-- The source text of a token: the characters of `sql` from its start
offset up to its end offset. -/
def sourceText (sql : String) (tok : ScanToken) : String :=
  String.mk ((sql.data.drop tok.start.toNat).take (tok.«end» - tok.start).toNat)

/-- A literal token: integer, float, string, bit string, hex string, `TRUE`,
`FALSE` or `NULL`. -/
def isLiteral (pq : PgQuery) (tok : ScanToken) : Bool :=
  decide (tok.token = pq.ICONST ∨ tok.token = pq.FCONST ∨ tok.token = pq.SCONST ∨
    tok.token = pq.BCONST ∨ tok.token = pq.XCONST ∨ tok.token = pq.TRUE_P ∨
    tok.token = pq.FALSE_P ∨ tok.token = pq.NULL_P)

/-- The token immediately before `tok` is a minus token that ends where `tok`
starts. -/
def minusBefore (prev : Option ScanToken) (tok : ScanToken) : Bool :=
  match prev with
  | some p => decide (p.token = TOKEN_MINUS ∧ p.«end» = tok.start)
  | none => false

/-- Every token of the stream paired with the token immediately before it
(`prev` for the first one). -/
def withPrev : Option ScanToken → List ScanToken → List (Option ScanToken × ScanToken)
  | _, [] => []
  | prev, tok :: rest => (prev, tok) :: withPrev (some tok) rest

/-- The parameter `p` is the one of the literal token `e.2`, whose
predecessor is `e.1`: an integer literal has type `INTEGER`, any other numeric
literal type `FLOAT`, and the value of a numeric literal is its source text,
with a leading `-` exactly when a minus token ends where the literal starts. -/
def LiteralParam (pq : PgQuery) (sql : String) (e : Option ScanToken × ScanToken)
    (p : QueryParam) : Prop :=
  (e.2.token = pq.ICONST ∨ e.2.token = pq.FCONST →
    p.value = (if minusBefore e.1 e.2 then "-" ++ sourceText sql e.2 else sourceText sql e.2) ∧
    p.type = (if e.2.token = pq.ICONST then ParamType.INTEGER else ParamType.FLOAT))

/-- The offsets of a token lie inside the text: `0 ≤ start ≤ end ≤ |sql|`. -/
def TokenInText (sql : String) (tok : ScanToken) : Prop :=
  0 ≤ tok.start ∧ tok.start ≤ tok.«end» ∧ tok.«end» ≤ (sql.length : Int)

/-! ## Reachable scheduler states -/

/-- The states of the scheduler reachable from `s0` by `Submit` calls that
return and by periodic sweeps, in any order. -/
inductive BatchScheduler.Reachable (pq : PgQuery) (s0 : BatchScheduler) :
    BatchScheduler → Prop where
  | init : BatchScheduler.Reachable pq s0 s0
  | submit (s s' : BatchScheduler) (req_id : Int) (sql : String) :
      BatchScheduler.Reachable pq s0 s →
      BatchScheduler.Submit pq req_id sql s = Except.ok s' →
      BatchScheduler.Reachable pq s0 s'
  | sweep (s : BatchScheduler) :
      BatchScheduler.Reachable pq s0 s →
      BatchScheduler.Reachable pq s0 (BatchScheduler.RunLoop s)

/-- Every batch stored under a key `h` has `fp_hash = h` and holds only
queries with `fp_hash = h`, and every batch sent to the engine holds only
queries that share the batch's `fp_hash`. -/
def BatchScheduler.SameFingerprint (s : BatchScheduler) : Prop :=
  (∀ e ∈ s.pending_batches_, e.2.fp_hash = e.1 ∧ ∀ q ∈ e.2.queries, q.fp_hash = e.1) ∧
  (∀ c ∈ s.sent, ∀ q ∈ c.batch.queries, q.fp_hash = c.batch.fp_hash)

/-- The batch `Submit` writes back under the key of `parsed`, from the batch
`b0` found (or just created) there: fingerprint and hash are taken from the
query when `b0` is empty, and the query is appended. -/
def BatchScheduler.appended (parsed : ParsedQuery) (b0 : QueryBatch) : QueryBatch :=
  { (if b0.queries.isEmpty then
      { b0 with fingerprint := parsed.fingerprint, fp_hash := parsed.fp_hash }
    else b0) with
    queries := (if b0.queries.isEmpty then
      { b0 with fingerprint := parsed.fingerprint, fp_hash := parsed.fp_hash }
    else b0).queries ++ [parsed] }

/-- The value `v` encodes the parameter `p` by the parameter's type: an
`INTEGER` as the integer parsed from its text, or 0 when the text does not
parse; a `BOOL` as true exactly for the texts `true` and `t`; a `NULL` as a
null value; a `STRING` or `UNKNOWN` as the text itself. -/
def EncodesAs (libs : ProxyLibs) (p : QueryParam) (v : Value) : Prop :=
  (p.type = ParamType.INTEGER →
    v = ⟨false, TypedValue.kIntVal ((libs.stoll p.value).getD 0)⟩) ∧
  (p.type = ParamType.BOOL →
    v = ⟨false, TypedValue.kBoolVal (decide (p.value = "true" ∨ p.value = "t"))⟩) ∧
  (p.type = ParamType.NULL_VAL → v.is_null = true) ∧
  (p.type = ParamType.STRING ∨ p.type = ParamType.UNKNOWN →
    v = ⟨false, TypedValue.kStringVal p.value⟩)

/-- The engine type name of a parameter: `int8` for `INTEGER`, `float8` for
`FLOAT`, `bool` for `BOOL`, `text` for every other type. -/
def TypeNameOf (p : QueryParam) (name : String) : Prop :=
  (p.type = ParamType.INTEGER → name = "int8") ∧
  (p.type = ParamType.FLOAT → name = "float8") ∧
  (p.type = ParamType.BOOL → name = "bool") ∧
  (p.type ≠ ParamType.INTEGER ∧ p.type ≠ ParamType.FLOAT ∧ p.type ≠ ParamType.BOOL →
    name = "text")

/-! ## Standard hexadecimal decoding -/

/-- The value of a hexadecimal digit (`0`-`9`, `A`-`F`, `a`-`f`). -/
def hexValue (ch : Char) : Option Nat :=
  if '0' ≤ ch ∧ ch ≤ '9' then some (ch.toNat - '0'.toNat)
  else if 'A' ≤ ch ∧ ch ≤ 'F' then some (ch.toNat - 'A'.toNat + 10)
  else if 'a' ≤ ch ∧ ch ≤ 'f' then some (ch.toNat - 'a'.toNat + 10)
  else none

/-- Hexadecimal decoding of a text: two digits per byte, the high nibble
first; `none` for an odd length or a character that is no digit. -/
def hexDecode : List Char → Option (List Nat)
  | [] => some []
  | [_] => none
  | hi :: lo :: rest =>
    match hexValue hi, hexValue lo, hexDecode rest with
    | some h, some l, some bytes => some ((16 * h + l) :: bytes)
    | _, _, _ => none

/-! ### Sample data -/

/-- A tokenizer stub with the token codes of libpg_query: every statement has
fingerprint 7 and scans to a keyword followed by one integer literal at
offsets 7 to 8. -/
def samplePg : PgQuery where
  pg_query_fingerprint := fun _ => some 7
  pg_query_scan := fun _ => some [⟨0, 6, 600⟩, ⟨7, 8, 266⟩]
  ICONST := 266
  FCONST := 260
  SCONST := 261
  BCONST := 263
  XCONST := 264
  TRUE_P := 700
  FALSE_P := 701
  NULL_P := 702

def sampleRequests : List (Int × String) := [(0, "SELECT 1"), (1, "SELECT 2")]

def sampleQuery1 : ParsedQuery := ⟨0, "SELECT 1", "", 7, [⟨ParamType.INTEGER, "1"⟩]⟩

def sampleQuery2 : ParsedQuery := ⟨1, "SELECT 2", "", 7, [⟨ParamType.INTEGER, "2"⟩]⟩

/-- A scheduler with threshold 2 and nothing pending. -/
def sampleScheduler : BatchScheduler := ⟨2, true, [], []⟩

/-- An engine stub: plans have one `int8` argument, executing a plan fails
exactly on the value 13, the table named `t` has the one column `a` (by
value, 8 bytes) holding 1, 2, 3, 4, 5. -/
def sampleEngine : Engine where
  SPI_connect := fun _ => 1
  SPI_prepare := fun _ _ _ => 5
  SPI_result := fun _ => 0
  SPI_keepplan := fun _ _ => 0
  SPI_plan_is_valid := fun _ _ => true
  SPI_getargcount := fun _ _ => 1
  SPI_getargtypeid := fun _ _ _ => INT8OID
  SPI_execute_plan := fun _ _ values _ _ => if values = [13] then some (-1) else some 1
  CStringGetTextDatum := fun _ s => some (4096 + s.length)
  regtypein := fun _ name => if name = "int8" then some INT8OID else none
  regclassin := fun _ name => if name = "t" then some 16384 else none
  get_attnum := fun _ _ col => if col = "a" then 1 else 0
  get_atttype := fun _ _ _ => INT8OID
  get_typlenbyval := fun _ _ => (8, true)
  table_scan := fun _ _ =>
    [1, 2, 3, 4, 5].map (fun (v : Nat) (att : Int) => if att = 1 then some v else none)
  datumIsEqual := fun a b _ _ => decide (a = b)

/-- A fresh backend: no call made, empty plan cache, no session context. -/
def sampleWorld : World := ⟨[], [], false⟩

/-- A row of integer values. -/
def intRow (vs : List Int) : ParamRow := ⟨vs.map (fun v => ⟨false, TypedValue.kIntVal v⟩)⟩

/-- A payload for the MQO path: four rows, of which the second fails to
execute and the third has two values instead of one. -/
def samplePayload : BatchPayload where
  template_sql := "UPDATE t SET b = 0 WHERE a = $1"
  use_mqo := true
  dry_run := false
  scan_table := ""
  scan_col := ""
  param_types := ["int8"]
  rows := [intRow [1], intRow [13], intRow [2, 3], intRow [7]]

/-- The sample payload as a dry run on the simple path (`use_mqo = false`). -/
def sampleSimpleDryRun : BatchPayload :=
  { samplePayload with use_mqo := false, dry_run := true }

/-- The sample payload as a dry run on the MQO path. -/
def sampleDryRun : BatchPayload := { samplePayload with dry_run := true }

/-- A dry-run payload with a scan hint on column `a` of table `t` and the
first-parameter keys 2, 4, 9. -/
def sampleScan : BatchPayload where
  template_sql := "SELECT * FROM t WHERE a = $1"
  use_mqo := true
  dry_run := true
  scan_table := "t"
  scan_col := "a"
  param_types := ["int8"]
  rows := [intRow [2], intRow [4], intRow [9]]

/-- A plan cache at capacity: the 50 keys `q100` .. `q149` in ascending
order, key `q(100+i)` holding handle `100 + i`. -/
def sampleFullCache : List (String × SPIPlanPtr) :=
  (List.range 50).map (fun i => ("q" ++ toString (100 + i), 100 + i))

/-- A backend whose plan cache is at capacity. -/
def sampleFullWorld : World := ⟨[], sampleFullCache, false⟩

/-- A backend whose plan cache holds the single entry `q100`. -/
def sampleHitWorld : World := ⟨[], [("q100", 100)], false⟩

/-- A payload whose template is the cached key `q100`. -/
def sampleCachedPayload : BatchPayload :=
  { samplePayload with template_sql := "q100" }

/-- A decoder stub: the empty byte string decodes to the default message,
every other byte string is malformed. -/
def sampleParse : List Nat → Option BatchPayload :=
  fun data => if data = [] then some ⟨"", false, false, "", "", [], []⟩ else none

/-- A text value. -/
def textValue (s : String) : Value := ⟨false, TypedValue.kStringVal s⟩

/-- The sample engine, except that building the text datum of `boom` raises. -/
def raisingEngine : Engine :=
  { sampleEngine with
    CStringGetTextDatum := fun _ s => if s = "boom" then none else some (4096 + s.length),
    SPI_getargtypeid := fun _ _ _ => TEXTOID }

/-- Three rows of one text value; binding the second one raises on
`raisingEngine`. -/
def raisingPayload : BatchPayload where
  template_sql := "INSERT INTO t VALUES ($1)"
  use_mqo := true
  dry_run := false
  scan_table := ""
  scan_col := ""
  param_types := ["text"]
  rows := [⟨[textValue "a"]⟩, ⟨[textValue "boom"]⟩, ⟨[textValue "bc"]⟩]

/-- The payload `raisingPayload` without its throwing row. -/
def raisingPayloadWithout : BatchPayload :=
  { raisingPayload with rows := [⟨[textValue "a"]⟩, ⟨[textValue "bc"]⟩] }

/-- A tokenizer stub for the text `SELECT -5`: a keyword, a minus token at
offset 7 and an integer literal at offset 8. -/
def samplePgMinus : PgQuery :=
  { samplePg with pg_query_scan := fun _ => some [⟨0, 6, 600⟩, ⟨7, 8, 45⟩, ⟨8, 9, 266⟩] }

/-- Library stubs for the encoder: no normalization, no scan hint, decimal
parsing by `String.toInt?`, and a serializer that always yields the two bytes
`0A FF`. -/
def sampleLibs : ProxyLibs where
  pg_query_normalize := fun _ => none
  regex_search_hint := fun _ => none
  stoll := fun s => s.toInt?
  stod := fun _ => none
  SerializeToString := fun _ => some [10, 255]

/-- The batch of the two sample queries. -/
def sampleBatch : QueryBatch := ⟨"", 7, [sampleQuery1, sampleQuery2]⟩

/-- A scheduler with a high threshold holding the sample batch as its only
pending batch. -/
def samplePendingScheduler : BatchScheduler := ⟨100, true, [(7, sampleBatch)], []⟩

/-! # Theorems -/

/-! ## Lemmas on `StdMap` -/

namespace StdMap

variable {κ : Type} {β : Type}

theorem find_insert_self [DecidableEq κ] [LT κ] [DecidableRel (fun (a b : κ) => a < b)]
    (k : κ) (v : β) (m : List (κ × β)) : find k (insert k v m) = some v := by
  induction m with
  | nil => simp [insert, find]
  | cons e t ih =>
    obtain ⟨k', v'⟩ := e
    unfold insert
    by_cases h1 : k < k'
    · simp [h1, find]
    · by_cases h2 : k' = k
      · subst h2
        simp [h1, find]
      · simp [h1, h2, find, ih]

theorem find_index [DecidableEq κ] [LT κ] [DecidableRel (fun (a b : κ) => a < b)]
    (dflt : β) (k : κ) (m : List (κ × β)) :
    find k (index dflt k m) = some ((find k m).getD dflt) := by
  unfold index
  cases h : find k m with
  | none => simp [find_insert_self]
  | some v => simp [h]

theorem find_assign_self [DecidableEq κ] (k : κ) (v v0 : β) (m : List (κ × β))
    (h : find k m = some v0) : find k (assign k v m) = some v := by
  induction m with
  | nil => simp [find] at h
  | cons e t ih =>
    obtain ⟨k', v'⟩ := e
    by_cases h2 : k' = k
    · simp [assign, h2, find]
    · simp [find, h2] at h
      simp [assign, h2, find, ih h]

theorem find_erase_self [DecidableEq κ] (k : κ) (m : List (κ × β)) :
    find k (erase k m) = none := by
  induction m with
  | nil => simp [erase, find]
  | cons e t ih =>
    obtain ⟨k', v'⟩ := e
    by_cases h2 : k' = k
    · simpa [erase, h2] using ih
    · simp only [erase] at ih
      simp [erase, h2, find]
      simpa using ih

end StdMap

/-! ## The batch aggregator -/

namespace BatchScheduler

theorem SubmitParsed_below (s : BatchScheduler) (h : Nat) (fp : String)
    (pre : List ParsedQuery) (q : ParsedQuery) (hq : q.fp_hash = h)
    (hfp : pre = [] → fp = q.fingerprint) (hs : Holds s h fp pre)
    (hlt : pre.length + 1 < s.max_batch_size_) :
    (SubmitParsed q s).sent = s.sent ∧
    (SubmitParsed q s).max_batch_size_ = s.max_batch_size_ ∧
    StdMap.find h (SubmitParsed q s).pending_batches_ = some ⟨fp, h, pre ++ [q]⟩ := by
  subst hq
  have hfi := StdMap.find_index QueryBatch.empty q.fp_hash s.pending_batches_
  rcases hs with ⟨hpre, hnone⟩ | ⟨hpre, hsome⟩
  · subst hpre
    have hfp' := hfp rfl
    subst hfp'
    rw [hnone] at hfi
    have hnot : ¬ s.max_batch_size_ ≤ 1 := by simp at hlt; omega
    simp only [SubmitParsed]
    rw [hfi]
    simp only [QueryBatch.empty, Option.getD_some, Option.getD_none, List.isEmpty_nil,
      if_true, List.nil_append, List.length_singleton, hnot, if_false, true_and]
    exact StdMap.find_assign_self _ _ _ _ hfi
  · rw [hsome] at hfi
    have hne : pre.isEmpty = false := by cases pre <;> simp_all
    have hnot : ¬ s.max_batch_size_ ≤ (pre ++ [q]).length := by simp; omega
    simp only [SubmitParsed]
    rw [hfi]
    simp only [Option.getD_some, hne, hnot, Bool.false_eq_true, if_false, true_and]
    exact StdMap.find_assign_self _ _ _ _ hfi

theorem SubmitParsed_reach (s : BatchScheduler) (h : Nat) (fp : String)
    (pre : List ParsedQuery) (q : ParsedQuery) (hq : q.fp_hash = h)
    (hfp : pre = [] → fp = q.fingerprint) (hs : Holds s h fp pre)
    (hge : s.max_batch_size_ ≤ pre.length + 1) :
    (SubmitParsed q s).sent = s.sent ++ [⟨⟨fp, h, pre ++ [q]⟩, true⟩] ∧
    (SubmitParsed q s).max_batch_size_ = s.max_batch_size_ ∧
    StdMap.find h (SubmitParsed q s).pending_batches_ = none := by
  subst hq
  have hfi := StdMap.find_index QueryBatch.empty q.fp_hash s.pending_batches_
  rcases hs with ⟨hpre, hnone⟩ | ⟨hpre, hsome⟩
  · subst hpre
    have hfp' := hfp rfl
    subst hfp'
    rw [hnone] at hfi
    have hle : s.max_batch_size_ ≤ 1 := by simpa using hge
    simp only [SubmitParsed]
    rw [hfi]
    simp only [QueryBatch.empty, Option.getD_some, Option.getD_none, List.isEmpty_nil,
      if_true, List.nil_append, List.length_singleton, hle, true_and]
    exact ⟨by simp [FlushBatch], StdMap.find_erase_self _ _⟩
  · rw [hsome] at hfi
    have hne : pre.isEmpty = false := by cases pre <;> simp_all
    have hle : s.max_batch_size_ ≤ (pre ++ [q]).length := by simpa using hge
    simp only [SubmitParsed]
    rw [hfi]
    simp only [Option.getD_some, hne, hle, Bool.false_eq_true, if_false, if_true, true_and]
    exact ⟨by simp [FlushBatch], StdMap.find_erase_self _ _⟩

theorem SubmitAll_below (pq : PgQuery) (h : Nat) (fp : String)
    (reqs : List (Int × String)) (qs : List ParsedQuery)
    (hp : List.Forall₂ (ParsesTo pq h) reqs qs) :
    ∀ (s : BatchScheduler) (pre : List ParsedQuery), Holds s h fp pre →
      (pre = [] → ∀ q, qs.head? = some q → fp = q.fingerprint) →
      pre.length + qs.length < s.max_batch_size_ →
      ∃ s', SubmitAll pq reqs s = Except.ok s' ∧ s'.sent = s.sent ∧
        s'.max_batch_size_ = s.max_batch_size_ ∧ Holds s' h fp (pre ++ qs) := by
  induction hp with
  | nil =>
    intro s pre hs _ _
    exact ⟨s, rfl, rfl, rfl, by simpa using hs⟩
  | @cons r q rest qrest hrq _ ih =>
    intro s pre hs hfp hlt
    obtain ⟨hparse, hq⟩ := hrq
    have hlt1 : pre.length + 1 < s.max_batch_size_ := by
      simp only [List.length_cons] at hlt; omega
    obtain ⟨h1, h2, h3⟩ := SubmitParsed_below s h fp pre q hq
      (fun hpre => hfp hpre q rfl) hs hlt1
    have hs1 : Holds (SubmitParsed q s) h fp (pre ++ [q]) := Or.inr ⟨by simp, h3⟩
    obtain ⟨s', e1, e2, e3, e4⟩ := ih (SubmitParsed q s) (pre ++ [q]) hs1
      (fun hpre => by simp at hpre)
      (by rw [h2]; simp only [List.length_append, List.length_cons, List.length_nil] at hlt ⊢; omega)
    refine ⟨s', ?_, by rw [e2, h1], by rw [e3, h2], by simpa using e4⟩
    simp only [SubmitAll, Submit, hparse]
    exact e1

theorem SubmitAll_reach (pq : PgQuery) (h : Nat) (fp : String)
    (reqs : List (Int × String)) (qs : List ParsedQuery)
    (hp : List.Forall₂ (ParsesTo pq h) reqs qs) :
    ∀ (s : BatchScheduler) (pre : List ParsedQuery), Holds s h fp pre →
      (pre = [] → ∀ q, qs.head? = some q → fp = q.fingerprint) →
      qs ≠ [] → pre.length + qs.length = s.max_batch_size_ →
      ∃ s', SubmitAll pq reqs s = Except.ok s' ∧
        s'.sent = s.sent ++ [⟨⟨fp, h, pre ++ qs⟩, true⟩] ∧
        StdMap.find h s'.pending_batches_ = none := by
  induction hp with
  | nil => intro s pre _ _ hne _; exact absurd rfl hne
  | @cons r q rest qrest hrq hrest ih =>
    intro s pre hs hfp _ hlen
    obtain ⟨hparse, hq⟩ := hrq
    cases hrest with
    | nil =>
      obtain ⟨h1, _, h3⟩ := SubmitParsed_reach s h fp pre q hq
        (fun hpre => hfp hpre q rfl) hs (by simp at hlen; omega)
      refine ⟨SubmitParsed q s, ?_, h1, h3⟩
      simp only [SubmitAll, Submit, hparse]
    | @cons r2 q2 rest2 qrest2 hrq2 hrest2 =>
      have hlt1 : pre.length + 1 < s.max_batch_size_ := by
        simp only [List.length_cons] at hlen; omega
      obtain ⟨h1, h2, h3⟩ := SubmitParsed_below s h fp pre q hq
        (fun hpre => hfp hpre q rfl) hs hlt1
      have hs1 : Holds (SubmitParsed q s) h fp (pre ++ [q]) := Or.inr ⟨by simp, h3⟩
      obtain ⟨s', e1, e2, e3⟩ := ih (SubmitParsed q s) (pre ++ [q]) hs1
        (fun hpre => by simp at hpre) (by simp)
        (by rw [h2]; simp only [List.length_append, List.length_cons, List.length_nil] at hlen ⊢; omega)
      refine ⟨s', ?_, by rw [e2, h1]; simp, e3⟩
      simp only [SubmitAll, Submit, hparse]
      exact e1

end BatchScheduler

/-- C1: with threshold `n = max_batch_size_` and no pending batch under hash
`h`, `n` consecutive `Submit` calls whose queries parse to hash `h` behave as
follows: after each of the first `n - 1` calls nothing has been flushed and the
pending batch under `h` holds exactly the queries submitted so far, in order;
the `n`-th call flushes exactly one batch, holding all `n` queries in order,
and leaves no entry under `h`. -/
theorem C1_submit_flushes_at_threshold (pq : PgQuery) (s : BatchScheduler) (h : Nat)
    (reqs : List (Int × String)) (qs : List ParsedQuery) (q0 : ParsedQuery)
    (hlen : qs.length = s.max_batch_size_)
    (hhead : qs.head? = some q0)
    (hparse : List.Forall₂ (BatchScheduler.ParsesTo pq h) reqs qs)
    (hnone : StdMap.find h s.pending_batches_ = none) :
    (∀ k, 1 ≤ k → k < s.max_batch_size_ →
      ∃ s', BatchScheduler.SubmitAll pq (reqs.take k) s = Except.ok s' ∧
        s'.sent = s.sent ∧
        StdMap.find h s'.pending_batches_ = some ⟨q0.fingerprint, h, qs.take k⟩) ∧
    (∃ s', BatchScheduler.SubmitAll pq reqs s = Except.ok s' ∧
        s'.sent = s.sent ++ [⟨⟨q0.fingerprint, h, qs⟩, true⟩] ∧
        StdMap.find h s'.pending_batches_ = none) := by
  have hfp : ∀ (l : List ParsedQuery), l.head? = some q0 →
      (([] : List ParsedQuery) = [] → ∀ q, l.head? = some q → q0.fingerprint = q.fingerprint) := by
    intro l hl _ q hq
    rw [hl] at hq
    cases hq
    rfl
  have hs0 : BatchScheduler.Holds s h q0.fingerprint [] := Or.inl ⟨rfl, hnone⟩
  have hne : qs ≠ [] := by
    intro hnil
    rw [hnil] at hhead
    cases hhead
  constructor
  · intro k hk1 hkn
    have hhead_k : (qs.take k).head? = some q0 := by
      cases qs with
      | nil => exact absurd rfl hne
      | cons a t =>
        cases k with
        | zero => omega
        | succ k => simpa using hhead
    obtain ⟨s', e1, e2, _, e4⟩ := BatchScheduler.SubmitAll_below pq h q0.fingerprint
      (reqs.take k) (qs.take k) (List.forall₂_take k hparse) s [] hs0 (hfp _ hhead_k)
      (by simp only [List.length_nil, List.length_take, zero_add]; omega)
    refine ⟨s', e1, e2, ?_⟩
    rcases e4 with ⟨hnil, _⟩ | ⟨_, hfind⟩
    · rw [List.nil_append] at hnil
      rw [hnil] at hhead_k
      cases hhead_k
    · simpa using hfind
  · obtain ⟨s', e1, e2, e3⟩ := BatchScheduler.SubmitAll_reach pq h q0.fingerprint
      reqs qs hparse s [] hs0 (hfp _ hhead) hne (by simp [hlen])
    exact ⟨s', e1, by simpa using e2, e3⟩

/-- C1 at the sample scheduler (threshold 2): the first `Submit` leaves a
pending batch of one query, the second one flushes both. -/
theorem C1_submit_flushes_at_threshold_witness :
    (∀ k, 1 ≤ k → k < 2 →
      ∃ s', BatchScheduler.SubmitAll samplePg (sampleRequests.take k) sampleScheduler
          = Except.ok s' ∧
        s'.sent = [] ∧
        StdMap.find 7 s'.pending_batches_
          = some ⟨"", 7, [sampleQuery1, sampleQuery2].take k⟩) ∧
    (∃ s', BatchScheduler.SubmitAll samplePg sampleRequests sampleScheduler = Except.ok s' ∧
        s'.sent = [] ++ [⟨⟨"", 7, [sampleQuery1, sampleQuery2]⟩, true⟩] ∧
        StdMap.find 7 s'.pending_batches_ = none) :=
  C1_submit_flushes_at_threshold samplePg sampleScheduler 7 sampleRequests
    [sampleQuery1, sampleQuery2] sampleQuery1 rfl rfl
    (List.Forall₂.cons ⟨by rfl, rfl⟩ (List.Forall₂.cons ⟨by rfl, rfl⟩ List.Forall₂.nil))
    rfl

theorem BatchScheduler.sweep_eq (m : List (Nat × QueryBatch)) :
    ∀ sent : List KernelCall, BatchScheduler.sweep m sent =
      ([], sent ++ (m.filter (fun e => ! e.2.queries.isEmpty)).map
        (fun e => (⟨e.2, true⟩ : KernelCall))) := by
  induction m with
  | nil => intro sent; simp [BatchScheduler.sweep]
  | cons e t ih =>
    intro sent
    obtain ⟨k, b⟩ := e
    cases hb : b.queries.isEmpty with
    | true => simp [BatchScheduler.sweep, hb, ih]
    | false => simp [BatchScheduler.sweep, hb, ih, BatchScheduler.FlushBatch]

/-- C2: in every state of the pending map, one iteration of the periodic
sweep of `RunLoop` sends to the engine exactly the non-empty batches present,
one statement per map entry in map order and whatever the batch size, sends
nothing for an empty batch, and leaves the pending map empty. -/
theorem C2_sweep_flushes_all (s : BatchScheduler) :
    (BatchScheduler.RunLoop s).pending_batches_ = [] ∧
    (BatchScheduler.RunLoop s).sent =
      s.sent ++ (s.pending_batches_.filter (fun e => ! e.2.queries.isEmpty)).map
        (fun e => (⟨e.2, true⟩ : KernelCall)) ∧
    (∀ c ∈ ((BatchScheduler.RunLoop s).sent).drop s.sent.length, c.batch.queries ≠ []) := by
  have h := BatchScheduler.sweep_eq s.pending_batches_ s.sent
  refine ⟨by simp [BatchScheduler.RunLoop, h], by simp [BatchScheduler.RunLoop, h], ?_⟩
  intro c hc
  simp only [BatchScheduler.RunLoop, h, List.drop_left] at hc
  simp only [List.mem_map, List.mem_filter] at hc
  obtain ⟨e, ⟨_, he⟩, rfl⟩ := hc
  intro hnil
  have hnil' : e.2.queries = [] := hnil
  simp [hnil'] at he

/-! ## Every call only appends to the trace -/

@[simp] theorem World.emit_trace (w : World) (evs : List Event) :
    (w.emit evs).trace = w.trace ++ evs := rfl

@[simp] theorem World.emit_plan_cache (w : World) (evs : List Event) :
    (w.emit evs).plan_cache_ = w.plan_cache_ := rfl

theorem newEvents_of_trace {α : Type} (w : World) (o : Outcome α) (evs : List Event)
    (h : o.world.trace = w.trace ++ evs) : newEvents w o = evs := by
  simp [newEvents, h]

/-- Composition: a call that starts where a first step ended. -/
theorem GrowsBy.trans {α : Type} {P Q R : List Event → Prop} {w w1 : World}
    {o : Outcome α} (evs1 : List Event) (h1 : w1.trace = w.trace ++ evs1) (hP : P evs1)
    (h2 : GrowsBy Q w1 o) (hR : ∀ a b, P a → Q b → R (a ++ b)) : GrowsBy R w o := by
  obtain ⟨evs2, e2, q2⟩ := h2
  exact ⟨evs1 ++ evs2, by rw [e2, h1, List.append_assoc], hR _ _ hP q2⟩

theorem AllNeutral.append {a b : List Event} (ha : AllNeutral a) (hb : AllNeutral b) :
    AllNeutral (a ++ b) := by
  intro e he
  rcases List.mem_append.mp he with h | h
  · exact ha e h
  · exact hb e h

theorem AllNeutral.nil : AllNeutral [] := by
  intro e he
  cases he

theorem AllNeutral.of_forall {evs : List Event} (h : evs.all Event.neutral = true) :
    AllNeutral evs := by
  intro e he
  exact List.all_eq_true.mp h e he

theorem Executor.connect_grows (eng : Engine) (w : World) :
    GrowsBy AllNeutral w (Executor.connect eng w) := by
  refine ⟨[Event.SPI_connect (eng.SPI_connect w.trace)], ?_, AllNeutral.of_forall rfl⟩
  simp only [Executor.connect]
  split <;> rfl

theorem Planner.freeAll_neutral (m : List (String × SPIPlanPtr)) :
    AllNeutral (Planner.freeAll m) := by
  induction m with
  | nil => exact AllNeutral.nil
  | cons e t ih =>
    obtain ⟨k, p⟩ := e
    unfold Planner.freeAll
    apply AllNeutral.append _ ih
    split
    · exact AllNeutral.of_forall rfl
    · exact AllNeutral.nil

theorem Planner.prepareNew_grows (eng : Engine) (payload : BatchPayload) (first_row : ParamRow)
    (w : World) : GrowsBy AllNeutral w (Planner.prepareNew eng payload first_row w) := by
  simp only [Planner.prepareNew]
  split
  · exact ⟨[_], rfl, AllNeutral.of_forall rfl⟩
  · split
    · simp only [GrowsBy, Outcome.world, World.emit_trace, List.append_assoc,
        List.append_cancel_left_eq, exists_eq_left']
      exact AllNeutral.of_forall rfl
    · simp only [GrowsBy, Outcome.world, World.emit_trace, List.append_assoc,
        List.append_cancel_left_eq, exists_eq_left']
      exact AllNeutral.of_forall rfl

theorem Planner.PrepareMQO_grows (eng : Engine) (payload : BatchPayload) (w : World) :
    GrowsBy AllNeutral w (Planner.PrepareMQO eng payload w) := by
  unfold Planner.PrepareMQO
  split
  · exact ⟨[], by simp [Outcome.world], AllNeutral.nil⟩
  · rename_i first_row rest hrows
    simp only
    have hw1 : ∃ evs1, (if MAX_PLAN_CACHE_SIZE ≤ w.plan_cache_.length then
          ({ w.emit (Event.elog DEBUG1
              ("[Lumos] Plan cache full (" ++ toString w.plan_cache_.length ++ "), flushing...")
              :: Planner.freeAll w.plan_cache_) with plan_cache_ := [] } : World)
        else w).trace = w.trace ++ evs1 ∧ AllNeutral evs1 := by
      split
      · refine ⟨_, rfl, ?_⟩
        intro e he
        rcases List.mem_cons.mp he with rfl | h
        · rfl
        · exact Planner.freeAll_neutral _ e h
      · exact ⟨[], by simp, AllNeutral.nil⟩
    obtain ⟨evs1, h1, n1⟩ := hw1
    generalize (if MAX_PLAN_CACHE_SIZE ≤ w.plan_cache_.length then
          ({ w.emit (Event.elog DEBUG1
              ("[Lumos] Plan cache full (" ++ toString w.plan_cache_.length ++ "), flushing...")
              :: Planner.freeAll w.plan_cache_) with plan_cache_ := [] } : World)
        else w) = w1 at h1 ⊢
    split
    · rename_i cached_plan hfind
      split
      · refine ⟨evs1 ++ [Event.SPI_plan_is_valid cached_plan
            (eng.SPI_plan_is_valid w1.trace cached_plan)], ?_,
          AllNeutral.append n1 (AllNeutral.of_forall rfl)⟩
        simp only [Outcome.world, World.emit_trace, h1, List.append_assoc]
      · refine GrowsBy.trans (P := AllNeutral) (Q := AllNeutral)
          (evs1 ++ [Event.SPI_plan_is_valid cached_plan
            (eng.SPI_plan_is_valid w1.trace cached_plan), Event.SPI_freeplan cached_plan]) ?_
          (AllNeutral.append n1 (AllNeutral.of_forall rfl))
          (Planner.prepareNew_grows eng payload first_row _)
          (fun a b ha hb => AllNeutral.append ha hb)
        simp only [World.emit_trace, h1, List.append_assoc]
        rfl
    · exact GrowsBy.trans (P := AllNeutral) (Q := AllNeutral) evs1 h1 n1
        (Planner.prepareNew_grows eng payload first_row w1)
        (fun a b ha hb => AllNeutral.append ha hb)

theorem Planner.PrepareSPI_grows (eng : Engine) (payload : BatchPayload) (w : World) :
    GrowsBy AllNeutral w (Planner.PrepareSPI eng payload w) := by
  unfold Planner.PrepareSPI
  split
  · exact ⟨[], by simp [Outcome.world], AllNeutral.nil⟩
  · simp only
    split
    · exact ⟨[_], rfl, AllNeutral.of_forall rfl⟩
    · exact ⟨[_], rfl, AllNeutral.of_forall rfl⟩

theorem Runtime.ExecuteSharedScan_grows (eng : Engine) (payload : BatchPayload) (w : World) :
    GrowsBy AllNeutral w (Runtime.ExecuteSharedScan eng payload w) := by
  unfold Runtime.ExecuteSharedScan
  split
  · exact ⟨[], by simp [Outcome.world], AllNeutral.nil⟩
  · simp only
    split
    · exact ⟨[_], rfl, AllNeutral.of_forall rfl⟩
    · split
      · exact ⟨[_], rfl, AllNeutral.of_forall rfl⟩
      · split
        · exact ⟨[], by simp [Outcome.world], AllNeutral.nil⟩
        · simp only [GrowsBy, Outcome.world, World.emit_trace, List.append_assoc,
            List.append_cancel_left_eq, exists_eq_left']
          exact AllNeutral.of_forall rfl

/-! ## The row loop of `ExecuteBatchMQO` -/

theorem Runtime.mqoLoop_facts (eng : Engine) (plan : SPIPlanPtr) (arg_count : Nat)
    (arg_types : List Oid) (rows : List ParamRow) :
    ∀ st : Runtime.MQOLoop, st.threw = false →
      ∃ levs, Runtime.LoopFacts eng plan arg_count arg_types rows st
        (Runtime.mqoLoop eng plan arg_count arg_types rows st) levs := by
  induction rows with
  | nil =>
    intro st _
    exact ⟨[], ⟨by simp [Runtime.mqoLoop], by simp, by simp [Runtime.mqoLoop],
      by simp [Runtime.mqoLoop], by intro _; simp⟩⟩
  | cons row rest ih =>
    intro st hst
    by_cases hlen : row.values.length = arg_count
    · cases hb : bindValues eng (st.trace ++ [Event.MemoryContextSwitchTo true]) arg_types
          row.values with
      | bound values nulls =>
        cases hx : eng.SPI_execute_plan (st.trace ++ [Event.MemoryContextSwitchTo true]) plan
            values nulls false with
        | none =>
          refine ⟨[Event.MemoryContextSwitchTo true,
            Event.SPI_execute_plan plan values nulls false none], ?_⟩
          constructor
          · simp [Runtime.mqoLoop, hlen, hb, hx]
          · intro e he
            simp at he
            rcases he with rfl | rfl <;> rfl
          · simp [Runtime.mqoLoop, hlen, hb, hx, Event.execOk]
          · simp [Runtime.mqoLoop, hlen, hb, hx, Event.execFailed]
          · simp [Runtime.mqoLoop, hlen, hb, hx]
        | some ret =>
          by_cases hret : 0 ≤ ret
          · obtain ⟨levs, F⟩ := ih
              (Runtime.MQOLoop.mk (st.success_count + 1) st.error_occurred st.threw
                    (st.trace ++ [Event.MemoryContextSwitchTo true]
                      ++ [Event.SPI_execute_plan plan values nulls false (some ret)]
                      ++ [Event.SPI_freetuptable]
                      ++ [Event.MemoryContextSwitchTo false, Event.MemoryContextReset])) hst
            refine ⟨[Event.MemoryContextSwitchTo true,
              Event.SPI_execute_plan plan values nulls false (some ret),
              Event.SPI_freetuptable, Event.MemoryContextSwitchTo false,
              Event.MemoryContextReset] ++ levs, ?_⟩
            have hloop : Runtime.mqoLoop eng plan arg_count arg_types (row :: rest) st =
                Runtime.mqoLoop eng plan arg_count arg_types rest
                  (Runtime.MQOLoop.mk (st.success_count + 1) st.error_occurred st.threw
                    (st.trace ++ [Event.MemoryContextSwitchTo true]
                      ++ [Event.SPI_execute_plan plan values nulls false (some ret)]
                      ++ [Event.SPI_freetuptable]
                      ++ [Event.MemoryContextSwitchTo false, Event.MemoryContextReset])) := by
              simp [Runtime.mqoLoop, hlen, hb, hx, hret]
            rw [hloop]
            constructor
            · rw [F.trace_eq]; simp
            · intro e he
              rcases List.mem_append.mp he with h | h
              · simp at h
                rcases h with rfl | rfl | rfl | rfl | rfl <;> rfl
              · exact F.in_txn e h
            · rw [F.count]
              simp [List.countP_cons, Event.execOk, hret]
              omega
            · rw [F.err]
              have : ¬ ret < 0 := by omega
              simp [Event.execFailed, this]
            · intro ht
              have := F.attempts ht
              simp only [List.filter_cons, hlen, decide_True, if_true]
              simp only [List.cons_append, List.nil_append, List.filter_cons, Event.isExec]
              simp only [Bool.false_eq_true, if_false, if_true]
              exact List.Forall₂.cons ⟨_, values, nulls, ret, hb, rfl⟩ this
          · obtain ⟨levs, F⟩ := ih
              (Runtime.MQOLoop.mk st.success_count true st.threw
                    (st.trace ++ [Event.MemoryContextSwitchTo true]
                      ++ [Event.SPI_execute_plan plan values nulls false (some ret)]
                      ++ [Event.MemoryContextSwitchTo false, Event.MemoryContextReset])) hst
            refine ⟨[Event.MemoryContextSwitchTo true,
              Event.SPI_execute_plan plan values nulls false (some ret),
              Event.MemoryContextSwitchTo false,
              Event.MemoryContextReset] ++ levs, ?_⟩
            have hloop : Runtime.mqoLoop eng plan arg_count arg_types (row :: rest) st =
                Runtime.mqoLoop eng plan arg_count arg_types rest
                  (Runtime.MQOLoop.mk st.success_count true st.threw
                    (st.trace ++ [Event.MemoryContextSwitchTo true]
                      ++ [Event.SPI_execute_plan plan values nulls false (some ret)]
                      ++ [Event.MemoryContextSwitchTo false, Event.MemoryContextReset])) := by
              simp [Runtime.mqoLoop, hlen, hb, hx, hret]
            rw [hloop]
            constructor
            · rw [F.trace_eq]; simp
            · intro e he
              rcases List.mem_append.mp he with h | h
              · simp at h
                rcases h with rfl | rfl | rfl | rfl <;> rfl
              · exact F.in_txn e h
            · rw [F.count]
              simp [List.countP_cons, Event.execOk, hret]
            · rw [F.err]
              have : ret < 0 := by omega
              simp [Event.execFailed, this]
            · intro ht
              have := F.attempts ht
              simp only [List.filter_cons, hlen, decide_True, if_true]
              simp only [List.cons_append, List.nil_append, List.filter_cons, Event.isExec]
              simp only [Bool.false_eq_true, if_false, if_true]
              exact List.Forall₂.cons ⟨_, values, nulls, ret, hb, rfl⟩ this
      | raised =>
        refine ⟨[Event.MemoryContextSwitchTo true], ?_⟩
        constructor
        · simp [Runtime.mqoLoop, hlen, hb]
        · intro e he
          simp at he
          subst he
          rfl
        · simp [Runtime.mqoLoop, hlen, hb, Event.execOk]
        · simp [Runtime.mqoLoop, hlen, hb, Event.execFailed]
        · simp [Runtime.mqoLoop, hlen, hb]
      | out_of_range =>
        refine ⟨[Event.MemoryContextSwitchTo true], ?_⟩
        constructor
        · simp [Runtime.mqoLoop, hlen, hb]
        · intro e he
          simp at he
          subst he
          rfl
        · simp [Runtime.mqoLoop, hlen, hb, Event.execOk]
        · simp [Runtime.mqoLoop, hlen, hb, Event.execFailed]
        · simp [Runtime.mqoLoop, hlen, hb]
    · obtain ⟨levs, F⟩ := ih st hst
      have hloop : Runtime.mqoLoop eng plan arg_count arg_types (row :: rest) st =
          Runtime.mqoLoop eng plan arg_count arg_types rest st := by
        simp [Runtime.mqoLoop, hlen]
      rw [hloop]
      refine ⟨levs, ⟨F.trace_eq, F.in_txn, F.count, F.err, ?_⟩⟩
      intro ht
      have := F.attempts ht
      simpa [List.filter_cons, hlen] using this

/-- The events of the opening of `ExecuteBatchMQO`. -/
theorem Runtime.mqoStart_trace (w : World) :
    (Runtime.mqoStart w).trace = w.trace ++ [Event.BeginInternalSubTransaction,
      Event.PushActiveSnapshot,
      if w.mqo_session_context_ then Event.MemoryContextReset
      else Event.AllocSetContextCreate] := rfl

/-- `ExecuteBatchMQO` in explicit form, for a non-null plan and at least one
row: the opening, the events of the row loop, the closing. -/
theorem Runtime.ExecuteBatchMQO_eq (eng : Engine) (plan : SPIPlanPtr) (payload : BatchPayload)
    (w : World) (hplan : plan ≠ 0) (hrows : payload.rows ≠ []) :
    ∃ levs,
      Runtime.LoopFacts eng plan (eng.SPI_getargcount w.trace plan)
        ((List.range (eng.SPI_getargcount w.trace plan)).map (eng.SPI_getargtypeid w.trace plan))
        payload.rows (Runtime.mqoStart w) (Runtime.mqoRows eng plan payload w) levs ∧
      (Runtime.ExecuteBatchMQO eng plan payload w).world.trace =
        w.trace ++ ([Event.BeginInternalSubTransaction, Event.PushActiveSnapshot,
          if w.mqo_session_context_ then Event.MemoryContextReset
          else Event.AllocSetContextCreate] ++ levs ++ [Event.PopActiveSnapshot]
          ++ Runtime.mqoFinish payload.dry_run
              ((Runtime.mqoRows eng plan payload w).error_occurred
                || (Runtime.mqoRows eng plan payload w).threw)
              (Runtime.mqoRows eng plan payload w).success_count
          ++ [Event.malloc_trim]) ∧
      Runtime.ExecuteBatchMQO eng plan payload w =
        Outcome.ret (Runtime.mqoRows eng plan payload w).success_count
          (Runtime.ExecuteBatchMQO eng plan payload w).world := by
  obtain ⟨levs, F⟩ := Runtime.mqoLoop_facts eng plan (eng.SPI_getargcount w.trace plan)
    ((List.range (eng.SPI_getargcount w.trace plan)).map (eng.SPI_getargtypeid w.trace plan))
    payload.rows (Runtime.mqoStart w) rfl
  have hcond : ¬ (plan = 0 ∨ payload.rows.length = 0) := by
    intro h
    rcases h with h | h
    · exact hplan h
    · exact hrows (List.length_eq_zero.mp h)
  refine ⟨levs, F, ?_, ?_⟩
  · have ht := F.trace_eq
    simp only [Runtime.ExecuteBatchMQO, hcond, if_false, Outcome.world]
    change (Runtime.mqoRows eng plan payload w).trace = _ at ht
    rw [ht, Runtime.mqoStart_trace]
    simp only [List.append_assoc]
  · simp only [Runtime.ExecuteBatchMQO, hcond, if_false, Outcome.world]

theorem Runtime.spiLoop_grows (eng : Engine) (plan : SPIPlanPtr) (arg_count : Nat)
    (rows : List ParamRow) :
    ∀ (n : Nat) (trace : List Event), ∃ evs,
      (Runtime.spiLoop eng plan arg_count rows n trace).events = trace ++ evs := by
  induction rows with
  | nil => intro n trace; exact ⟨[], by simp [Runtime.spiLoop, Runtime.SPILoopResult.events]⟩
  | cons row rest ih =>
    intro n trace
    cases hb : bindValues eng trace (List.replicate arg_count INT8OID) row.values with
    | raised => exact ⟨[], by simp [Runtime.spiLoop, hb, Runtime.SPILoopResult.events]⟩
    | out_of_range => exact ⟨[], by simp [Runtime.spiLoop, hb, Runtime.SPILoopResult.events]⟩
    | bound values nulls =>
      cases hx : eng.SPI_execute_plan trace plan values nulls false with
      | none =>
        exact ⟨[Event.SPI_execute_plan plan values nulls false none],
          by simp [Runtime.spiLoop, hb, hx, Runtime.SPILoopResult.events]⟩
      | some ret =>
        by_cases hret : 0 ≤ ret
        · obtain ⟨evs, h⟩ := ih (n + 1) (trace ++
            [Event.SPI_execute_plan plan values nulls false (some ret)]
            ++ [Event.SPI_freetuptable])
          refine ⟨[Event.SPI_execute_plan plan values nulls false (some ret),
            Event.SPI_freetuptable] ++ evs, ?_⟩
          simp only [Runtime.spiLoop, hb, hx, hret, if_true]
          rw [h]
          simp
        · obtain ⟨evs, h⟩ := ih n (trace ++
            [Event.SPI_execute_plan plan values nulls false (some ret)])
          refine ⟨[Event.SPI_execute_plan plan values nulls false (some ret)] ++ evs, ?_⟩
          simp only [Runtime.spiLoop, hb, hx, hret, if_false]
          rw [h]
          simp

theorem Runtime.ExecuteSPILoop_grows (eng : Engine) (plan : SPIPlanPtr) (payload : BatchPayload)
    (w : World) : GrowsBy (fun _ => True) w (Runtime.ExecuteSPILoop eng plan payload w) := by
  unfold Runtime.ExecuteSPILoop
  split
  · exact ⟨[], by simp [Outcome.world], trivial⟩
  · split
    · exact ⟨[], by simp [Outcome.world], trivial⟩
    · rename_i row0 rest hrows
      obtain ⟨evs, h⟩ := Runtime.spiLoop_grows eng plan row0.values.length payload.rows 0 w.trace
      refine ⟨evs, ?_, trivial⟩
      rw [← h]
      split <;> rename_i heq <;> simp [Outcome.world, heq, Runtime.SPILoopResult.events]

theorem Runtime.ExecuteBatchMQO_grows (eng : Engine) (plan : SPIPlanPtr) (payload : BatchPayload)
    (w : World) : GrowsBy (fun _ => True) w (Runtime.ExecuteBatchMQO eng plan payload w) := by
  by_cases h : plan = 0 ∨ payload.rows.length = 0
  · exact ⟨[], by simp only [Runtime.ExecuteBatchMQO, h, if_true, Outcome.world,
      List.append_nil], trivial⟩
  · have hplan : plan ≠ 0 := fun hp => h (Or.inl hp)
    have hrows : payload.rows ≠ [] := fun hr => h (Or.inr (by simp [hr]))
    obtain ⟨levs, _, ht, _⟩ := Runtime.ExecuteBatchMQO_eq eng plan payload w hplan hrows
    exact ⟨_, ht, trivial⟩

theorem Executor.finish_grows {P : List Event → Prop} (w : World) (o : Outcome Nat)
    (h : GrowsBy P w o) :
    GrowsBy (fun evs => ∃ a b, evs = a ++ b ∧ P a ∧ AllNeutral b) w (Executor.finish o) := by
  obtain ⟨evs, h1, h2⟩ := h
  cases o with
  | ret res w' =>
    exact ⟨evs ++ [Event.SPI_finish], by simp [Executor.finish, Outcome.world] at h1 ⊢; rw [h1, List.append_assoc],
      ⟨evs, _, rfl, h2, AllNeutral.of_forall rfl⟩⟩
  | throw e w' =>
    exact ⟨evs ++ [Event.SPI_finish], by simp [Executor.finish, Outcome.world] at h1 ⊢; rw [h1, List.append_assoc],
      ⟨evs, _, rfl, h2, AllNeutral.of_forall rfl⟩⟩
  | pgerror m w' =>
    exact ⟨evs, by simpa [Executor.finish, Outcome.world] using h1,
      ⟨evs, [], by simp, h2, AllNeutral.nil⟩⟩
  | undefined w' =>
    exact ⟨evs, by simpa [Executor.finish, Outcome.world] using h1,
      ⟨evs, [], by simp, h2, AllNeutral.nil⟩⟩

/-! ## The dispatch routines -/

theorem GrowsBy.isPrefix {α : Type} {P : List Event → Prop} {w : World} {o : Outcome α}
    (h : GrowsBy P w o) : w.trace <+: o.world.trace := by
  obtain ⟨evs, h1, _⟩ := h
  exact ⟨evs, h1.symm⟩

theorem Executor.finish_isPrefix (o : Outcome Nat) :
    o.world.trace <+: (Executor.finish o).world.trace := by
  cases o <;> simp [Executor.finish, Outcome.world]

theorem Executor.standard_body_isPrefix (eng : Engine) (payload : BatchPayload) (w1 : World) :
    w1.trace <+:
      (match Planner.PrepareSPI eng payload w1 with
       | Outcome.ret plan w2 =>
         if plan ≠ 0 then
           match Runtime.ExecuteSPILoop eng plan payload w2 with
           | Outcome.ret res w3 => Outcome.ret res (w3.emit [Event.SPI_freeplan plan])
           | other => other
         else Outcome.ret 0 w2
       | Outcome.throw e w2 => Outcome.throw e w2
       | Outcome.pgerror m w2 => Outcome.pgerror m w2
       | Outcome.undefined w2 => Outcome.undefined w2).world.trace := by
  have hp := (Planner.PrepareSPI_grows eng payload w1).isPrefix
  cases hprep : Planner.PrepareSPI eng payload w1 with
  | ret plan w2 =>
    rw [hprep] at hp
    by_cases hplan : plan ≠ 0
    · dsimp only
      rw [if_pos hplan]
      have hl := (Runtime.ExecuteSPILoop_grows eng plan payload w2).isPrefix
      cases hloop : Runtime.ExecuteSPILoop eng plan payload w2 with
      | ret res w3 =>
        rw [hloop] at hl
        exact hp.trans (hl.trans (by simp [Outcome.world]))
      | throw e w3 => rw [hloop] at hl; exact hp.trans hl
      | pgerror m w3 => rw [hloop] at hl; exact hp.trans hl
      | undefined w3 => rw [hloop] at hl; exact hp.trans hl
    · dsimp only
      rw [if_neg hplan]
      exact hp
  | throw e w2 => rw [hprep] at hp; exact hp
  | pgerror m w2 => rw [hprep] at hp; exact hp
  | undefined w2 => rw [hprep] at hp; exact hp

theorem Executor.mqo_body_isPrefix (eng : Engine) (payload : BatchPayload) (w1 : World) :
    w1.trace <+:
      (match Planner.PrepareMQO eng payload w1 with
       | Outcome.ret plan w2 =>
         if plan ≠ 0 then Runtime.ExecuteBatchMQO eng plan payload w2
         else Outcome.ret 0 w2
       | Outcome.throw e w2 => Outcome.throw e w2
       | Outcome.pgerror m w2 => Outcome.pgerror m w2
       | Outcome.undefined w2 => Outcome.undefined w2).world.trace := by
  have hp := (Planner.PrepareMQO_grows eng payload w1).isPrefix
  cases hprep : Planner.PrepareMQO eng payload w1 with
  | ret plan w2 =>
    rw [hprep] at hp
    by_cases hplan : plan ≠ 0
    · dsimp only
      rw [if_pos hplan]
      exact hp.trans (Runtime.ExecuteBatchMQO_grows eng plan payload w2).isPrefix
    · dsimp only
      rw [if_neg hplan]
      exact hp
  | throw e w2 => rw [hprep] at hp; exact hp
  | pgerror m w2 => rw [hprep] at hp; exact hp
  | undefined w2 => rw [hprep] at hp; exact hp

theorem Enters.of_isPrefix {α : Type} (routine : String) (w : World) (o : Outcome α)
    (h : (w.emit [Event.enter routine]).trace <+: o.world.trace) : Enters routine w o := by
  obtain ⟨t, ht⟩ := h
  exact ⟨t, by rw [← ht]; simp⟩

theorem Executor.DispatchStandard_enters (eng : Engine) (payload : BatchPayload) (w : World) :
    Enters "DispatchStandard" w (Executor.DispatchStandard eng payload w) := by
  apply Enters.of_isPrefix
  have hc := (Executor.connect_grows eng (w.emit [Event.enter "DispatchStandard"])).isPrefix
  unfold Executor.DispatchStandard
  cases hcon : Executor.connect eng (w.emit [Event.enter "DispatchStandard"]) with
  | ret u w1 =>
    rw [hcon] at hc
    exact hc.trans ((Executor.standard_body_isPrefix eng payload w1).trans
      (Executor.finish_isPrefix _))
  | throw e w1 => rw [hcon] at hc; exact hc
  | pgerror m w1 => rw [hcon] at hc; exact hc
  | undefined w1 => rw [hcon] at hc; exact hc

theorem Executor.DispatchMQO_enters (eng : Engine) (payload : BatchPayload) (w : World) :
    Enters "DispatchMQO" w (Executor.DispatchMQO eng payload w) := by
  apply Enters.of_isPrefix
  have hc := (Executor.connect_grows eng (w.emit [Event.enter "DispatchMQO"])).isPrefix
  unfold Executor.DispatchMQO
  cases hcon : Executor.connect eng (w.emit [Event.enter "DispatchMQO"]) with
  | ret u w1 =>
    rw [hcon] at hc
    exact hc.trans ((Executor.mqo_body_isPrefix eng payload w1).trans
      (Executor.finish_isPrefix _))
  | throw e w1 => rw [hcon] at hc; exact hc
  | pgerror m w1 => rw [hcon] at hc; exact hc
  | undefined w1 => rw [hcon] at hc; exact hc

theorem Executor.DispatchSharedScan_enters (eng : Engine) (payload : BatchPayload) (w : World) :
    Enters "DispatchSharedScan" w (Executor.DispatchSharedScan eng payload w) := by
  apply Enters.of_isPrefix
  have hc := (Executor.connect_grows eng (w.emit [Event.enter "DispatchSharedScan"])).isPrefix
  unfold Executor.DispatchSharedScan
  cases hcon : Executor.connect eng (w.emit [Event.enter "DispatchSharedScan"]) with
  | ret u w1 =>
    rw [hcon] at hc
    exact hc.trans ((Runtime.ExecuteSharedScan_grows eng payload w1).isPrefix.trans
      (Executor.finish_isPrefix _))
  | throw e w1 => rw [hcon] at hc; exact hc
  | pgerror m w1 => rw [hcon] at hc; exact hc
  | undefined w1 => rw [hcon] at hc; exact hc

theorem Enters.head {α : Type} {routine : String} {w : World} {o : Outcome α}
    (h : Enters routine w o) : (newEvents w o).head? = some (Event.enter routine) := by
  obtain ⟨evs, h1⟩ := h
  simp [newEvents, h1]

theorem Executor.hint_iff (payload : BatchPayload) :
    (¬ payload.scan_table.isEmpty = true ∧ ¬ payload.scan_col.isEmpty = true) ↔
      (payload.scan_table ≠ "" ∧ payload.scan_col ≠ "") := by
  rw [String.isEmpty_iff, String.isEmpty_iff]

theorem Executor.Execute_shared (eng : Engine) (payload : BatchPayload) (w : World)
    (hint : payload.scan_table ≠ "" ∧ payload.scan_col ≠ "") :
    Executor.Execute eng payload w = Executor.DispatchSharedScan eng payload w := by
  unfold Executor.Execute
  rw [if_pos ((Executor.hint_iff payload).mpr hint)]

theorem Executor.Execute_mqo (eng : Engine) (payload : BatchPayload) (w : World)
    (hint : ¬ (payload.scan_table ≠ "" ∧ payload.scan_col ≠ ""))
    (hm : payload.use_mqo = true) :
    Executor.Execute eng payload w = Executor.DispatchMQO eng payload w := by
  unfold Executor.Execute
  rw [if_neg (fun h => hint ((Executor.hint_iff payload).mp h)), if_pos hm]

theorem Executor.Execute_standard (eng : Engine) (payload : BatchPayload) (w : World)
    (hint : ¬ (payload.scan_table ≠ "" ∧ payload.scan_col ≠ ""))
    (hm : ¬ payload.use_mqo = true) :
    Executor.Execute eng payload w = Executor.DispatchStandard eng payload w := by
  unfold Executor.Execute
  rw [if_neg (fun h => hint ((Executor.hint_iff payload).mp h)), if_neg hm]

/-- C3: for every payload, `Executor::Execute` takes the shared-scan path if
and only if `scan_table` and `scan_col` are both non-empty, whatever
`use_mqo`; otherwise it takes the MQO path when `use_mqo` is true and the
simple path when it is false. "Takes the path" is read both as the result
being that of the dispatch routine and as the first event of the call being
the entry into that routine. -/
theorem C3_execute_selects_path (eng : Engine) (payload : BatchPayload) (w : World) :
    ((payload.scan_table ≠ "" ∧ payload.scan_col ≠ "") →
        Executor.Execute eng payload w = Executor.DispatchSharedScan eng payload w) ∧
    (¬ (payload.scan_table ≠ "" ∧ payload.scan_col ≠ "") → payload.use_mqo = true →
        Executor.Execute eng payload w = Executor.DispatchMQO eng payload w) ∧
    (¬ (payload.scan_table ≠ "" ∧ payload.scan_col ≠ "") → payload.use_mqo = false →
        Executor.Execute eng payload w = Executor.DispatchStandard eng payload w) ∧
    ((newEvents w (Executor.Execute eng payload w)).head?
        = some (Event.enter "DispatchSharedScan") ↔
      (payload.scan_table ≠ "" ∧ payload.scan_col ≠ "")) ∧
    ((newEvents w (Executor.Execute eng payload w)).head? = some (Event.enter "DispatchMQO") ↔
      (¬ (payload.scan_table ≠ "" ∧ payload.scan_col ≠ "") ∧ payload.use_mqo = true)) ∧
    ((newEvents w (Executor.Execute eng payload w)).head?
        = some (Event.enter "DispatchStandard") ↔
      (¬ (payload.scan_table ≠ "" ∧ payload.scan_col ≠ "") ∧ payload.use_mqo = false)) := by
  by_cases hint : payload.scan_table ≠ "" ∧ payload.scan_col ≠ ""
  · have hE := Executor.Execute_shared eng payload w hint
    have hh := (Executor.DispatchSharedScan_enters eng payload w).head
    rw [← hE] at hh
    refine ⟨fun _ => hE, fun h => absurd hint h, fun h => absurd hint h, ?_, ?_, ?_⟩
    · rw [hh]; simp [hint]
    · rw [hh]; simp [hint]
    · rw [hh]; simp [hint]
  · by_cases hm : payload.use_mqo = true
    · have hE := Executor.Execute_mqo eng payload w hint hm
      have hh := (Executor.DispatchMQO_enters eng payload w).head
      rw [← hE] at hh
      refine ⟨fun h => absurd h hint, fun _ _ => hE, fun _ h => ?_, ?_, ?_, ?_⟩
      · rw [hm] at h; cases h
      · rw [hh]; simp [hint]
      · rw [hh]; simp [hint, hm]
      · rw [hh]; simp [hint, hm]
    · have hE := Executor.Execute_standard eng payload w hint hm
      have hh := (Executor.DispatchStandard_enters eng payload w).head
      rw [← hE] at hh
      refine ⟨fun h => absurd h hint, fun _ h => absurd h hm, fun _ _ => hE, ?_, ?_, ?_⟩
      · rw [hh]; simp [hint]
      · rw [hh]; simp [hint, hm]
      · rw [hh]; simp [hint, hm]

/-! ## `ExecuteBatchMQO` -/

theorem Runtime.Attempts.isExec {eng : Engine} {plan : SPIPlanPtr} {arg_types : List Oid}
    {row : ParamRow} {e : Event} (h : Runtime.Attempts eng plan arg_types row e) :
    e.execOk = true ∨ e.execFailed = true := by
  obtain ⟨_, values, nulls, ret, _, rfl⟩ := h
  by_cases hr : 0 ≤ ret
  · exact Or.inl (by simp [Event.execOk, hr])
  · exact Or.inr (by simp [Event.execFailed]; omega)

theorem Event.not_ok_and_failed (e : Event) : ¬ (e.execOk = true ∧ e.execFailed = true) := by
  cases e with
  | SPI_execute_plan plan values nulls read_only ret =>
    cases ret with
    | none => simp [Event.execOk]
    | some r =>
      simp only [Event.execOk, Event.execFailed, decide_eq_true_eq]
      omega
  | _ => simp [Event.execOk]

theorem countP_ok_add_failed (execs : List Event)
    (h : ∀ e ∈ execs, e.execOk = true ∨ e.execFailed = true) :
    execs.countP Event.execOk + execs.countP Event.execFailed = execs.length := by
  induction execs with
  | nil => rfl
  | cons e t ih =>
    have ht := ih (fun x hx => h x (List.mem_cons_of_mem _ hx))
    have hne := Event.not_ok_and_failed e
    rcases h e (List.mem_cons_self _ _) with ho | hf
    · have hf' : e.execFailed = false := by
        cases hfe : e.execFailed
        · rfl
        · exact absurd ⟨ho, hfe⟩ hne
      simp [List.countP_cons, ho, hf']
      omega
    · have ho' : e.execOk = false := by
        cases hoe : e.execOk
        · rfl
        · exact absurd ⟨hoe, hf⟩ hne
      simp [List.countP_cons, hf, ho']
      omega

theorem countP_filter_isExec (p : Event → Bool) (hp : ∀ e, p e = true → e.isExec = true)
    (evs : List Event) : (evs.filter Event.isExec).countP p = evs.countP p := by
  induction evs with
  | nil => rfl
  | cons e t ih =>
    by_cases he : e.isExec = true
    · simp [List.filter_cons, he, List.countP_cons, ih]
    · have : p e = false := by
        cases hpe : p e
        · rfl
        · exact absurd (hp e hpe) he
      simp [List.filter_cons, he, List.countP_cons, ih, this]

theorem Event.execOk_isExec (e : Event) (h : e.execOk = true) : e.isExec = true := by
  cases e <;> simp_all [Event.execOk, Event.isExec]

theorem Event.execFailed_isExec (e : Event) (h : e.execFailed = true) : e.isExec = true := by
  cases e <;> simp_all [Event.execFailed, Event.isExec]

theorem forall₂_exists_of_mem_right {α β : Type} {R : α → β → Prop} {l₁ : List α}
    {l₂ : List β} (h : List.Forall₂ R l₁ l₂) {b : β} (hb : b ∈ l₂) : ∃ a ∈ l₁, R a b := by
  induction h with
  | nil => cases hb
  | @cons a b' t₁ t₂ hab _ ih =>
    rcases List.mem_cons.mp hb with rfl | hmem
    · exact ⟨a, List.mem_cons_self _ _, hab⟩
    · obtain ⟨a', ha', hr⟩ := ih hmem
      exact ⟨a', List.mem_cons_of_mem _ ha', hr⟩

theorem Runtime.mqoFinish_no_exec (d e : Bool) (n : Nat) :
    (Runtime.mqoFinish d e n).filter Event.isExec = [] := by
  cases d <;> cases e <;> rfl

/-- The row executions among the new events of `ExecuteBatchMQO` are those of
the row loop. -/
theorem Runtime.ExecuteBatchMQO_execs (eng : Engine) (plan : SPIPlanPtr)
    (payload : BatchPayload) (w : World) (hplan : plan ≠ 0) (hrows : payload.rows ≠ []) :
    ∃ levs,
      Runtime.LoopFacts eng plan (eng.SPI_getargcount w.trace plan)
        ((List.range (eng.SPI_getargcount w.trace plan)).map (eng.SPI_getargtypeid w.trace plan))
        payload.rows (Runtime.mqoStart w) (Runtime.mqoRows eng plan payload w) levs ∧
      newEvents w (Runtime.ExecuteBatchMQO eng plan payload w) =
        [Event.BeginInternalSubTransaction, Event.PushActiveSnapshot,
          if w.mqo_session_context_ then Event.MemoryContextReset
          else Event.AllocSetContextCreate] ++ levs ++ [Event.PopActiveSnapshot]
          ++ Runtime.mqoFinish payload.dry_run
              ((Runtime.mqoRows eng plan payload w).error_occurred
                || (Runtime.mqoRows eng plan payload w).threw)
              (Runtime.mqoRows eng plan payload w).success_count
          ++ [Event.malloc_trim] ∧
      (newEvents w (Runtime.ExecuteBatchMQO eng plan payload w)).filter Event.isExec
        = levs.filter Event.isExec := by
  obtain ⟨levs, F, ht, _⟩ := Runtime.ExecuteBatchMQO_eq eng plan payload w hplan hrows
  have hev := newEvents_of_trace w _ _ ht
  refine ⟨levs, F, hev, ?_⟩
  rw [hev]
  cases w.mqo_session_context_ <;>
    simp [List.filter_append, Runtime.mqoFinish_no_exec, List.filter_cons, Event.isExec]

theorem Runtime.ExecuteBatchMQO_empty (eng : Engine) (plan : SPIPlanPtr)
    (payload : BatchPayload) (w : World) (hrows : payload.rows = []) :
    Runtime.ExecuteBatchMQO eng plan payload w = Outcome.ret 0 w := by
  simp [Runtime.ExecuteBatchMQO, hrows]

/-- C4: for a non-null plan whose expected argument count is `k`, when no
exception leaves the row loop, `ExecuteBatchMQO` executes the plan once for
every row that has exactly `k` values, in row order and on the values bound
from that row (a failing row does not stop later rows), executes nothing for a
row with another number of values, and returns the number of executions that
reported success; skipped rows mark no error (with every execution successful
and no dry run the sub-transaction is committed); in particular, when all `N`
rows have `k` values and exactly one execution fails, there are `N`
executions and the result is `N - 1`. -/
theorem C4_batch_attempts_every_row (eng : Engine) (plan : SPIPlanPtr) (payload : BatchPayload)
    (w : World) (hplan : plan ≠ 0)
    (hno : (Runtime.mqoRows eng plan payload w).threw = false) :
    List.Forall₂
      (Runtime.Attempts eng plan
        ((List.range (eng.SPI_getargcount w.trace plan)).map (eng.SPI_getargtypeid w.trace plan)))
      (payload.rows.filter
        (fun r => decide (r.values.length = eng.SPI_getargcount w.trace plan)))
      ((newEvents w (Runtime.ExecuteBatchMQO eng plan payload w)).filter Event.isExec) ∧
    Runtime.ExecuteBatchMQO eng plan payload w =
      Outcome.ret
        (((newEvents w (Runtime.ExecuteBatchMQO eng plan payload w)).filter Event.isExec).countP
          Event.execOk)
        (Runtime.ExecuteBatchMQO eng plan payload w).world ∧
    ((∀ e ∈ (newEvents w (Runtime.ExecuteBatchMQO eng plan payload w)).filter Event.isExec,
        e.execOk = true) → payload.dry_run = false → payload.rows ≠ [] →
      Event.ReleaseCurrentSubTransaction ∈
        newEvents w (Runtime.ExecuteBatchMQO eng plan payload w) ∧
      Event.RollbackAndReleaseCurrentSubTransaction ∉
        newEvents w (Runtime.ExecuteBatchMQO eng plan payload w)) ∧
    ((∀ row ∈ payload.rows, row.values.length = eng.SPI_getargcount w.trace plan) →
      ((newEvents w (Runtime.ExecuteBatchMQO eng plan payload w)).filter Event.isExec).countP
        Event.execFailed = 1 →
      ((newEvents w (Runtime.ExecuteBatchMQO eng plan payload w)).filter Event.isExec).length
        = payload.rows.length ∧
      ((newEvents w (Runtime.ExecuteBatchMQO eng plan payload w)).filter Event.isExec).countP
        Event.execOk + 1 = payload.rows.length) := by
  by_cases hrows : payload.rows = []
  · have hE := Runtime.ExecuteBatchMQO_empty eng plan payload w hrows
    have hev : newEvents w (Runtime.ExecuteBatchMQO eng plan payload w) = [] := by
      rw [hE]; simp [newEvents, Outcome.world]
    rw [hev, hrows]
    refine ⟨by simp, ?_, fun _ _ h => absurd rfl h, fun _ h => by simp at h⟩
    rw [hE]
    simp [Outcome.world]
  · obtain ⟨levs, F, hev, hex⟩ := Runtime.ExecuteBatchMQO_execs eng plan payload w hplan hrows
    obtain ⟨_, _, _, hret⟩ := Runtime.ExecuteBatchMQO_eq eng plan payload w hplan hrows
    have hatt := F.attempts hno
    have hcount : (Runtime.mqoRows eng plan payload w).success_count
        = (levs.filter Event.isExec).countP Event.execOk := by
      have := F.count
      rw [countP_filter_isExec _ Event.execOk_isExec]
      simpa [Runtime.mqoStart] using this
    rw [hex]
    refine ⟨hatt, ?_, ?_, ?_⟩
    · rw [← hcount]
      exact hret
    · intro hall hdry _
      have hnofail : levs.any Event.execFailed = false := by
        rw [Bool.eq_false_iff]
        intro hany
        obtain ⟨e, he, hf⟩ := List.any_eq_true.mp hany
        have hmem : e ∈ levs.filter Event.isExec :=
          List.mem_filter.mpr ⟨he, Event.execFailed_isExec e hf⟩
        exact Event.not_ok_and_failed e ⟨hall e hmem, hf⟩
      have herr : (Runtime.mqoRows eng plan payload w).error_occurred = false := by
        have := F.err
        simpa [Runtime.mqoStart, hnofail] using this
      rw [hev, herr, hno, hdry]
      have hin := F.in_txn
      constructor
      · simp [Runtime.mqoFinish]
      · intro hmem
        simp only [Runtime.mqoFinish, Bool.or_self, Bool.false_eq_true, if_false,
          List.mem_append, List.mem_cons, List.mem_singleton, List.not_mem_nil, or_false] at hmem
        rcases hmem with ((((h | h | h) | h) | h) | h) | h
        · cases h
        · cases h
        · cases hc : w.mqo_session_context_ <;> rw [hc] at h <;> cases h
        · have := hin _ h
          simp [Event.inTxn] at this
        · cases h
        · cases h
        · cases h
    · intro hall hone
      have hfilter : payload.rows.filter
          (fun r => decide (r.values.length = eng.SPI_getargcount w.trace plan))
          = payload.rows := by
        apply List.filter_eq_self.mpr
        intro r hr
        simp [hall r hr]
      rw [hfilter] at hatt
      have hlen := hatt.length_eq
      have hsum := countP_ok_add_failed (levs.filter Event.isExec) (by
        intro e he
        obtain ⟨row, _, hrow⟩ := forall₂_exists_of_mem_right hatt he
        exact hrow.isExec)
      omega

/-- C4 at the sample payload: four rows, one of them failing and one of the
wrong arity, on a plan with one argument. -/
theorem C4_batch_attempts_every_row_witness :
    List.Forall₂
      (Runtime.Attempts sampleEngine 5
        ((List.range (sampleEngine.SPI_getargcount sampleWorld.trace 5)).map
          (sampleEngine.SPI_getargtypeid sampleWorld.trace 5)))
      (samplePayload.rows.filter
        (fun r => decide (r.values.length = sampleEngine.SPI_getargcount sampleWorld.trace 5)))
      ((newEvents sampleWorld
        (Runtime.ExecuteBatchMQO sampleEngine 5 samplePayload sampleWorld)).filter Event.isExec) ∧
    Runtime.ExecuteBatchMQO sampleEngine 5 samplePayload sampleWorld =
      Outcome.ret
        (((newEvents sampleWorld
          (Runtime.ExecuteBatchMQO sampleEngine 5 samplePayload sampleWorld)).filter
            Event.isExec).countP Event.execOk)
        (Runtime.ExecuteBatchMQO sampleEngine 5 samplePayload sampleWorld).world :=
  ⟨(C4_batch_attempts_every_row sampleEngine 5 samplePayload sampleWorld (by decide) rfl).1,
   (C4_batch_attempts_every_row sampleEngine 5 samplePayload sampleWorld (by decide) rfl).2.1⟩

theorem count_eq_zero_of_inTxn (levs : List Event) (h : ∀ e ∈ levs, e.inTxn = true)
    (x : Event) (hx : x.inTxn = false) : levs.count x = 0 := by
  apply List.count_eq_zero.mpr
  intro hmem
  rw [h x hmem] at hx
  cases hx

theorem Runtime.exists_failed_iff (pre levs post : List Event)
    (hpre : ∀ e ∈ pre, e.isExec = false) (hpost : ∀ e ∈ post, e.isExec = false) :
    (∃ e ∈ pre ++ levs ++ post, e.execFailed = true) ↔ levs.any Event.execFailed = true := by
  constructor
  · rintro ⟨e, he, hf⟩
    have hex := Event.execFailed_isExec e hf
    simp only [List.mem_append] at he
    rcases he with (h | h) | h
    · rw [hpre e h] at hex; cases hex
    · exact List.any_eq_true.mpr ⟨e, h, hf⟩
    · rw [hpost e h] at hex; cases hex
  · intro h
    obtain ⟨e, he, hf⟩ := List.any_eq_true.mp h
    exact ⟨e, by simp [he], hf⟩

theorem Runtime.mqoFinish_not_exec (d e : Bool) (n : Nat) :
    ∀ x ∈ [Event.PopActiveSnapshot] ++ Runtime.mqoFinish d e n ++ [Event.malloc_trim],
      x.isExec = false := by
  intro x hx
  cases d <;> cases e <;> simp [Runtime.mqoFinish] at hx <;>
    rcases hx with rfl | rfl | rfl | rfl <;> rfl

/-- C5: for a non-null plan and a payload with at least one row,
`ExecuteBatchMQO` opens exactly one sub-transaction, as its first engine call,
and ends it exactly once: by a rollback when `dry_run` is set, or some row
execution reported failure, or an exception left the row loop; by a commit
(release) in every other case. -/
theorem C5_rollback_iff_dry_run_or_error (eng : Engine) (plan : SPIPlanPtr)
    (payload : BatchPayload) (w : World) (hplan : plan ≠ 0) (hrows : payload.rows ≠ []) :
    (newEvents w (Runtime.ExecuteBatchMQO eng plan payload w)).head?
      = some Event.BeginInternalSubTransaction ∧
    (newEvents w (Runtime.ExecuteBatchMQO eng plan payload w)).count
      Event.BeginInternalSubTransaction = 1 ∧
    ((payload.dry_run = true ∨
        (∃ e ∈ newEvents w (Runtime.ExecuteBatchMQO eng plan payload w), e.execFailed = true) ∨
        (Runtime.mqoRows eng plan payload w).threw = true) →
      (newEvents w (Runtime.ExecuteBatchMQO eng plan payload w)).count
        Event.RollbackAndReleaseCurrentSubTransaction = 1 ∧
      (newEvents w (Runtime.ExecuteBatchMQO eng plan payload w)).count
        Event.ReleaseCurrentSubTransaction = 0) ∧
    (¬ (payload.dry_run = true ∨
        (∃ e ∈ newEvents w (Runtime.ExecuteBatchMQO eng plan payload w), e.execFailed = true) ∨
        (Runtime.mqoRows eng plan payload w).threw = true) →
      (newEvents w (Runtime.ExecuteBatchMQO eng plan payload w)).count
        Event.ReleaseCurrentSubTransaction = 1 ∧
      (newEvents w (Runtime.ExecuteBatchMQO eng plan payload w)).count
        Event.RollbackAndReleaseCurrentSubTransaction = 0) := by
  obtain ⟨levs, F, hev, _⟩ := Runtime.ExecuteBatchMQO_execs eng plan payload w hplan hrows
  have hB := count_eq_zero_of_inTxn levs F.in_txn Event.BeginInternalSubTransaction rfl
  have hR := count_eq_zero_of_inTxn levs F.in_txn Event.ReleaseCurrentSubTransaction rfl
  have hRb := count_eq_zero_of_inTxn levs F.in_txn
    Event.RollbackAndReleaseCurrentSubTransaction rfl
  have herr : (Runtime.mqoRows eng plan payload w).error_occurred
      = levs.any Event.execFailed := by
    have := F.err
    simpa [Runtime.mqoStart] using this
  have hfail : (∃ e ∈ newEvents w (Runtime.ExecuteBatchMQO eng plan payload w),
      e.execFailed = true) ↔ levs.any Event.execFailed = true := by
    rw [hev]
    have := Runtime.exists_failed_iff
      [Event.BeginInternalSubTransaction, Event.PushActiveSnapshot,
        if w.mqo_session_context_ then Event.MemoryContextReset
        else Event.AllocSetContextCreate] levs
      ([Event.PopActiveSnapshot] ++ Runtime.mqoFinish payload.dry_run
              ((Runtime.mqoRows eng plan payload w).error_occurred
                || (Runtime.mqoRows eng plan payload w).threw)
              (Runtime.mqoRows eng plan payload w).success_count ++ [Event.malloc_trim])
      (by
        intro e he
        cases hc : w.mqo_session_context_
        all_goals
          rw [hc] at he
          simp at he
          rcases he with rfl | rfl | rfl <;> rfl)
      (Runtime.mqoFinish_not_exec _ _ _)
    simpa only [List.append_assoc] using this
  rw [hfail, hev, ← herr]
  generalize (Runtime.mqoRows eng plan payload w).error_occurred = err
  generalize (Runtime.mqoRows eng plan payload w).threw = threw
  generalize (Runtime.mqoRows eng plan payload w).success_count = n
  refine ⟨rfl, ?_, ?_, ?_⟩
  · cases w.mqo_session_context_ <;> cases payload.dry_run <;> cases err <;> cases threw <;>
      simp [Runtime.mqoFinish, List.count_cons, hB]
  · intro h
    cases hd : payload.dry_run <;> cases he : err <;> cases ht : threw <;>
      simp [hd, he, ht] at h <;>
      cases w.mqo_session_context_ <;>
      simp [Runtime.mqoFinish, List.count_cons, hR, hRb]
  · intro h
    cases hd : payload.dry_run <;> cases he : err <;> cases ht : threw <;>
      simp [hd, he, ht] at h <;>
      cases w.mqo_session_context_ <;>
      simp [Runtime.mqoFinish, List.count_cons, hR, hRb]

/-- C5 at the sample payload, whose second row fails: the sub-transaction
ends by a rollback and is not committed. -/
theorem C5_rollback_iff_dry_run_or_error_witness :
    (newEvents sampleWorld (Runtime.ExecuteBatchMQO sampleEngine 5 samplePayload sampleWorld)).count
      Event.RollbackAndReleaseCurrentSubTransaction = 1 ∧
    (newEvents sampleWorld (Runtime.ExecuteBatchMQO sampleEngine 5 samplePayload sampleWorld)).count
      Event.ReleaseCurrentSubTransaction = 0 :=
  (C5_rollback_iff_dry_run_or_error sampleEngine 5 samplePayload sampleWorld
    (by decide) (by decide)).2.2.1
    (Or.inr (Or.inl ⟨Event.SPI_execute_plan 5 [13] [' '] false (some (-1)), by decide, by decide⟩))

/-! ## Dry run -/

theorem sandboxed_neutral_cons (s : Bool) (e : Event) (rest : List Event)
    (he : e.neutral = true) : sandboxed s (e :: rest) = sandboxed s rest := by
  cases e <;> first | rfl | (simp [Event.neutral] at he)

theorem sandboxed_neutral_append (s : Bool) (a rest : List Event) (ha : AllNeutral a) :
    sandboxed s (a ++ rest) = sandboxed s rest := by
  induction a with
  | nil => rfl
  | cons e t ih =>
    rw [List.cons_append, sandboxed_neutral_cons s e _ (ha e (List.mem_cons_self _ _))]
    exact ih (fun x hx => ha x (List.mem_cons_of_mem _ hx))

theorem sandboxed_append_neutral (b c : List Event) (hc : AllNeutral c) :
    ∀ s : Bool, sandboxed s (b ++ c) = sandboxed s b := by
  induction b with
  | nil =>
    intro s
    have := sandboxed_neutral_append s c [] hc
    simpa using this
  | cons e t ih =>
    intro s
    cases e <;> simp [sandboxed, ih]

theorem sandboxed_inTxn_append (levs rest : List Event) (h : ∀ e ∈ levs, e.inTxn = true) :
    sandboxed true (levs ++ rest) = sandboxed true rest := by
  induction levs with
  | nil => rfl
  | cons e t ih =>
    have he := h e (List.mem_cons_self _ _)
    have ht := ih (fun x hx => h x (List.mem_cons_of_mem _ hx))
    cases e <;> first | (simp [Event.inTxn] at he; done) | simp [sandboxed, ht]

theorem countP_execOk_neutral (a : List Event) (ha : AllNeutral a) :
    a.countP Event.execOk = 0 := by
  apply List.countP_eq_zero.mpr
  intro e he hok
  have h1 := ha e he
  have h2 := Event.execOk_isExec e hok
  cases e <;> simp_all [Event.neutral, Event.isExec]

theorem DryRunOK.of_neutral (dry : Bool) (w : World) (o : Outcome Nat)
    (h : GrowsBy AllNeutral w o) (hz : ∀ n w', o = Outcome.ret n w' → n = 0) :
    DryRunOK dry w o := by
  obtain ⟨evs, h1, h2⟩ := h
  refine ⟨evs, h1, fun _ => ?_, fun n w' hn => ?_⟩
  · have := sandboxed_neutral_append false evs [] h2
    simpa [sandboxed] using this
  · rw [countP_execOk_neutral evs h2]
    exact hz n w' hn

theorem DryRunOK.pad_front (dry : Bool) (w w1 : World) (o : Outcome Nat) (a : List Event)
    (ha : AllNeutral a) (hw : w1.trace = w.trace ++ a) (h : DryRunOK dry w1 o) :
    DryRunOK dry w o := by
  obtain ⟨evs, h1, h2, h3⟩ := h
  refine ⟨a ++ evs, by rw [h1, hw, List.append_assoc], fun hd => ?_, fun n w' hn => ?_⟩
  · rw [sandboxed_neutral_append false a evs ha]
    exact h2 hd
  · rw [List.countP_append, countP_execOk_neutral a ha, Nat.zero_add]
    exact h3 n w' hn

theorem DryRunOK.finish (dry : Bool) (w : World) (o : Outcome Nat) (h : DryRunOK dry w o) :
    DryRunOK dry w (Executor.finish o) := by
  obtain ⟨evs, h1, h2, h3⟩ := h
  have hfin : AllNeutral [Event.SPI_finish] := AllNeutral.of_forall rfl
  cases o with
  | ret res w1 =>
    refine ⟨evs ++ [Event.SPI_finish], ?_, fun hd => ?_, fun n w' hn => ?_⟩
    · simp only [Executor.finish, Outcome.world, World.emit_trace] at h1 ⊢
      rw [h1, List.append_assoc]
    · rw [sandboxed_append_neutral evs _ hfin]
      exact h2 hd
    · rw [List.countP_append, countP_execOk_neutral _ hfin, Nat.add_zero]
      simp only [Executor.finish, Outcome.ret.injEq] at hn
      rw [← hn.1]
      exact h3 res w1 rfl
  | throw e w1 =>
    refine ⟨evs ++ [Event.SPI_finish], ?_, fun hd => ?_, fun n w' hn => ?_⟩
    · simp only [Executor.finish, Outcome.world, World.emit_trace] at h1 ⊢
      rw [h1, List.append_assoc]
    · rw [sandboxed_append_neutral evs _ hfin]
      exact h2 hd
    · simp [Executor.finish] at hn
  | pgerror m w1 => exact ⟨evs, h1, h2, fun n w' hn => by simp [Executor.finish] at hn⟩
  | undefined w1 => exact ⟨evs, h1, h2, fun n w' hn => by simp [Executor.finish] at hn⟩

theorem Runtime.ExecuteBatchMQO_dryRunOK (eng : Engine) (plan : SPIPlanPtr)
    (payload : BatchPayload) (w : World) :
    DryRunOK payload.dry_run w (Runtime.ExecuteBatchMQO eng plan payload w) := by
  by_cases hc : plan = 0 ∨ payload.rows.length = 0
  · apply DryRunOK.of_neutral
    · exact ⟨[], by simp only [Runtime.ExecuteBatchMQO, hc, if_true, Outcome.world,
        List.append_nil], AllNeutral.nil⟩
    · intro n w' hn
      simp only [Runtime.ExecuteBatchMQO, hc, if_true, Outcome.ret.injEq] at hn
      exact hn.1.symm
  · have hplan : plan ≠ 0 := fun hp => hc (Or.inl hp)
    have hrows : payload.rows ≠ [] := fun hr => hc (Or.inr (by simp [hr]))
    obtain ⟨levs, F, ht, hret⟩ := Runtime.ExecuteBatchMQO_eq eng plan payload w hplan hrows
    refine ⟨_, ht, fun hd => ?_, fun n w' hn => ?_⟩
    · rw [hd]
      have hctx : ∀ rest, sandboxed true
          ((if w.mqo_session_context_ then Event.MemoryContextReset
            else Event.AllocSetContextCreate) :: rest) = sandboxed true rest := by
        intro rest
        cases w.mqo_session_context_ <;> rfl
      have hform : ∀ (c : Event) (fin : List Event),
          [Event.BeginInternalSubTransaction, Event.PushActiveSnapshot, c] ++ levs
            ++ [Event.PopActiveSnapshot] ++ fin ++ [Event.malloc_trim]
          = Event.BeginInternalSubTransaction :: Event.PushActiveSnapshot :: c ::
              (levs ++ (Event.PopActiveSnapshot :: (fin ++ [Event.malloc_trim]))) := by
        intro c fin
        simp
      rw [hform]
      rw [show ∀ rest, sandboxed false (Event.BeginInternalSubTransaction :: rest)
        = sandboxed true rest from fun _ => rfl]
      rw [show ∀ rest, sandboxed true (Event.PushActiveSnapshot :: rest)
        = sandboxed true rest from fun _ => rfl]
      rw [hctx, sandboxed_inTxn_append levs _ F.in_txn]
      simp [Runtime.mqoFinish, sandboxed]
    · rw [hret] at hn
      simp only [Outcome.ret.injEq] at hn
      rw [← hn.1]
      have hcount := F.count
      simp only [Runtime.mqoStart, Nat.zero_add] at hcount
      change (Runtime.mqoRows eng plan payload w).success_count = _ at hcount
      rw [hcount]
      cases w.mqo_session_context_ <;> cases payload.dry_run <;>
        cases (Runtime.mqoRows eng plan payload w).error_occurred <;>
        cases (Runtime.mqoRows eng plan payload w).threw <;>
        simp [List.countP_append, List.countP_cons, Runtime.mqoFinish, Event.execOk]

theorem sandboxed_open_has_rollback (evs : List Event) (h : sandboxed true evs = true) :
    Event.RollbackAndReleaseCurrentSubTransaction ∈ evs := by
  induction evs with
  | nil => simp [sandboxed] at h
  | cons e t ih =>
    cases e with
    | RollbackAndReleaseCurrentSubTransaction => simp
    | ReleaseCurrentSubTransaction => simp [sandboxed] at h
    | _ =>
      simp only [sandboxed, Bool.true_and] at h
      simp [ih h]

theorem sandboxed_no_release (evs : List Event) :
    ∀ s : Bool, sandboxed s evs = true → Event.ReleaseCurrentSubTransaction ∉ evs := by
  induction evs with
  | nil => intro s _; simp
  | cons e t ih =>
    intro s h
    cases e with
    | ReleaseCurrentSubTransaction => simp [sandboxed] at h
    | SPI_execute_plan plan values nulls ro ret =>
      simp only [sandboxed, Bool.and_eq_true] at h
      simpa using ih _ h.2
    | _ =>
      simp only [sandboxed] at h
      simpa using ih _ h

/-- What `sandboxed` says about a row execution `e` inside the trace: a
sub-transaction was opened before it (or was open from the start) and a
rollback follows it. -/
theorem sandboxed_exec (a : List Event) (e : Event) (b : List Event) (he : e.isExec = true) :
    ∀ s : Bool, sandboxed s (a ++ e :: b) = true →
      (s = true ∨ Event.BeginInternalSubTransaction ∈ a) ∧
      Event.RollbackAndReleaseCurrentSubTransaction ∈ b := by
  induction a with
  | nil =>
    intro s h
    cases e <;> simp [Event.isExec] at he
    simp only [List.nil_append, sandboxed, Bool.and_eq_true] at h
    obtain ⟨h1, h2⟩ := h
    subst h1
    exact ⟨Or.inl rfl, sandboxed_open_has_rollback b h2⟩
  | cons x t ih =>
    intro s h
    rw [List.cons_append] at h
    cases x with
    | BeginInternalSubTransaction =>
      have h' : sandboxed true (t ++ e :: b) = true := by simpa only [sandboxed] using h
      exact ⟨Or.inr (List.mem_cons_self _ _), (ih true h').2⟩
    | RollbackAndReleaseCurrentSubTransaction =>
      have h' : sandboxed false (t ++ e :: b) = true := by simpa only [sandboxed] using h
      obtain ⟨h1, h2⟩ := ih false h'
      rcases h1 with h1 | h1
      · cases h1
      · exact ⟨Or.inr (List.mem_cons_of_mem _ h1), h2⟩
    | ReleaseCurrentSubTransaction => simp [sandboxed] at h
    | SPI_execute_plan plan values nulls ro ret =>
      simp only [sandboxed, Bool.and_eq_true] at h
      obtain ⟨h1, h2⟩ := ih s h.2
      exact ⟨Or.inl h.1, h2⟩
    | _ =>
      have h' : sandboxed s (t ++ e :: b) = true := by simpa only [sandboxed] using h
      obtain ⟨h1, h2⟩ := ih s h'
      rcases h1 with h1 | h1
      · exact ⟨Or.inl h1, h2⟩
      · exact ⟨Or.inr (List.mem_cons_of_mem _ h1), h2⟩

theorem Executor.DispatchSharedScan_neutral (eng : Engine) (payload : BatchPayload)
    (w : World) : GrowsBy AllNeutral w (Executor.DispatchSharedScan eng payload w) := by
  have henter : AllNeutral [Event.enter "DispatchSharedScan"] := AllNeutral.of_forall rfl
  obtain ⟨evsC, hC, nC⟩ := Executor.connect_grows eng (w.emit [Event.enter "DispatchSharedScan"])
  unfold Executor.DispatchSharedScan
  cases hcon : Executor.connect eng (w.emit [Event.enter "DispatchSharedScan"]) with
  | ret u w1 =>
    rw [hcon] at hC
    simp only [Outcome.world, World.emit_trace] at hC
    obtain ⟨evs, h1, a, b, rfl, ha, hb⟩ :=
      Executor.finish_grows w1 _ (Runtime.ExecuteSharedScan_grows eng payload w1)
    exact ⟨[Event.enter "DispatchSharedScan"] ++ evsC ++ (a ++ b),
      by rw [h1, hC]; simp only [List.append_assoc],
      (henter.append nC).append (ha.append hb)⟩
  | throw e w1 =>
    rw [hcon] at hC
    exact ⟨[Event.enter "DispatchSharedScan"] ++ evsC,
      by simp only [Outcome.world, World.emit_trace] at hC ⊢; rw [hC, List.append_assoc],
      henter.append nC⟩
  | pgerror m w1 =>
    rw [hcon] at hC
    exact ⟨[Event.enter "DispatchSharedScan"] ++ evsC,
      by simp only [Outcome.world, World.emit_trace] at hC ⊢; rw [hC, List.append_assoc],
      henter.append nC⟩
  | undefined w1 =>
    rw [hcon] at hC
    exact ⟨[Event.enter "DispatchSharedScan"] ++ evsC,
      by simp only [Outcome.world, World.emit_trace] at hC ⊢; rw [hC, List.append_assoc],
      henter.append nC⟩

theorem Executor.DispatchMQO_dryRunOK (eng : Engine) (payload : BatchPayload) (w : World) :
    DryRunOK payload.dry_run w (Executor.DispatchMQO eng payload w) := by
  have henter : AllNeutral [Event.enter "DispatchMQO"] := AllNeutral.of_forall rfl
  obtain ⟨evsC, hC, nC⟩ := Executor.connect_grows eng (w.emit [Event.enter "DispatchMQO"])
  unfold Executor.DispatchMQO
  cases hcon : Executor.connect eng (w.emit [Event.enter "DispatchMQO"]) with
  | ret u w1 =>
    rw [hcon] at hC
    simp only [Outcome.world, World.emit_trace] at hC
    dsimp only
    apply DryRunOK.pad_front _ w w1 _ ([Event.enter "DispatchMQO"] ++ evsC)
      (henter.append nC) (by rw [hC, List.append_assoc])
    apply DryRunOK.finish
    have hP := Planner.PrepareMQO_grows eng payload w1
    cases hprep : Planner.PrepareMQO eng payload w1 with
    | ret plan w2 =>
      rw [hprep] at hP
      obtain ⟨evsP, hP1, hP2⟩ := hP
      dsimp only
      by_cases hplan : plan ≠ 0
      · rw [if_pos hplan]
        exact DryRunOK.pad_front _ w1 w2 _ evsP hP2 hP1
          (Runtime.ExecuteBatchMQO_dryRunOK eng plan payload w2)
      · rw [if_neg hplan]
        exact DryRunOK.of_neutral _ _ _ ⟨evsP, hP1, hP2⟩
          (fun n w' hn => by simp only [Outcome.ret.injEq] at hn; exact hn.1.symm)
    | throw e w2 =>
      rw [hprep] at hP
      exact DryRunOK.of_neutral _ _ _ hP (fun n w' hn => by cases hn)
    | pgerror m w2 =>
      rw [hprep] at hP
      exact DryRunOK.of_neutral _ _ _ hP (fun n w' hn => by cases hn)
    | undefined w2 =>
      rw [hprep] at hP
      exact DryRunOK.of_neutral _ _ _ hP (fun n w' hn => by cases hn)
  | throw e w1 =>
    rw [hcon] at hC
    exact DryRunOK.of_neutral _ _ _ ⟨[Event.enter "DispatchMQO"] ++ evsC,
      by simp only [Outcome.world, World.emit_trace] at hC ⊢; rw [hC, List.append_assoc],
      henter.append nC⟩ (fun n w' hn => by cases hn)
  | pgerror m w1 =>
    rw [hcon] at hC
    exact DryRunOK.of_neutral _ _ _ ⟨[Event.enter "DispatchMQO"] ++ evsC,
      by simp only [Outcome.world, World.emit_trace] at hC ⊢; rw [hC, List.append_assoc],
      henter.append nC⟩ (fun n w' hn => by cases hn)
  | undefined w1 =>
    rw [hcon] at hC
    exact DryRunOK.of_neutral _ _ _ ⟨[Event.enter "DispatchMQO"] ++ evsC,
      by simp only [Outcome.world, World.emit_trace] at hC ⊢; rw [hC, List.append_assoc],
      henter.append nC⟩ (fun n w' hn => by cases hn)

/-- C6, counterexample: (1) on the simple path a dry-run payload has its rows
executed outside any sub-transaction and nothing is rolled back; (2) on the
shared-scan path a dry-run payload returns 2 (the match count) although no row
execution took place. -/
theorem C6_dry_run_counterexample :
    (sampleSimpleDryRun.dry_run = true ∧
      sandboxed false
        (newEvents sampleWorld (Executor.Execute sampleEngine sampleSimpleDryRun sampleWorld))
        = false ∧
      Event.SPI_execute_plan 5 [1] [' '] false (some 1) ∈
        newEvents sampleWorld (Executor.Execute sampleEngine sampleSimpleDryRun sampleWorld) ∧
      Event.BeginInternalSubTransaction ∉
        newEvents sampleWorld (Executor.Execute sampleEngine sampleSimpleDryRun sampleWorld) ∧
      Event.RollbackAndReleaseCurrentSubTransaction ∉
        newEvents sampleWorld (Executor.Execute sampleEngine sampleSimpleDryRun sampleWorld)) ∧
    (sampleScan.dry_run = true ∧
      (∃ w', Executor.Execute sampleEngine sampleScan sampleWorld = Outcome.ret 2 w') ∧
      (newEvents sampleWorld (Executor.Execute sampleEngine sampleScan sampleWorld)).countP
        Event.execOk = 0) :=
  ⟨⟨rfl, by decide, by decide, by decide, by decide⟩, rfl, ⟨_, rfl⟩, by decide⟩

/-- C6 (amended): for every payload with `dry_run = true` that `Execute`
sends down the shared-scan path or the MQO path, nothing is committed: no
sub-transaction is released, and every row execution has the opening of a
sub-transaction before it and a rollback after it. On the shared-scan path no
row is executed at all; on the MQO path a returned count is the number of row
executions that reported success. -/
theorem C6_dry_run_commits_nothing (eng : Engine) (payload : BatchPayload) (w : World)
    (hdry : payload.dry_run = true)
    (hpath : (payload.scan_table ≠ "" ∧ payload.scan_col ≠ "") ∨ payload.use_mqo = true) :
    sandboxed false (newEvents w (Executor.Execute eng payload w)) = true ∧
    Event.ReleaseCurrentSubTransaction ∉ newEvents w (Executor.Execute eng payload w) ∧
    (∀ a e b, newEvents w (Executor.Execute eng payload w) = a ++ e :: b → e.isExec = true →
      Event.BeginInternalSubTransaction ∈ a ∧
      Event.RollbackAndReleaseCurrentSubTransaction ∈ b) ∧
    ((payload.scan_table ≠ "" ∧ payload.scan_col ≠ "") →
      ∀ e ∈ newEvents w (Executor.Execute eng payload w), e.isExec = false) ∧
    (¬ (payload.scan_table ≠ "" ∧ payload.scan_col ≠ "") →
      ∀ n w', Executor.Execute eng payload w = Outcome.ret n w' →
        n = (newEvents w (Executor.Execute eng payload w)).countP Event.execOk) := by
  have key : sandboxed false (newEvents w (Executor.Execute eng payload w)) = true ∧
      ((payload.scan_table ≠ "" ∧ payload.scan_col ≠ "") →
        ∀ e ∈ newEvents w (Executor.Execute eng payload w), e.isExec = false) ∧
      (¬ (payload.scan_table ≠ "" ∧ payload.scan_col ≠ "") →
        ∀ n w', Executor.Execute eng payload w = Outcome.ret n w' →
          n = (newEvents w (Executor.Execute eng payload w)).countP Event.execOk) := by
    by_cases hint : payload.scan_table ≠ "" ∧ payload.scan_col ≠ ""
    · rw [Executor.Execute_shared eng payload w hint]
      obtain ⟨evs, h1, h2⟩ := Executor.DispatchSharedScan_neutral eng payload w
      rw [newEvents_of_trace w _ evs h1]
      refine ⟨?_, fun _ e he => ?_, fun h => absurd hint h⟩
      · have := sandboxed_neutral_append false evs [] h2
        simpa [sandboxed] using this
      · have hn := h2 e he
        cases e <;> simp_all [Event.neutral, Event.isExec]
    · have hm : payload.use_mqo = true := by
        rcases hpath with h | h
        · exact absurd h hint
        · exact h
      rw [Executor.Execute_mqo eng payload w hint hm]
      obtain ⟨evs, h1, h2, h3⟩ := Executor.DispatchMQO_dryRunOK eng payload w
      rw [newEvents_of_trace w _ evs h1]
      exact ⟨h2 hdry, fun h => absurd h hint, fun _ => h3⟩
  refine ⟨key.1, sandboxed_no_release _ false key.1, ?_, key.2.1, key.2.2⟩
  intro a e b hsplit he
  have hs := key.1
  rw [hsplit] at hs
  obtain ⟨h1, h2⟩ := sandboxed_exec a e b he false hs
  rcases h1 with h1 | h1
  · cases h1
  · exact ⟨h1, h2⟩

/-- C6 (amended) at the sample dry-run payload on the MQO path. -/
theorem C6_dry_run_commits_nothing_witness :
    sandboxed false (newEvents sampleWorld (Executor.Execute sampleEngine sampleDryRun sampleWorld))
      = true ∧
    Event.ReleaseCurrentSubTransaction ∉
      newEvents sampleWorld (Executor.Execute sampleEngine sampleDryRun sampleWorld) :=
  ⟨(C6_dry_run_commits_nothing sampleEngine sampleDryRun sampleWorld rfl (Or.inr rfl)).1,
   (C6_dry_run_commits_nothing sampleEngine sampleDryRun sampleWorld rfl (Or.inr rfl)).2.1⟩

/-! ## The plan cache -/

/-- C7, counterexample: with the cache at capacity (50 entries) and a valid
cached handle 100 for the key `q100`, `PrepareMQO` does not return the cached
handle: it releases it with all the others, prepares again and returns the new
handle 5, leaving a cache of one entry. -/
theorem C7_cache_hit_counterexample :
    StdMap.find sampleCachedPayload.template_sql sampleFullWorld.plan_cache_ = some 100 ∧
    sampleEngine.SPI_plan_is_valid sampleFullWorld.trace 100 = true ∧
    sampleCachedPayload.rows ≠ [] ∧
    (∃ w', Planner.PrepareMQO sampleEngine sampleCachedPayload sampleFullWorld
      = Outcome.ret 5 w') ∧
    Event.SPI_freeplan 100 ∈
      newEvents sampleFullWorld
        (Planner.PrepareMQO sampleEngine sampleCachedPayload sampleFullWorld) ∧
    Event.SPI_prepare "q100" [INT8OID] 5 ∈
      newEvents sampleFullWorld
        (Planner.PrepareMQO sampleEngine sampleCachedPayload sampleFullWorld) ∧
    (Planner.PrepareMQO sampleEngine sampleCachedPayload sampleFullWorld).world.plan_cache_
      = [("q100", 5)] :=
  ⟨by decide, rfl, by decide, ⟨_, rfl⟩, by decide, by decide, by decide⟩

/-- C7 (amended): when the plan cache holds fewer than the maximum number of
entries (50) and has an entry for the payload's `template_sql` whose handle
the engine reports as valid, `PrepareMQO` on a payload with at least one row
returns that handle; its only engine call is the validity check (no prepare,
no release) and the cache is unchanged, so the next call with the same SQL
finds the same handle again. -/
theorem C7_cache_hit_returns_cached_plan (eng : Engine) (payload : BatchPayload) (w : World)
    (cached_plan : SPIPlanPtr)
    (hsize : w.plan_cache_.length < MAX_PLAN_CACHE_SIZE)
    (hrows : payload.rows ≠ [])
    (hfind : StdMap.find payload.template_sql w.plan_cache_ = some cached_plan)
    (hvalid : eng.SPI_plan_is_valid w.trace cached_plan = true) :
    Planner.PrepareMQO eng payload w =
      Outcome.ret cached_plan (w.emit [Event.SPI_plan_is_valid cached_plan true]) ∧
    newEvents w (Planner.PrepareMQO eng payload w)
      = [Event.SPI_plan_is_valid cached_plan true] ∧
    (Planner.PrepareMQO eng payload w).world.plan_cache_ = w.plan_cache_ ∧
    StdMap.find payload.template_sql (Planner.PrepareMQO eng payload w).world.plan_cache_
      = some cached_plan := by
  have hE : Planner.PrepareMQO eng payload w =
      Outcome.ret cached_plan (w.emit [Event.SPI_plan_is_valid cached_plan true]) := by
    unfold Planner.PrepareMQO
    cases hr : payload.rows with
    | nil => exact absurd hr hrows
    | cons first_row rest =>
      have hnot : ¬ MAX_PLAN_CACHE_SIZE ≤ w.plan_cache_.length := by omega
      simp only [hnot, if_false, hfind, hvalid, if_true]
  rw [hE]
  exact ⟨rfl, by simp [newEvents, Outcome.world], rfl, hfind⟩

/-- C7 (amended) at a cache holding the single, valid entry `q100`. -/
theorem C7_cache_hit_returns_cached_plan_witness :
    Planner.PrepareMQO sampleEngine sampleCachedPayload sampleHitWorld =
      Outcome.ret 100 (sampleHitWorld.emit [Event.SPI_plan_is_valid 100 true]) :=
  (C7_cache_hit_returns_cached_plan sampleEngine sampleCachedPayload sampleHitWorld 100
    (by decide) (by decide) (by decide) rfl).1

theorem Planner.freeAll_eq (m : List (String × SPIPlanPtr)) :
    Planner.freeAll m =
      (m.filter (fun e => decide (e.2 ≠ 0))).map (fun e => Event.SPI_freeplan e.2) := by
  induction m with
  | nil => rfl
  | cons e t ih =>
    obtain ⟨k, p⟩ := e
    by_cases hp : p = 0
    · simp [Planner.freeAll, hp, ih]
    · simp [Planner.freeAll, hp, ih]

theorem StdMap.length_assign {κ β : Type} [DecidableEq κ] (k : κ) (v : β) (m : List (κ × β)) :
    (StdMap.assign k v m).length = m.length := by
  induction m with
  | nil => rfl
  | cons e t ih =>
    obtain ⟨k', v'⟩ := e
    by_cases h : k' = k
    · simp [StdMap.assign, h]
    · simp [StdMap.assign, h, ih]

theorem StdMap.length_insert_le {κ β : Type} [DecidableEq κ] [LT κ]
    [DecidableRel (fun (a b : κ) => a < b)] (k : κ) (v : β) (m : List (κ × β)) :
    (StdMap.insert k v m).length ≤ m.length + 1 := by
  induction m with
  | nil => simp [StdMap.insert]
  | cons e t ih =>
    obtain ⟨k', v'⟩ := e
    unfold StdMap.insert
    split
    · simp
    · split
      · simp
      · simp only [List.length_cons]
        omega

theorem StdMap.length_index_le {κ β : Type} [DecidableEq κ] [LT κ]
    [DecidableRel (fun (a b : κ) => a < b)] (d : β) (k : κ) (m : List (κ × β)) :
    (StdMap.index d k m).length ≤ m.length + 1 := by
  unfold StdMap.index
  split
  · omega
  · exact StdMap.length_insert_le k d m

theorem StdMap.length_erase_le {κ β : Type} [DecidableEq κ] (k : κ) (m : List (κ × β)) :
    (StdMap.erase k m).length ≤ m.length := by
  unfold StdMap.erase
  exact List.length_filter_le _ _

theorem Planner.prepareNew_cache_length (eng : Engine) (payload : BatchPayload)
    (first_row : ParamRow) (w : World) :
    (Planner.prepareNew eng payload first_row w).world.plan_cache_.length
      ≤ w.plan_cache_.length + 1 := by
  simp only [Planner.prepareNew]
  split
  · simp [Outcome.world]
  · split
    · simp only [Outcome.world, StdMap.length_assign]
      exact StdMap.length_index_le _ _ _
    · simp [Outcome.world]

/-- The bound on the cache is preserved by every call of `PrepareMQO`. -/
theorem Planner.PrepareMQO_cache_bound (eng : Engine) (payload : BatchPayload) (w : World)
    (hw : w.plan_cache_.length ≤ MAX_PLAN_CACHE_SIZE) :
    (Planner.PrepareMQO eng payload w).world.plan_cache_.length ≤ MAX_PLAN_CACHE_SIZE := by
  unfold Planner.PrepareMQO
  split
  · exact hw
  · rename_i first_row rest hrows
    by_cases hfull : MAX_PLAN_CACHE_SIZE ≤ w.plan_cache_.length
    · simp only [hfull, if_true, StdMap.find]
      have := Planner.prepareNew_cache_length eng payload first_row
        { w.emit (Event.elog DEBUG1
            ("[Lumos] Plan cache full (" ++ toString w.plan_cache_.length ++ "), flushing...")
            :: Planner.freeAll w.plan_cache_) with plan_cache_ := [] }
      simp only [List.length_nil] at this
      exact le_trans this (by decide)
    · simp only [hfull, if_false]
      have hlt : w.plan_cache_.length + 1 ≤ MAX_PLAN_CACHE_SIZE := by omega
      split
      · split
        · exact hw
        · refine le_trans (Planner.prepareNew_cache_length eng payload first_row _) ?_
          have he := StdMap.length_erase_le payload.template_sql w.plan_cache_
          simp only [World.emit_plan_cache]
          omega
      · exact le_trans (Planner.prepareNew_cache_length eng payload first_row w) hlt

theorem Planner.PrepareMQO_full (eng : Engine) (payload : BatchPayload) (w : World)
    (first_row : ParamRow) (rest : List ParamRow)
    (hfull : MAX_PLAN_CACHE_SIZE ≤ w.plan_cache_.length)
    (hrows : payload.rows = first_row :: rest) :
    Planner.PrepareMQO eng payload w
      = Planner.prepareNew eng payload first_row (Planner.evicted w) := by
  unfold Planner.PrepareMQO
  rw [hrows]
  simp only [hfull, if_true, StdMap.find, Planner.evicted, World.emit, Planner.freeAll_eq]

theorem Planner.prepareNew_events (eng : Engine) (payload : BatchPayload)
    (first_row : ParamRow) (w1 : World) (plan : SPIPlanPtr)
    (hplan : eng.SPI_prepare w1.trace payload.template_sql
      (Planner.argTypes eng w1.trace payload first_row) = plan) :
    ∃ tail,
      (Planner.prepareNew eng payload first_row w1).world.trace =
        w1.trace ++ Event.SPI_prepare payload.template_sql
          (Planner.argTypes eng w1.trace payload first_row) plan :: tail ∧
      ∀ e ∈ tail, ∀ p, e ≠ Event.SPI_freeplan p := by
  simp only [Planner.prepareNew, hplan]
  split
  · exact ⟨[], rfl, by simp⟩
  · split
    · exact ⟨[Event.SPI_keepplan plan (eng.SPI_keepplan (w1.trace ++
        [Event.SPI_prepare payload.template_sql
          (Planner.argTypes eng w1.trace payload first_row) plan]) plan)],
        by simp [Outcome.world], by simp⟩
    · exact ⟨[Event.SPI_keepplan plan (eng.SPI_keepplan (w1.trace ++
        [Event.SPI_prepare payload.template_sql
          (Planner.argTypes eng w1.trace payload first_row) plan]) plan)],
        by simp [Outcome.world], by simp⟩

theorem Planner.prepareNew_kept (eng : Engine) (payload : BatchPayload)
    (first_row : ParamRow) (w1 : World) (plan : SPIPlanPtr)
    (hplan : eng.SPI_prepare w1.trace payload.template_sql
      (Planner.argTypes eng w1.trace payload first_row) = plan)
    (hp : plan ≠ 0)
    (hk : eng.SPI_keepplan (w1.trace ++ [Event.SPI_prepare payload.template_sql
      (Planner.argTypes eng w1.trace payload first_row) plan]) plan = 0) :
    (∃ w', Planner.prepareNew eng payload first_row w1 = Outcome.ret plan w') ∧
    (Planner.prepareNew eng payload first_row w1).world.plan_cache_ =
      StdMap.assign payload.template_sql plan
        (StdMap.index 0 payload.template_sql w1.plan_cache_) := by
  have hk' : eng.SPI_keepplan (w1.emit [Event.SPI_prepare payload.template_sql
      (Planner.argTypes eng w1.trace payload first_row) plan]).trace plan = 0 := hk
  simp only [Planner.prepareNew, hplan, hp, if_false, hk', if_true]
  exact ⟨⟨_, rfl⟩, rfl⟩

theorem Planner.prepareAll_cache_bound (eng : Engine) (payloads : List BatchPayload) :
    ∀ w : World, w.plan_cache_.length ≤ MAX_PLAN_CACHE_SIZE →
      (Planner.prepareAll eng payloads w).plan_cache_.length ≤ MAX_PLAN_CACHE_SIZE := by
  induction payloads with
  | nil => intro w hw; exact hw
  | cons payload rest ih =>
    intro w hw
    exact ih _ (Planner.PrepareMQO_cache_bound eng payload w hw)

/-- C8: when the plan cache holds the maximum number of entries (50),
`PrepareMQO` on a payload with at least one row first releases every handle
of the cache exactly once (one `SPI_freeplan` per entry with a non-`NULL`
handle, in map order) and clears the cache, and only then prepares: the
releases are followed by the `SPI_prepare` call and by no further release.
After a successful prepare and keep the cache holds exactly the one new
entry. The bound of 50 entries is preserved by every call of `PrepareMQO`,
so a cache that starts empty never holds more than 50 entries, whatever the
sequence of calls. -/
theorem C8_full_cache_is_evicted (eng : Engine) (payload : BatchPayload) (w : World)
    (first_row : ParamRow) (rest : List ParamRow) (plan : SPIPlanPtr)
    (hfull : w.plan_cache_.length = MAX_PLAN_CACHE_SIZE)
    (hrows : payload.rows = first_row :: rest)
    (hplan : eng.SPI_prepare (Planner.evicted w).trace payload.template_sql
      (Planner.argTypes eng (Planner.evicted w).trace payload first_row) = plan) :
    (∃ tail,
      newEvents w (Planner.PrepareMQO eng payload w) =
        (Event.elog DEBUG1
          ("[Lumos] Plan cache full (" ++ toString w.plan_cache_.length ++ "), flushing...")
          :: (w.plan_cache_.filter (fun e => decide (e.2 ≠ 0))).map
              (fun e => Event.SPI_freeplan e.2))
        ++ Event.SPI_prepare payload.template_sql
            (Planner.argTypes eng (Planner.evicted w).trace payload first_row) plan :: tail ∧
      ∀ e ∈ tail, ∀ p, e ≠ Event.SPI_freeplan p) ∧
    (plan ≠ 0 →
      eng.SPI_keepplan ((Planner.evicted w).trace ++
        [Event.SPI_prepare payload.template_sql
          (Planner.argTypes eng (Planner.evicted w).trace payload first_row) plan]) plan = 0 →
      (∃ w', Planner.PrepareMQO eng payload w = Outcome.ret plan w') ∧
      (Planner.PrepareMQO eng payload w).world.plan_cache_ = [(payload.template_sql, plan)]) ∧
    (∀ (payload' : BatchPayload) (w' : World),
      w'.plan_cache_.length ≤ MAX_PLAN_CACHE_SIZE →
      (Planner.PrepareMQO eng payload' w').world.plan_cache_.length ≤ MAX_PLAN_CACHE_SIZE) ∧
    (∀ (payloads : List BatchPayload) (w0 : World), w0.plan_cache_ = [] →
      (Planner.prepareAll eng payloads w0).plan_cache_.length ≤ MAX_PLAN_CACHE_SIZE) := by
  have hE := Planner.PrepareMQO_full eng payload w first_row rest (by omega) hrows
  rw [hE]
  refine ⟨?_, ?_, fun payload' w' hw' => Planner.PrepareMQO_cache_bound eng payload' w' hw',
    fun payloads w0 hw0 => Planner.prepareAll_cache_bound eng payloads w0 (by simp [hw0])⟩
  · obtain ⟨tail, ht, hfree⟩ :=
      Planner.prepareNew_events eng payload first_row (Planner.evicted w) plan hplan
    refine ⟨tail, ?_, hfree⟩
    apply newEvents_of_trace
    rw [ht]
    simp only [Planner.evicted, List.append_assoc]
  · intro hp hk
    obtain ⟨hret, hcache⟩ :=
      Planner.prepareNew_kept eng payload first_row (Planner.evicted w) plan hplan hp hk
    refine ⟨hret, ?_⟩
    rw [hcache]
    simp [Planner.evicted, StdMap.index, StdMap.find, StdMap.insert, StdMap.assign]

/-- C8 at the sample cache of 50 entries and a payload whose SQL is not
cached: after the call the cache holds the one new entry. -/
theorem C8_full_cache_is_evicted_witness :
    (∃ w', Planner.PrepareMQO sampleEngine samplePayload sampleFullWorld = Outcome.ret 5 w') ∧
    (Planner.PrepareMQO sampleEngine samplePayload sampleFullWorld).world.plan_cache_
      = [(samplePayload.template_sql, 5)] :=
  (C8_full_cache_is_evicted sampleEngine samplePayload sampleFullWorld (intRow [1])
    [intRow [13], intRow [2, 3], intRow [7]] 5 (by decide) rfl rfl).2.1 (by decide) rfl

/-! ## Shared scan -/

theorem Runtime.keyLoop_eq_any (eng : Engine) (typbyval : Bool) (typlen : Int) (val : Datum)
    (keys : List Datum) :
    Runtime.keyLoop eng typbyval typlen val keys
      = keys.any (Runtime.keyEqual eng typbyval typlen val) := by
  induction keys with
  | nil => rfl
  | cons key rest ih =>
    simp only [Runtime.keyLoop, List.any_cons, ih, Runtime.keyEqual]
    cases h : (if typbyval = true then decide (val = key)
      else eng.datumIsEqual val key typbyval typlen) <;> simp

theorem Runtime.scanLoop_eq (eng : Engine) (att_num : Int) (typbyval : Bool) (typlen : Int)
    (keys : List Datum) (table : List TupleSlot) :
    ∀ n : Nat, Runtime.scanLoop eng att_num typbyval typlen keys table n
      = n + (table.filter (Runtime.rowMatches eng att_num typbyval typlen keys)).length := by
  induction table with
  | nil => intro n; rfl
  | cons slot rest ih =>
    intro n
    cases hv : slot att_num with
    | none =>
      simp only [Runtime.scanLoop, hv, ih, List.filter_cons, Runtime.rowMatches]
      simp
    | some val =>
      simp only [Runtime.scanLoop, hv, ih, List.filter_cons, Runtime.rowMatches,
        Runtime.keyLoop_eq_any]
      cases keys.any (Runtime.keyEqual eng typbyval typlen val) <;> simp <;> omega

theorem Runtime.searchKeys_eq (eng : Engine) (hist : List Event) (type_id : Oid)
    (rows : List ParamRow) :
    ∀ keys, Runtime.searchKeys eng hist type_id rows = some keys →
      keys = rows.filterMap (Runtime.firstKey eng hist type_id) := by
  induction rows with
  | nil =>
    intro keys h
    simp [Runtime.searchKeys] at h
    simp [h]
  | cons row rest ih =>
    intro keys h
    cases hv : row.values with
    | nil =>
      simp only [Runtime.searchKeys, hv] at h
      simp [List.filterMap_cons, Runtime.firstKey, hv, ih keys h]
    | cons v vs =>
      simp only [Runtime.searchKeys, hv] at h
      cases hp : TypeMapper.ToPgParam eng hist v type_id with
      | none => simp [hp] at h
      | some p =>
        cases hr : Runtime.searchKeys eng hist type_id rest with
        | none => simp [hp, hr] at h
        | some ks =>
          simp only [hp, hr, Option.some.injEq] at h
          have := ih ks hr
          by_cases hn : p.null_flag ≠ 'n'
          · rw [if_pos hn] at h
            rw [← h, this]
            simp [List.filterMap_cons, Runtime.firstKey, hv, hp, hn]
          · rw [if_neg hn] at h
            rw [← h, this]
            simp only [List.filterMap_cons, Runtime.firstKey, hv, hp, List.head?_cons]
            rw [if_neg hn]

/-- C9: when the table and column hints resolve and the conversion of the
search keys does not raise, `ExecuteSharedScan` returns the number of scanned
tuples whose hinted column is non-null and equal (by value, or by
`datumIsEqual` for a by-reference type) to at least one search key, where the
search keys are the non-null first parameter values of the payload's rows, a
row without values giving no key. A tuple is counted at most once: the count
is the length of a sublist of the scanned tuples. For the column values
1, 2, 3, 4, 5 and the keys 2, 4, 9 the result is 2. -/
theorem C9_shared_scan_counts_matching_rows (eng : Engine) (payload : BatchPayload) (w : World)
    (table_oid type_id : Oid) (att_num typlen : Int) (typbyval : Bool)
    (keys : List Datum) (table : List TupleSlot)
    (htab : payload.scan_table ≠ "") (hcol : payload.scan_col ≠ "")
    (hreg : eng.regclassin w.trace payload.scan_table = some table_oid)
    (hatt : eng.get_attnum w.trace table_oid payload.scan_col = att_num)
    (hvalid : att_num ≠ InvalidAttrNumber)
    (htype : eng.get_atttype w.trace table_oid att_num = type_id)
    (hlen : eng.get_typlenbyval w.trace type_id = (typlen, typbyval))
    (hkeys : Runtime.searchKeys eng w.trace type_id payload.rows = some keys)
    (htable : eng.table_scan (w.trace ++ [Event.table_open table_oid, Event.table_beginscan,
      Event.table_slot_create]) table_oid = table) :
    keys = payload.rows.filterMap (Runtime.firstKey eng w.trace type_id) ∧
    (∃ w', Runtime.ExecuteSharedScan eng payload w =
      Outcome.ret (table.filter (Runtime.rowMatches eng att_num typbyval typlen keys)).length
        w') ∧
    (table.filter (Runtime.rowMatches eng att_num typbyval typlen keys)).length
      ≤ table.length ∧
    (∃ w', Runtime.ExecuteSharedScan sampleEngine sampleScan sampleWorld = Outcome.ret 2 w') := by
  refine ⟨Runtime.searchKeys_eq eng w.trace type_id payload.rows keys hkeys, ?_,
    List.length_filter_le _ _, ⟨_, rfl⟩⟩
  have hempty : ¬ (payload.scan_table.isEmpty = true ∨ payload.scan_col.isEmpty = true) := by
    rw [String.isEmpty_iff, String.isEmpty_iff]
    intro h
    rcases h with h | h
    · exact htab h
    · exact hcol h
  unfold Runtime.ExecuteSharedScan
  rw [if_neg hempty]
  simp only [hreg, hatt, if_neg hvalid, htype, hlen, hkeys, World.emit_trace, htable,
    Runtime.scanLoop_eq, Nat.zero_add]
  exact ⟨_, rfl⟩

/-- C9 at the sample table (column values 1 to 5) and the sample payload
(keys 2, 4, 9). -/
theorem C9_shared_scan_counts_matching_rows_witness :
    ∃ w', Runtime.ExecuteSharedScan sampleEngine sampleScan sampleWorld =
      Outcome.ret
        ((sampleEngine.table_scan [Event.table_open 16384, Event.table_beginscan,
            Event.table_slot_create] 16384).filter
          (Runtime.rowMatches sampleEngine 1 true 8 [2, 4, 9])).length w' :=
  (C9_shared_scan_counts_matching_rows sampleEngine sampleScan sampleWorld 16384 INT8OID 1 8
    true [2, 4, 9]
    (sampleEngine.table_scan [Event.table_open 16384, Event.table_beginscan,
      Event.table_slot_create] 16384)
    (by decide) (by decide) rfl rfl (by decide) rfl rfl rfl rfl).2.1

/-! ## The engine entry points on a malformed payload -/

/-- C10, counterexample: on the malformed byte string `[255]` the entry
point `mqo_debug` does not fail; it returns the text `Parse Error` as a normal
result. -/
theorem C10_malformed_payload_counterexample :
    sampleParse [255] = none ∧
    mqo_debug sampleParse [255] sampleWorld = Outcome.ret "Parse Error" sampleWorld :=
  ⟨by decide, rfl⟩

/-- C10 (amended): for every byte string that does not decode as a batch
payload, `Dispatch` and `mqo_dispatch` end with the engine error
`LumosKernel: Protobuf parsing failed.` and execute nothing (the error report
is their only engine call), while `DebugAnalyze` and `mqo_debug` do not raise:
they return the text `Parse Error` as a normal result, without any engine
call. -/
theorem C10_malformed_payload_is_rejected (eng : Engine)
    (ParseFromArray : List Nat → Option BatchPayload) (data : List Nat) (w : World)
    (hbad : ParseFromArray data = none) :
    LumosKernel.Dispatch eng ParseFromArray data w =
      Outcome.pgerror "LumosKernel: Protobuf parsing failed."
        (w.emit [Event.elog ERROR "LumosKernel: Protobuf parsing failed."]) ∧
    mqo_dispatch eng ParseFromArray data w =
      Outcome.pgerror "LumosKernel: Protobuf parsing failed."
        (w.emit [Event.elog ERROR "LumosKernel: Protobuf parsing failed."]) ∧
    newEvents w (mqo_dispatch eng ParseFromArray data w)
      = [Event.elog ERROR "LumosKernel: Protobuf parsing failed."] ∧
    LumosKernel.DebugAnalyze ParseFromArray data = "Parse Error" ∧
    mqo_debug ParseFromArray data w = Outcome.ret "Parse Error" w := by
  have hD : LumosKernel.Dispatch eng ParseFromArray data w =
      Outcome.pgerror "LumosKernel: Protobuf parsing failed."
        (w.emit [Event.elog ERROR "LumosKernel: Protobuf parsing failed."]) := by
    simp [LumosKernel.Dispatch, hbad, elog]
  have hM : mqo_dispatch eng ParseFromArray data w =
      Outcome.pgerror "LumosKernel: Protobuf parsing failed."
        (w.emit [Event.elog ERROR "LumosKernel: Protobuf parsing failed."]) := by
    simp only [mqo_dispatch, hD]
  have hA : LumosKernel.DebugAnalyze ParseFromArray data = "Parse Error" := by
    simp [LumosKernel.DebugAnalyze, hbad]
  refine ⟨hD, hM, ?_, hA, ?_⟩
  · rw [hM]
    simp [newEvents, Outcome.world]
  · simp only [mqo_debug, hA]

/-- C10 (amended) at the malformed byte string `[255]`. -/
theorem C10_malformed_payload_is_rejected_witness :
    mqo_dispatch sampleEngine sampleParse [255] sampleWorld =
      Outcome.pgerror "LumosKernel: Protobuf parsing failed."
        (sampleWorld.emit [Event.elog ERROR "LumosKernel: Protobuf parsing failed."]) ∧
    mqo_debug sampleParse [255] sampleWorld = Outcome.ret "Parse Error" sampleWorld :=
  ⟨(C10_malformed_payload_is_rejected sampleEngine sampleParse [255] sampleWorld
      (by decide)).2.1,
   (C10_malformed_payload_is_rejected sampleEngine sampleParse [255] sampleWorld
      (by decide)).2.2.2.2⟩

/-! ## An exception inside the row loop -/

/-- The row loop over `pre ++ rest` continues with `rest` from the state
reached after `pre`, as long as no exception left the loop during `pre`. -/
theorem Runtime.mqoLoop_append (eng : Engine) (plan : SPIPlanPtr) (arg_count : Nat)
    (arg_types : List Oid) (pre rest : List ParamRow) :
    ∀ st : Runtime.MQOLoop, st.threw = false →
      (Runtime.mqoLoop eng plan arg_count arg_types pre st).threw = false →
      Runtime.mqoLoop eng plan arg_count arg_types (pre ++ rest) st =
        Runtime.mqoLoop eng plan arg_count arg_types rest
          (Runtime.mqoLoop eng plan arg_count arg_types pre st) := by
  induction pre with
  | nil => intro st _ _; rfl
  | cons row t ih =>
    intro st hst hpre
    by_cases hlen : row.values.length = arg_count
    · cases hb : bindValues eng (st.trace ++ [Event.MemoryContextSwitchTo true]) arg_types
          row.values with
      | bound values nulls =>
        cases hx : eng.SPI_execute_plan (st.trace ++ [Event.MemoryContextSwitchTo true]) plan
            values nulls false with
        | none => simp [Runtime.mqoLoop, hlen, hb, hx] at hpre
        | some ret =>
          simp only [Runtime.mqoLoop, hlen, hb, hx, List.cons_append, ne_eq, not_true_eq_false,
            if_false] at hpre ⊢
          exact ih _ (by split <;> exact hst) hpre
      | raised => simp [Runtime.mqoLoop, hlen, hb] at hpre
      | out_of_range => simp [Runtime.mqoLoop, hlen, hb] at hpre
    · simp only [Runtime.mqoLoop, hlen, List.cons_append, ne_eq, not_false_eq_true,
        if_true] at hpre ⊢
      exact ih st hst hpre

theorem Runtime.mqoLoop_raise (eng : Engine) (plan : SPIPlanPtr) (arg_count : Nat)
    (arg_types : List Oid) (row : ParamRow) (post : List ParamRow) (st : Runtime.MQOLoop)
    (hlen : row.values.length = arg_count)
    (hraise : bindValues eng (st.trace ++ [Event.MemoryContextSwitchTo true]) arg_types
      row.values = BindResult.raised) :
    Runtime.mqoLoop eng plan arg_count arg_types (row :: post) st =
      Runtime.MQOLoop.mk st.success_count st.error_occurred true
        (st.trace ++ [Event.MemoryContextSwitchTo true]) := by
  simp [Runtime.mqoLoop, hlen, hraise]

/-- The new events of `ExecuteBatchMQO` when binding the row after `pre`
raises: the opening, the events of the rows of `pre`, the switch into the
scratch context, and the closing with a rollback. -/
theorem Runtime.ExecuteBatchMQO_raise (eng : Engine) (plan : SPIPlanPtr)
    (payload : BatchPayload) (w : World) (k : Nat) (arg_types : List Oid)
    (pre post : List ParamRow) (row : ParamRow)
    (hplan : plan ≠ 0)
    (hk : eng.SPI_getargcount w.trace plan = k)
    (hty : (List.range k).map (eng.SPI_getargtypeid w.trace plan) = arg_types)
    (hrows : payload.rows = pre ++ row :: post)
    (hpre : (Runtime.mqoLoop eng plan k arg_types pre (Runtime.mqoStart w)).threw = false)
    (hlen : row.values.length = k)
    (hraise : bindValues eng
      ((Runtime.mqoLoop eng plan k arg_types pre (Runtime.mqoStart w)).trace
        ++ [Event.MemoryContextSwitchTo true]) arg_types row.values = BindResult.raised) :
    ∃ levs,
      Runtime.LoopFacts eng plan k arg_types pre (Runtime.mqoStart w)
        (Runtime.mqoLoop eng plan k arg_types pre (Runtime.mqoStart w)) levs ∧
      (∃ w', Runtime.ExecuteBatchMQO eng plan payload w =
        Outcome.ret (Runtime.mqoLoop eng plan k arg_types pre (Runtime.mqoStart w)).success_count
          w') ∧
      newEvents w (Runtime.ExecuteBatchMQO eng plan payload w) =
        [Event.BeginInternalSubTransaction, Event.PushActiveSnapshot,
          if w.mqo_session_context_ then Event.MemoryContextReset
          else Event.AllocSetContextCreate] ++ levs
          ++ [Event.MemoryContextSwitchTo true, Event.PopActiveSnapshot]
          ++ Runtime.mqoFinish payload.dry_run true
              (Runtime.mqoLoop eng plan k arg_types pre (Runtime.mqoStart w)).success_count
          ++ [Event.malloc_trim] := by
  obtain ⟨levs, F⟩ := Runtime.mqoLoop_facts eng plan k arg_types pre (Runtime.mqoStart w) rfl
  have hrowsE : Runtime.mqoRows eng plan payload w =
      Runtime.MQOLoop.mk
        (Runtime.mqoLoop eng plan k arg_types pre (Runtime.mqoStart w)).success_count
        (Runtime.mqoLoop eng plan k arg_types pre (Runtime.mqoStart w)).error_occurred true
        ((Runtime.mqoLoop eng plan k arg_types pre (Runtime.mqoStart w)).trace
          ++ [Event.MemoryContextSwitchTo true]) := by
    simp only [Runtime.mqoRows, hk, hty, hrows]
    rw [Runtime.mqoLoop_append eng plan k arg_types pre (row :: post) _ rfl hpre]
    exact Runtime.mqoLoop_raise eng plan k arg_types row post _ hlen hraise
  have hcond : ¬ (plan = 0 ∨ payload.rows.length = 0) := by
    rw [hrows]
    simp [hplan]
  have hE : Runtime.ExecuteBatchMQO eng plan payload w =
      Outcome.ret (Runtime.mqoLoop eng plan k arg_types pre (Runtime.mqoStart w)).success_count
        { w with
          mqo_session_context_ := true,
          trace := (Runtime.mqoLoop eng plan k arg_types pre (Runtime.mqoStart w)).trace
            ++ [Event.MemoryContextSwitchTo true] ++ [Event.PopActiveSnapshot]
            ++ Runtime.mqoFinish payload.dry_run true
              (Runtime.mqoLoop eng plan k arg_types pre (Runtime.mqoStart w)).success_count
            ++ [Event.malloc_trim] } := by
    simp only [Runtime.ExecuteBatchMQO, hcond, if_false, hrowsE, Bool.or_true]
  refine ⟨levs, F, ⟨_, hE⟩, ?_⟩
  apply newEvents_of_trace
  rw [hE]
  simp only [Outcome.world, F.trace_eq, Runtime.mqoStart_trace, List.append_assoc,
    List.cons_append, List.nil_append]

/-- C11, counterexample: binding the second of three rows raises; the third
row, which is executed when the throwing row is absent, is not executed at
all: the only execution is that of the first row. -/
theorem C11_bind_exception_counterexample :
    bindValues raisingEngine [] [TEXTOID] [textValue "boom"] = BindResult.raised ∧
    (newEvents sampleWorld
        (Runtime.ExecuteBatchMQO raisingEngine 5 raisingPayload sampleWorld)).filter Event.isExec
      = [Event.SPI_execute_plan 5 [4097] [' '] false (some 1)] ∧
    (newEvents sampleWorld
        (Runtime.ExecuteBatchMQO raisingEngine 5 raisingPayloadWithout sampleWorld)).filter
          Event.isExec
      = [Event.SPI_execute_plan 5 [4097] [' '] false (some 1),
         Event.SPI_execute_plan 5 [4098] [' '] false (some 1)] :=
  ⟨by decide, by decide, by decide⟩

/-- C11 (amended): for a non-null plan with `k` arguments, when binding the
values of a row of matching arity raises (no exception having left the loop
before), `ExecuteBatchMQO` catches the exception and returns the number of
successful executions among the rows before the throwing row; the
sub-transaction is rolled back and not committed; and the row loop ends at the
throwing row: the rows before it are executed as usual, no later row is bound
or executed, so the calls made do not depend on the rows after it. -/
theorem C11_bind_exception_ends_the_loop (eng : Engine) (plan : SPIPlanPtr)
    (payload : BatchPayload) (w : World) (k : Nat) (arg_types : List Oid)
    (pre post : List ParamRow) (row : ParamRow)
    (hplan : plan ≠ 0)
    (hk : eng.SPI_getargcount w.trace plan = k)
    (hty : (List.range k).map (eng.SPI_getargtypeid w.trace plan) = arg_types)
    (hrows : payload.rows = pre ++ row :: post)
    (hpre : (Runtime.mqoLoop eng plan k arg_types pre (Runtime.mqoStart w)).threw = false)
    (hlen : row.values.length = k)
    (hraise : bindValues eng
      ((Runtime.mqoLoop eng plan k arg_types pre (Runtime.mqoStart w)).trace
        ++ [Event.MemoryContextSwitchTo true]) arg_types row.values = BindResult.raised) :
    (∃ w', Runtime.ExecuteBatchMQO eng plan payload w =
      Outcome.ret
        (((newEvents w (Runtime.ExecuteBatchMQO eng plan payload w)).filter Event.isExec).countP
          Event.execOk) w') ∧
    List.Forall₂ (Runtime.Attempts eng plan arg_types)
      (pre.filter (fun r => decide (r.values.length = k)))
      ((newEvents w (Runtime.ExecuteBatchMQO eng plan payload w)).filter Event.isExec) ∧
    Event.RollbackAndReleaseCurrentSubTransaction ∈
      newEvents w (Runtime.ExecuteBatchMQO eng plan payload w) ∧
    Event.ReleaseCurrentSubTransaction ∉
      newEvents w (Runtime.ExecuteBatchMQO eng plan payload w) ∧
    (∀ post' : List ParamRow,
      newEvents w
        (Runtime.ExecuteBatchMQO eng plan { payload with rows := pre ++ row :: post' } w)
      = newEvents w (Runtime.ExecuteBatchMQO eng plan payload w)) := by
  obtain ⟨levs, F, ⟨w', hret⟩, hev⟩ := Runtime.ExecuteBatchMQO_raise eng plan payload w k
    arg_types pre post row hplan hk hty hrows hpre hlen hraise
  have hexec : (newEvents w (Runtime.ExecuteBatchMQO eng plan payload w)).filter Event.isExec
      = levs.filter Event.isExec := by
    rw [hev]
    cases w.mqo_session_context_ <;> cases payload.dry_run <;>
      simp [List.filter_append, List.filter_cons, Event.isExec, Runtime.mqoFinish]
  have hcount : (Runtime.mqoLoop eng plan k arg_types pre (Runtime.mqoStart w)).success_count
      = (levs.filter Event.isExec).countP Event.execOk := by
    have := F.count
    rw [countP_filter_isExec _ Event.execOk_isExec]
    simpa [Runtime.mqoStart] using this
  refine ⟨⟨w', ?_⟩, ?_, ?_, ?_, ?_⟩
  · rw [hexec, ← hcount]
    exact hret
  · rw [hexec]
    exact F.attempts hpre
  · rw [hev]
    simp [Runtime.mqoFinish]
  · rw [hev]
    intro hmem
    have hin := F.in_txn
    cases hc : w.mqo_session_context_ <;> cases hd : payload.dry_run <;>
      simp [hc, hd, Runtime.mqoFinish] at hmem <;>
      exact absurd (hin _ hmem) (by simp [Event.inTxn])
  · intro post'
    obtain ⟨levs', F', _, hev'⟩ := Runtime.ExecuteBatchMQO_raise eng plan
      { payload with rows := pre ++ row :: post' } w k arg_types pre post' row hplan hk hty rfl
      hpre hlen hraise
    rw [hev, hev']
    have hl : levs' = levs := by
      have h1 := F.trace_eq
      have h2 := F'.trace_eq
      rw [h1] at h2
      exact (List.append_cancel_left h2).symm
    rw [hl]

/-- C11 (amended) at the sample payload whose second row raises. -/
theorem C11_bind_exception_ends_the_loop_witness :
    Event.RollbackAndReleaseCurrentSubTransaction ∈
      newEvents sampleWorld
        (Runtime.ExecuteBatchMQO raisingEngine 5 raisingPayload sampleWorld) ∧
    Event.ReleaseCurrentSubTransaction ∉
      newEvents sampleWorld
        (Runtime.ExecuteBatchMQO raisingEngine 5 raisingPayload sampleWorld) :=
  ⟨(C11_bind_exception_ends_the_loop raisingEngine 5 raisingPayload sampleWorld 1 [TEXTOID]
      [⟨[textValue "a"]⟩] [⟨[textValue "bc"]⟩] ⟨[textValue "boom"]⟩
      (by decide) rfl rfl rfl (by decide) rfl (by decide)).2.2.1,
   (C11_bind_exception_ends_the_loop raisingEngine 5 raisingPayload sampleWorld 1 [TEXTOID]
      [⟨[textValue "a"]⟩] [⟨[textValue "bc"]⟩] ⟨[textValue "boom"]⟩
      (by decide) rfl rfl rfl (by decide) rfl (by decide)).2.2.2.1⟩

/-! ## The fingerprinter -/

theorem substr_ok (s : String) (pos len : Int) (h0 : 0 ≤ pos) (h1 : pos ≤ (s.length : Int))
    (h2 : 0 ≤ len) :
    substr s pos len = Except.ok (String.mk ((s.data.drop pos.toNat).take len.toNat)) := by
  unfold substr
  have hc : ¬ (pos < 0 ∨ (s.length : Int) < pos) := by omega
  have hl : ¬ len < 0 := by omega
  simp only [hc, if_false, hl]

theorem SQLParser.extractParam_literal (pq : PgQuery) (sql : String) (prev : Option ScanToken)
    (tok : ScanToken) (hwf : TokenInText sql tok) (hlit : isLiteral pq tok = true) :
    ∃ p, SQLParser.extractParam pq sql prev tok = Except.ok (some p) ∧
      LiteralParam pq sql (prev, tok) p := by
  obtain ⟨h0, h1, h2⟩ := hwf
  have hsub := substr_ok sql tok.start (tok.«end» - tok.start) h0 (by omega) (by omega)
  simp only [isLiteral, decide_eq_true_eq] at hlit
  unfold SQLParser.extractParam
  simp only
  by_cases hnum : tok.token = pq.ICONST ∨ tok.token = pq.FCONST
  · rw [if_pos hnum, hsub]
    refine ⟨_, rfl, ?_⟩
    intro _
    refine ⟨?_, rfl⟩
    simp only [minusBefore, sourceText]
  · rw [if_neg hnum]
    have hL : ∀ p : QueryParam, LiteralParam pq sql (prev, tok) p := by
      intro p h
      exact absurd h hnum
    by_cases hs : tok.token = pq.SCONST
    · rw [if_pos hs]
      by_cases h2le : 2 ≤ tok.«end» - tok.start
      · rw [if_pos h2le, substr_ok sql (tok.start + 1) (tok.«end» - tok.start - 2)
          (by omega) (by omega) (by omega)]
        exact ⟨_, rfl, hL _⟩
      · rw [if_neg h2le]
        exact ⟨_, rfl, hL _⟩
    · rw [if_neg hs]
      by_cases hb : tok.token = pq.BCONST ∨ tok.token = pq.XCONST
      · rw [if_pos hb, hsub]
        exact ⟨_, rfl, hL _⟩
      · rw [if_neg hb]
        by_cases ht : tok.token = pq.TRUE_P
        · rw [if_pos ht]
          exact ⟨_, rfl, hL _⟩
        · rw [if_neg ht]
          by_cases hf : tok.token = pq.FALSE_P
          · rw [if_pos hf]
            exact ⟨_, rfl, hL _⟩
          · rw [if_neg hf]
            by_cases hn : tok.token = pq.NULL_P
            · rw [if_pos hn]
              exact ⟨_, rfl, hL _⟩
            · exfalso
              rcases hlit with h | h | h | h | h | h | h | h
              · exact hnum (Or.inl h)
              · exact hnum (Or.inr h)
              · exact hs h
              · exact hb (Or.inl h)
              · exact hb (Or.inr h)
              · exact ht h
              · exact hf h
              · exact hn h

theorem SQLParser.extractParam_other (pq : PgQuery) (sql : String) (prev : Option ScanToken)
    (tok : ScanToken) (hlit : isLiteral pq tok = false) :
    SQLParser.extractParam pq sql prev tok = Except.ok none := by
  simp only [isLiteral, decide_eq_false_iff_not, not_or] at hlit
  obtain ⟨h1, h2, h3, h4, h5, h6, h7, h8⟩ := hlit
  unfold SQLParser.extractParam
  simp only [h1, h2, h3, h4, h5, h6, h7, h8, or_self, if_false]

theorem SQLParser.scanTokens_spec (pq : PgQuery) (sql : String) (tokens : List ScanToken) :
    ∀ (prev : Option ScanToken) (acc : List QueryParam),
      (∀ t ∈ tokens, TokenInText sql t) →
      ∃ ps, SQLParser.scanTokens pq sql prev tokens acc = Except.ok (acc ++ ps) ∧
        List.Forall₂ (LiteralParam pq sql)
          ((withPrev prev tokens).filter (fun e => isLiteral pq e.2)) ps := by
  induction tokens with
  | nil =>
    intro prev acc _
    exact ⟨[], by simp [SQLParser.scanTokens], by simp [withPrev]⟩
  | cons tok rest ih =>
    intro prev acc hwf
    have hrest : ∀ t ∈ rest, TokenInText sql t := fun t ht => hwf t (List.mem_cons_of_mem _ ht)
    cases hlit : isLiteral pq tok with
    | true =>
      obtain ⟨p, hp, hL⟩ := SQLParser.extractParam_literal pq sql prev tok
        (hwf tok (List.mem_cons_self _ _)) hlit
      obtain ⟨ps, hps, hF⟩ := ih (some tok) (acc ++ [p]) hrest
      refine ⟨p :: ps, ?_, ?_⟩
      · simp only [SQLParser.scanTokens, hp, hps, List.append_assoc, List.singleton_append]
      · simp only [withPrev, List.filter_cons, hlit, if_true]
        exact List.Forall₂.cons hL hF
    | false =>
      have hp := SQLParser.extractParam_other pq sql prev tok hlit
      obtain ⟨ps, hps, hF⟩ := ih (some tok) acc hrest
      refine ⟨ps, ?_, ?_⟩
      · simp only [SQLParser.scanTokens, hp, hps]
      · simp only [withPrev, List.filter_cons, hlit, Bool.false_eq_true, if_false]
        exact hF

theorem withPrev_map_snd (tokens : List ScanToken) :
    ∀ prev : Option ScanToken, (withPrev prev tokens).map Prod.snd = tokens := by
  induction tokens with
  | nil => intro prev; rfl
  | cons tok rest ih => intro prev; simp [withPrev, ih]

theorem withPrev_filter_length (pq : PgQuery) (tokens : List ScanToken)
    (prev : Option ScanToken) :
    ((withPrev prev tokens).filter (fun e => isLiteral pq e.2)).length
      = (tokens.filter (isLiteral pq)).length := by
  have h := withPrev_map_snd tokens prev
  have hf : ((withPrev prev tokens).filter (fun e => isLiteral pq e.2)).map Prod.snd
      = tokens.filter (isLiteral pq) := by
    conv_rhs => rw [← h]
    rw [List.filter_map]
    rfl
  rw [← hf, List.length_map]

/-- C12: when the fingerprint and the scan of `sql` succeed and every token
lies inside the text, `Analyze` returns a query whose `params` hold exactly
one parameter per literal token (integer, float, string, bit or hex string,
`TRUE`, `FALSE`, `NULL`), in token order, and none for any other token; the
value of an integer or float literal is its source text, with a leading `-`
exactly when the token immediately before it is a minus token (code 45) whose
end offset is the literal's start offset. -/
theorem C12_analyze_extracts_literals (pq : PgQuery) (req_id : Int) (sql : String)
    (fp : Nat) (tokens : List ScanToken)
    (hfp : pq.pg_query_fingerprint sql = some fp)
    (hscan : pq.pg_query_scan sql = some tokens)
    (hwf : ∀ t ∈ tokens, TokenInText sql t) :
    ∃ params,
      SQLParser.Analyze pq req_id sql = Except.ok (some ⟨req_id, sql, "", fp, params⟩) ∧
      params.length = (tokens.filter (isLiteral pq)).length ∧
      List.Forall₂ (LiteralParam pq sql)
        ((withPrev none tokens).filter (fun e => isLiteral pq e.2)) params := by
  obtain ⟨ps, hps, hF⟩ := SQLParser.scanTokens_spec pq sql tokens none [] hwf
  refine ⟨ps, ?_, ?_, hF⟩
  · simp only [SQLParser.Analyze, hfp, hscan, hps, List.nil_append]
  · rw [← hF.length_eq, withPrev_filter_length]

/-- C12 at the text `SELECT -5`: the minus token and the integer literal next
to it give the single parameter `-5`. -/
theorem C12_analyze_extracts_literals_witness :
    ∃ params,
      SQLParser.Analyze samplePgMinus 0 "SELECT -5"
        = Except.ok (some ⟨0, "SELECT -5", "", 7, params⟩) ∧
      params.length
        = (([⟨0, 6, 600⟩, ⟨7, 8, 45⟩, ⟨8, 9, 266⟩] : List ScanToken).filter
            (isLiteral samplePgMinus)).length ∧
      List.Forall₂ (LiteralParam samplePgMinus "SELECT -5")
        ((withPrev none [⟨0, 6, 600⟩, ⟨7, 8, 45⟩, ⟨8, 9, 266⟩]).filter
          (fun e => isLiteral samplePgMinus e.2)) params :=
  C12_analyze_extracts_literals samplePgMinus 0 "SELECT -5" 7
    [⟨0, 6, 600⟩, ⟨7, 8, 45⟩, ⟨8, 9, 266⟩] rfl rfl (by
      intro t ht
      simp only [List.mem_cons, List.mem_singleton, List.not_mem_nil, or_false] at ht
      rcases ht with rfl | rfl | rfl <;> exact ⟨by decide, by decide, by decide⟩)

/-! ## The fingerprint invariant of the aggregator -/

theorem StdMap.find_mem {κ β : Type} [DecidableEq κ] (k : κ) (v : β) (m : List (κ × β))
    (h : StdMap.find k m = some v) : (k, v) ∈ m := by
  induction m with
  | nil => simp [StdMap.find] at h
  | cons e t ih =>
    obtain ⟨k', v'⟩ := e
    by_cases hk : k' = k
    · simp only [StdMap.find, hk, if_true, Option.some.injEq] at h
      simp [hk, h]
    · simp only [StdMap.find, hk, if_false] at h
      exact List.mem_cons_of_mem _ (ih h)

theorem StdMap.mem_assign {κ β : Type} [DecidableEq κ] (k : κ) (v : β) (m : List (κ × β))
    (e : κ × β) (h : e ∈ StdMap.assign k v m) : e ∈ m ∨ e = (k, v) := by
  induction m with
  | nil => simp [StdMap.assign] at h
  | cons x t ih =>
    obtain ⟨k', v'⟩ := x
    by_cases hk : k' = k
    · simp only [StdMap.assign, hk, if_true, List.mem_cons] at h
      rcases h with h | h
      · exact Or.inr h
      · exact Or.inl (List.mem_cons_of_mem _ h)
    · simp only [StdMap.assign, hk, if_false, List.mem_cons] at h
      rcases h with h | h
      · exact Or.inl (by simp [h])
      · rcases ih h with h' | h'
        · exact Or.inl (List.mem_cons_of_mem _ h')
        · exact Or.inr h'

theorem StdMap.mem_assign_insert {κ β : Type} [DecidableEq κ] [LT κ]
    [DecidableRel (fun (a b : κ) => a < b)] (k : κ) (v d : β) (m : List (κ × β))
    (e : κ × β) (h : e ∈ StdMap.assign k v (StdMap.insert k d m)) : e ∈ m ∨ e = (k, v) := by
  induction m with
  | nil =>
    simp only [StdMap.insert, StdMap.assign, if_true, List.mem_singleton] at h
    exact Or.inr h
  | cons x t ih =>
    obtain ⟨k', v'⟩ := x
    unfold StdMap.insert at h
    by_cases h1 : k < k'
    · simp only [h1, if_true, StdMap.assign, List.mem_cons] at h
      rcases h with h | h | h
      · exact Or.inr h
      · exact Or.inl (by simp [h])
      · exact Or.inl (List.mem_cons_of_mem _ h)
    · by_cases h2 : k' = k
      · subst h2
        simp only [h1, if_false, if_true, StdMap.assign, List.mem_cons] at h
        rcases h with h | h
        · exact Or.inr h
        · exact Or.inl (List.mem_cons_of_mem _ h)
      · simp only [h1, if_false, h2, StdMap.assign, List.mem_cons] at h
        rcases h with h | h
        · exact Or.inl (by simp [h])
        · rcases ih h with h' | h'
          · exact Or.inl (List.mem_cons_of_mem _ h')
          · exact Or.inr h'

theorem StdMap.mem_assign_index {κ β : Type} [DecidableEq κ] [LT κ]
    [DecidableRel (fun (a b : κ) => a < b)] (k : κ) (v d : β) (m : List (κ × β))
    (e : κ × β) (h : e ∈ StdMap.assign k v (StdMap.index d k m)) : e ∈ m ∨ e = (k, v) := by
  unfold StdMap.index at h
  cases hf : StdMap.find k m with
  | none =>
    rw [hf] at h
    exact StdMap.mem_assign_insert k v d m e h
  | some b =>
    rw [hf] at h
    exact StdMap.mem_assign k v m e h

theorem StdMap.mem_erase {κ β : Type} [DecidableEq κ] (k : κ) (m : List (κ × β))
    (e : κ × β) (h : e ∈ StdMap.erase k m) : e ∈ m :=
  (List.mem_filter.mp h).1

theorem BatchScheduler.SubmitParsed_eq (parsed : ParsedQuery) (s : BatchScheduler) :
    BatchScheduler.SubmitParsed parsed s =
      if s.max_batch_size_ ≤ (BatchScheduler.appended parsed
          ((StdMap.find parsed.fp_hash
            (StdMap.index QueryBatch.empty parsed.fp_hash s.pending_batches_)).getD
              QueryBatch.empty)).queries.length then
        { s with
          sent := BatchScheduler.FlushBatch (BatchScheduler.appended parsed
            ((StdMap.find parsed.fp_hash
              (StdMap.index QueryBatch.empty parsed.fp_hash s.pending_batches_)).getD
                QueryBatch.empty)) false s.sent,
          pending_batches_ := StdMap.erase parsed.fp_hash
            (StdMap.assign parsed.fp_hash (BatchScheduler.appended parsed
              ((StdMap.find parsed.fp_hash
                (StdMap.index QueryBatch.empty parsed.fp_hash s.pending_batches_)).getD
                  QueryBatch.empty))
              (StdMap.index QueryBatch.empty parsed.fp_hash s.pending_batches_)) }
      else
        { s with
          pending_batches_ :=
            StdMap.assign parsed.fp_hash (BatchScheduler.appended parsed
              ((StdMap.find parsed.fp_hash
                (StdMap.index QueryBatch.empty parsed.fp_hash s.pending_batches_)).getD
                  QueryBatch.empty))
              (StdMap.index QueryBatch.empty parsed.fp_hash s.pending_batches_) } := rfl

theorem BatchScheduler.appended_ok (parsed : ParsedQuery) (b0 : QueryBatch)
    (hfp0 : b0.queries = [] ∨ b0.fp_hash = parsed.fp_hash)
    (hq0 : ∀ q ∈ b0.queries, q.fp_hash = parsed.fp_hash) :
    (BatchScheduler.appended parsed b0).fp_hash = parsed.fp_hash ∧
    (∀ q ∈ (BatchScheduler.appended parsed b0).queries, q.fp_hash = parsed.fp_hash) ∧
    (BatchScheduler.appended parsed b0).queries ≠ [] := by
  unfold BatchScheduler.appended
  cases hq : b0.queries with
  | nil => simp
  | cons a t =>
    have hfp : b0.fp_hash = parsed.fp_hash := by
      rcases hfp0 with h | h
      · rw [hq] at h; cases h
      · exact h
    rw [hq] at hq0
    simp only [List.isEmpty_cons, Bool.false_eq_true, if_false, hq, hfp, true_and]
    refine ⟨?_, by simp⟩
    intro q hqm
    rcases List.mem_append.mp hqm with h | h
    · exact hq0 q h
    · simp only [List.mem_singleton] at h
      rw [h]

theorem BatchScheduler.FlushBatch_nonempty (b : QueryBatch) (sent : List KernelCall)
    (hb : b.queries ≠ []) :
    BatchScheduler.FlushBatch b false sent = sent ++ [⟨b, true⟩] := by
  cases hbq : b.queries with
  | nil => exact absurd hbq hb
  | cons a t => simp [BatchScheduler.FlushBatch, hbq]

theorem BatchScheduler.SubmitParsed_sameFingerprint (parsed : ParsedQuery)
    (s : BatchScheduler) (hs : BatchScheduler.SameFingerprint s) :
    BatchScheduler.SameFingerprint (BatchScheduler.SubmitParsed parsed s) := by
  obtain ⟨hp, hsent⟩ := hs
  have hb0 : ((StdMap.find parsed.fp_hash
      (StdMap.index QueryBatch.empty parsed.fp_hash s.pending_batches_)).getD
        QueryBatch.empty).queries = [] ∨
      ((StdMap.find parsed.fp_hash
      (StdMap.index QueryBatch.empty parsed.fp_hash s.pending_batches_)).getD
        QueryBatch.empty).fp_hash = parsed.fp_hash := by
    rw [StdMap.find_index]
    cases hf : StdMap.find parsed.fp_hash s.pending_batches_ with
    | none => exact Or.inl rfl
    | some b => exact Or.inr (hp _ (StdMap.find_mem _ _ _ hf)).1
  have hq0 : ∀ q ∈ ((StdMap.find parsed.fp_hash
      (StdMap.index QueryBatch.empty parsed.fp_hash s.pending_batches_)).getD
        QueryBatch.empty).queries, q.fp_hash = parsed.fp_hash := by
    rw [StdMap.find_index]
    cases hf : StdMap.find parsed.fp_hash s.pending_batches_ with
    | none => intro q hq; simp [QueryBatch.empty] at hq
    | some b => exact (hp _ (StdMap.find_mem _ _ _ hf)).2
  rw [BatchScheduler.SubmitParsed_eq]
  obtain ⟨hfpn, hqn, hne⟩ := BatchScheduler.appended_ok parsed _ hb0 hq0
  generalize BatchScheduler.appended parsed ((StdMap.find parsed.fp_hash
      (StdMap.index QueryBatch.empty parsed.fp_hash s.pending_batches_)).getD
        QueryBatch.empty) = batch at hfpn hqn hne ⊢
  have hmem : ∀ e ∈ StdMap.assign parsed.fp_hash batch
      (StdMap.index QueryBatch.empty parsed.fp_hash s.pending_batches_),
      e.2.fp_hash = e.1 ∧ ∀ q ∈ e.2.queries, q.fp_hash = e.1 := by
    intro e he
    rcases StdMap.mem_assign_index _ _ _ _ e he with h | h
    · exact hp e h
    · rw [h]
      exact ⟨hfpn, hqn⟩
  split
  · refine ⟨fun e he => hmem e (StdMap.mem_erase _ _ e he), ?_⟩
    intro c hc
    simp only [BatchScheduler.FlushBatch_nonempty batch s.sent hne] at hc
    rcases List.mem_append.mp hc with h | h
    · exact hsent c h
    · simp only [List.mem_singleton] at h
      rw [h]
      intro q hq
      rw [hfpn]
      exact hqn q hq
  · exact ⟨hmem, hsent⟩

theorem BatchScheduler.RunLoop_sameFingerprint (s : BatchScheduler)
    (hs : BatchScheduler.SameFingerprint s) :
    BatchScheduler.SameFingerprint (BatchScheduler.RunLoop s) := by
  obtain ⟨hp, hsent⟩ := hs
  have h := BatchScheduler.sweep_eq s.pending_batches_ s.sent
  simp only [BatchScheduler.RunLoop, h]
  refine ⟨by simp, ?_⟩
  intro c hc
  rcases List.mem_append.mp hc with hc | hc
  · exact hsent c hc
  · simp only [List.mem_map, List.mem_filter] at hc
    obtain ⟨e, ⟨he, _⟩, rfl⟩ := hc
    intro q hq
    have := hp e he
    rw [this.1]
    exact this.2 q hq

/-- C13: in every state reachable from a scheduler with an empty pending map
(and nothing sent yet) by any sequence of `Submit` calls and periodic sweeps,
every batch stored under a key `h` has `fp_hash = h` and every query in it has
`fp_hash = h`; and every batch handed to a flush holds only queries that
share the batch's `fp_hash`. -/
theorem C13_batches_share_fingerprint (pq : PgQuery) (s0 s : BatchScheduler)
    (hpending : s0.pending_batches_ = []) (hsent : s0.sent = [])
    (hreach : BatchScheduler.Reachable pq s0 s) :
    (∀ h b, (h, b) ∈ s.pending_batches_ → b.fp_hash = h ∧ ∀ q ∈ b.queries, q.fp_hash = h) ∧
    (∀ c ∈ s.sent, ∀ q ∈ c.batch.queries, q.fp_hash = c.batch.fp_hash) := by
  have hinv : BatchScheduler.SameFingerprint s := by
    induction hreach with
    | init => exact ⟨by simp [hpending], by simp [hsent]⟩
    | submit s1 s2 req_id sql _ hsub ih =>
      unfold BatchScheduler.Submit at hsub
      cases ha : SQLParser.Analyze pq req_id sql with
      | error e => rw [ha] at hsub; cases hsub
      | ok r =>
        rw [ha] at hsub
        cases r with
        | none =>
          simp only [Except.ok.injEq] at hsub
          rw [← hsub]
          exact ih
        | some parsed =>
          simp only [Except.ok.injEq] at hsub
          rw [← hsub]
          exact BatchScheduler.SubmitParsed_sameFingerprint parsed s1 ih
    | sweep s1 _ ih => exact BatchScheduler.RunLoop_sameFingerprint s1 ih
  exact ⟨fun h b hb => hinv.1 (h, b) hb, hinv.2⟩

/-- C13 at the state reached from the sample scheduler by one `Submit`. -/
theorem C13_batches_share_fingerprint_witness :
    (∀ h b, (h, b) ∈ (BatchScheduler.SubmitParsed sampleQuery1 sampleScheduler).pending_batches_ →
      b.fp_hash = h ∧ ∀ q ∈ b.queries, q.fp_hash = h) ∧
    (∀ c ∈ (BatchScheduler.SubmitParsed sampleQuery1 sampleScheduler).sent,
      ∀ q ∈ c.batch.queries, q.fp_hash = c.batch.fp_hash) :=
  C13_batches_share_fingerprint samplePg sampleScheduler
    (BatchScheduler.SubmitParsed sampleQuery1 sampleScheduler) rfl rfl
    (BatchScheduler.Reachable.submit sampleScheduler _ 0 "SELECT 1"
      BatchScheduler.Reachable.init rfl)

/-! ## The payload encoder -/

theorem forall₂_map_right_of {α β : Type} (R : α → β → Prop) (f : α → β) (l : List α)
    (h : ∀ a ∈ l, R a (f a)) : List.Forall₂ R l (l.map f) := by
  induction l with
  | nil => exact List.Forall₂.nil
  | cons a t ih =>
    exact List.Forall₂.cons (h a (List.mem_cons_self _ _))
      (ih (fun x hx => h x (List.mem_cons_of_mem _ hx)))

theorem BatchScheduler.encodeValue_spec (libs : ProxyLibs) (p : QueryParam) :
    EncodesAs libs p (BatchScheduler.encodeValue libs p) := by
  obtain ⟨ty, value⟩ := p
  cases ty
  · simp only [EncodesAs, BatchScheduler.encodeValue, true_implies, reduceCtorEq,
      false_implies, or_self, and_true]
    cases libs.stoll value <;> rfl
  · simp [EncodesAs, BatchScheduler.encodeValue]
  · simp [EncodesAs, BatchScheduler.encodeValue]
  · simp only [EncodesAs, BatchScheduler.encodeValue, true_implies, reduceCtorEq,
      false_implies, or_self, and_true, true_and, Value.mk.injEq, TypedValue.kBoolVal.injEq]
    by_cases h1 : value = "true"
    · simp [h1]
    · by_cases h2 : value = "t"
      · simp [h2]
      · simp [h1, h2]
  · simp [EncodesAs, BatchScheduler.encodeValue]
  · simp [EncodesAs, BatchScheduler.encodeValue]

theorem BatchScheduler.GetPGTypeName_spec (p : QueryParam) :
    TypeNameOf p (BatchScheduler.GetPGTypeName p.type) := by
  obtain ⟨ty, value⟩ := p
  cases ty <;> simp [TypeNameOf, BatchScheduler.GetPGTypeName]

/-- C14: for a non-empty batch, the message that `GenerateKernelPayload`
builds and serializes has exactly one row per query of the batch, in batch
order; the row of a query has exactly one value per parameter of the query,
in parameter order, encoded by the parameter's type (`INTEGER` as the parsed
integer or 0, `BOOL` as true exactly for `true` and `t`, `NULL` as a null
value, `STRING` and `UNKNOWN` as the text); and `param_types` lists one engine
type name per parameter of the first query (`int8`, `float8`, `bool`, and
`text` for every other type). -/
theorem C14_payload_rows_and_types (libs : ProxyLibs) (dry_run_mode_ : Bool)
    (batch : QueryBatch) (first_query : ParsedQuery) (rest : List ParsedQuery)
    (use_debug_func : Bool)
    (hne : batch.queries = first_query :: rest) :
    BatchScheduler.GenerateKernelPayload libs dry_run_mode_ batch use_debug_func =
      (match libs.SerializeToString
          (BatchScheduler.protoPayload libs dry_run_mode_ batch first_query) with
        | none => some ""
        | some binary_data =>
          if use_debug_func then
            some ("SELECT mqo_debug(decode('" ++ BatchScheduler.ToHex binary_data ++ "', 'hex'));")
          else
            some ("SELECT mqo_dispatch(decode('" ++ BatchScheduler.ToHex binary_data
              ++ "', 'hex'));")) ∧
    (BatchScheduler.protoPayload libs dry_run_mode_ batch first_query).rows.length
      = batch.queries.length ∧
    List.Forall₂ (fun query row => List.Forall₂ (EncodesAs libs) query.params row.values)
      batch.queries (BatchScheduler.protoPayload libs dry_run_mode_ batch first_query).rows ∧
    List.Forall₂ TypeNameOf first_query.params
      (BatchScheduler.protoPayload libs dry_run_mode_ batch first_query).param_types := by
  refine ⟨?_, ?_, ?_, ?_⟩
  · simp only [BatchScheduler.GenerateKernelPayload, hne]
  · simp [BatchScheduler.protoPayload]
  · simp only [BatchScheduler.protoPayload]
    apply forall₂_map_right_of
    intro query _
    apply forall₂_map_right_of
    intro p _
    exact BatchScheduler.encodeValue_spec libs p
  · simp only [BatchScheduler.protoPayload]
    apply forall₂_map_right_of
    intro p _
    exact BatchScheduler.GetPGTypeName_spec p

/-- C14 at the batch of the two sample queries. -/
theorem C14_payload_rows_and_types_witness :
    List.Forall₂ (fun query row => List.Forall₂ (EncodesAs sampleLibs) query.params row.values)
      sampleBatch.queries
      (BatchScheduler.protoPayload sampleLibs true sampleBatch sampleQuery1).rows ∧
    List.Forall₂ TypeNameOf sampleQuery1.params
      (BatchScheduler.protoPayload sampleLibs true sampleBatch sampleQuery1).param_types :=
  (C14_payload_rows_and_types sampleLibs true sampleBatch sampleQuery1 [sampleQuery2] true
    rfl).2.2

/-! ## Hexadecimal encoding -/

theorem BatchScheduler.hex_digit_mem :
    ∀ n, n < 16 → BatchScheduler.hex_digits.getD n '0' ∈ BatchScheduler.hex_digits := by
  decide

theorem BatchScheduler.hex_digit_value :
    ∀ n, n < 16 → hexValue (BatchScheduler.hex_digits.getD n '0') = some n := by
  decide

theorem BatchScheduler.ToHexChars_cons (c : Nat) (rest : List Nat) (hc : c < 256) :
    BatchScheduler.ToHexChars (c :: rest) =
      BatchScheduler.hex_digits.getD (c / 16) '0' ::
        BatchScheduler.hex_digits.getD (c % 16) '0' :: BatchScheduler.ToHexChars rest := by
  have h1 : c % 256 = c := Nat.mod_eq_of_lt hc
  have h2 : c >>> 4 = c / 16 := by rw [Nat.shiftRight_eq_div_pow]
  have h3 : c &&& 0x0F = c % 16 := by
    have := Nat.and_pow_two_sub_one_eq_mod c 4
    simpa using this
  simp only [BatchScheduler.ToHexChars, h1, h2, h3]

/-- C16: for every byte string `s` (a list of numbers below 256), `ToHex s`
has length `2 * |s|`, consists only of the characters `0`-`9` and `A`-`F`,
encodes each byte as two digits, the high nibble first, and standard
hexadecimal decoding of `ToHex s` gives back exactly `s`. -/
theorem C16_to_hex_round_trip (s : List Nat) (hbytes : ∀ b ∈ s, b < 256) :
    (BatchScheduler.ToHex s).length = 2 * s.length ∧
    (∀ ch ∈ (BatchScheduler.ToHex s).data, ch ∈ "0123456789ABCDEF".data) ∧
    (BatchScheduler.ToHex s).data =
      s.flatMap (fun b => ["0123456789ABCDEF".data.getD (b / 16) '0',
        "0123456789ABCDEF".data.getD (b % 16) '0']) ∧
    hexDecode (BatchScheduler.ToHex s).data = some s := by
  induction s with
  | nil => exact ⟨rfl, by simp [BatchScheduler.ToHex, BatchScheduler.ToHexChars], rfl, rfl⟩
  | cons c rest ih =>
    have hc : c < 256 := hbytes c (List.mem_cons_self _ _)
    obtain ⟨ih1, ih2, ih3, ih4⟩ := ih (fun b hb => hbytes b (List.mem_cons_of_mem _ hb))
    have hhi : c / 16 < 16 := by omega
    have hlo : c % 16 < 16 := by omega
    have hcons := BatchScheduler.ToHexChars_cons c rest hc
    simp only [BatchScheduler.ToHex, String.length] at ih1 ih2 ih3 ih4 ⊢
    rw [hcons]
    refine ⟨?_, ?_, ?_, ?_⟩
    · simp only [List.length_cons, ih1]
      omega
    · intro ch hch
      simp only [List.mem_cons] at hch
      rcases hch with h | h | h
      · rw [h]; exact BatchScheduler.hex_digit_mem _ hhi
      · rw [h]; exact BatchScheduler.hex_digit_mem _ hlo
      · exact ih2 ch h
    · simp only [List.flatMap_cons, List.cons_append, List.nil_append, ih3]
      rfl
    · simp only [hexDecode, BatchScheduler.hex_digit_value _ hhi,
        BatchScheduler.hex_digit_value _ hlo, ih4]
      congr 2
      omega

/-- C16 at the two bytes `0A FF`. -/
theorem C16_to_hex_round_trip_witness :
    (BatchScheduler.ToHex [10, 255]).length = 2 * [10, 255].length ∧
    hexDecode (BatchScheduler.ToHex [10, 255]).data = some [10, 255] :=
  ⟨(C16_to_hex_round_trip [10, 255] (by decide)).1,
   (C16_to_hex_round_trip [10, 255] (by decide)).2.2.2⟩

/-! ## Which entry point a flush calls -/

/-- C15, counterexample: the flush triggered by the second `Submit` at
threshold 2, and the flush of a periodic sweep, both send a `mqo_debug`
statement, not a `mqo_dispatch` statement. -/
theorem C15_flush_entry_point_counterexample :
    (∃ s', BatchScheduler.SubmitAll samplePg sampleRequests sampleScheduler = Except.ok s' ∧
      s'.sent.map (BatchScheduler.statement sampleLibs s')
        = [some "SELECT mqo_debug(decode('0AFF', 'hex'));"]) ∧
    (BatchScheduler.RunLoop samplePendingScheduler).sent.map
        (BatchScheduler.statement sampleLibs (BatchScheduler.RunLoop samplePendingScheduler))
      = [some "SELECT mqo_debug(decode('0AFF', 'hex'));"] ∧
    "SELECT mqo_debug(decode('0AFF', 'hex'));" ≠ "SELECT mqo_dispatch(decode('0AFF', 'hex'));" :=
  ⟨⟨_, rfl, by decide⟩, by decide, by decide⟩

theorem BatchScheduler.appended_nonempty (parsed : ParsedQuery) (b0 : QueryBatch) :
    (BatchScheduler.appended parsed b0).queries ≠ [] := by
  simp [BatchScheduler.appended]

theorem BatchScheduler.SubmitParsed_sent (parsed : ParsedQuery) (s : BatchScheduler) :
    ∃ new, (BatchScheduler.SubmitParsed parsed s).sent = s.sent ++ new ∧ new.length ≤ 1 ∧
      ∀ c ∈ new, c.use_debug_func = true ∧ c.batch.queries ≠ [] := by
  rw [BatchScheduler.SubmitParsed_eq]
  have hne := BatchScheduler.appended_nonempty parsed
    ((StdMap.find parsed.fp_hash
      (StdMap.index QueryBatch.empty parsed.fp_hash s.pending_batches_)).getD QueryBatch.empty)
  generalize BatchScheduler.appended parsed ((StdMap.find parsed.fp_hash
      (StdMap.index QueryBatch.empty parsed.fp_hash s.pending_batches_)).getD
        QueryBatch.empty) = batch at hne ⊢
  split
  · refine ⟨[⟨batch, true⟩], ?_, by simp, ?_⟩
    · exact BatchScheduler.FlushBatch_nonempty batch s.sent hne
    · intro c hc
      simp only [List.mem_singleton] at hc
      rw [hc]
      exact ⟨rfl, hne⟩
  · exact ⟨[], by simp, by simp, by simp⟩

/-- C15 (amended): every flush triggered by `Submit` (size threshold) or by
the periodic sweep goes through `FlushBatch`, which overwrites its
`use_debug_mode` parameter with `true`: the statement sent for the batch is
`SELECT mqo_debug(decode('<hex>', 'hex'));`, the debug entry point, never the
dispatch entry point. A `Submit` sends at most one statement, a sweep exactly
one per non-empty pending batch, so flushing `k` batches produces `k` calls of
`mqo_debug`. -/
theorem C15_flush_calls_debug_entry (libs : ProxyLibs) :
    (∀ (parsed : ParsedQuery) (s : BatchScheduler),
      ∃ new, (BatchScheduler.SubmitParsed parsed s).sent = s.sent ++ new ∧ new.length ≤ 1 ∧
        ∀ c ∈ new, c.use_debug_func = true ∧ c.batch.queries ≠ []) ∧
    (∀ s : BatchScheduler,
      ∃ new, (BatchScheduler.RunLoop s).sent = s.sent ++ new ∧
        new.length = (s.pending_batches_.filter (fun e => ! e.2.queries.isEmpty)).length ∧
        ∀ c ∈ new, c.use_debug_func = true ∧ c.batch.queries ≠ []) ∧
    (∀ (s : BatchScheduler) (c : KernelCall) (first_query : ParsedQuery)
      (rest : List ParsedQuery) (binary_data : List Nat),
      c.use_debug_func = true → c.batch.queries = first_query :: rest →
      libs.SerializeToString
        (BatchScheduler.protoPayload libs s.dry_run_mode_ c.batch first_query)
          = some binary_data →
      BatchScheduler.statement libs s c =
        some ("SELECT mqo_debug(decode('" ++ BatchScheduler.ToHex binary_data
          ++ "', 'hex'));")) := by
  refine ⟨BatchScheduler.SubmitParsed_sent, ?_, ?_⟩
  · intro s
    have h := BatchScheduler.sweep_eq s.pending_batches_ s.sent
    refine ⟨(s.pending_batches_.filter (fun e => ! e.2.queries.isEmpty)).map
      (fun e => (⟨e.2, true⟩ : KernelCall)), by simp only [BatchScheduler.RunLoop, h],
      by simp, ?_⟩
    intro c hc
    simp only [List.mem_map, List.mem_filter] at hc
    obtain ⟨e, ⟨_, he⟩, rfl⟩ := hc
    refine ⟨rfl, ?_⟩
    intro hnil
    have hnil' : e.2.queries = [] := hnil
    simp [hnil'] at he
  · intro s c first_query rest binary_data hdbg hq hser
    simp only [BatchScheduler.statement, BatchScheduler.GenerateKernelPayload, hq, hser, hdbg,
      if_true]

/-- C15 (amended) at the sweep of the sample pending batch: one statement,
sent to `mqo_debug`. -/
theorem C15_flush_calls_debug_entry_witness :
    (∃ new, (BatchScheduler.RunLoop samplePendingScheduler).sent
        = samplePendingScheduler.sent ++ new ∧
      new.length
        = (samplePendingScheduler.pending_batches_.filter
            (fun e => ! e.2.queries.isEmpty)).length ∧
      ∀ c ∈ new, c.use_debug_func = true ∧ c.batch.queries ≠ []) ∧
    (⟨sampleBatch, true⟩ : KernelCall).use_debug_func = true ∧
    (⟨sampleBatch, true⟩ : KernelCall).batch.queries = sampleQuery1 :: [sampleQuery2] ∧
    sampleLibs.SerializeToString
      (BatchScheduler.protoPayload sampleLibs samplePendingScheduler.dry_run_mode_
        (⟨sampleBatch, true⟩ : KernelCall).batch sampleQuery1) = some [10, 255] ∧
    BatchScheduler.statement sampleLibs samplePendingScheduler ⟨sampleBatch, true⟩ =
      some ("SELECT mqo_debug(decode('" ++ BatchScheduler.ToHex [10, 255] ++ "', 'hex'));") :=
  ⟨(C15_flush_calls_debug_entry sampleLibs).2.1 samplePendingScheduler, rfl, rfl, rfl,
    (C15_flush_calls_debug_entry sampleLibs).2.2 samplePendingScheduler ⟨sampleBatch, true⟩
      sampleQuery1 [sampleQuery2] [10, 255] rfl rfl rfl⟩

/-! ## The target type of a conversion -/

theorem TypeMapper.ToPgParam_retarget (eng : Engine) (hist : List Event) (val : Value)
    (t1 t2 : Oid) :
    TypeMapper.ToPgParam eng hist val t2 =
      (TypeMapper.ToPgParam eng hist val t1).map (fun p => { p with type_id := t2 }) := by
  unfold TypeMapper.ToPgParam
  cases val.is_null
  · cases val.typed_value with
    | kStringVal s =>
      simp only [Bool.false_eq_true, if_false]
      cases eng.CStringGetTextDatum hist s <;> rfl
    | _ => rfl
  · rfl

theorem bindValues_retarget (eng : Engine) (hist : List Event) (vs : List Value) :
    ∀ ts ts' : List Oid, ts.length = ts'.length →
      bindValues eng hist ts vs = bindValues eng hist ts' vs := by
  induction vs with
  | nil =>
    intro ts ts' h
    cases ts <;> cases ts' <;> simp_all [bindValues]
  | cons v rest ih =>
    intro ts ts' h
    cases ts with
    | nil =>
      cases ts' with
      | nil => rfl
      | cons b tb => simp at h
    | cons a ta =>
      cases ts' with
      | nil => simp at h
      | cons b tb =>
        have hlen : ta.length = tb.length := by simpa using h
        simp only [bindValues]
        rw [TypeMapper.ToPgParam_retarget eng hist v a b, ih ta tb hlen]
        cases TypeMapper.ToPgParam eng hist v a <;> rfl

theorem Runtime.searchKeys_retarget (eng : Engine) (hist : List Event) (t1 t2 : Oid)
    (rows : List ParamRow) :
    Runtime.searchKeys eng hist t1 rows = Runtime.searchKeys eng hist t2 rows := by
  induction rows with
  | nil => rfl
  | cons row rest ih =>
    cases hv : row.values with
    | nil => simp only [Runtime.searchKeys, hv, ih]
    | cons v vs =>
      simp only [Runtime.searchKeys, hv, ih]
      rw [TypeMapper.ToPgParam_retarget eng hist v t1 t2]
      cases TypeMapper.ToPgParam eng hist v t1 <;> rfl

/-- C17: for every payload value and every two target types, the two
conversions by `ToPgParam` raise together or give the same datum and the same
null flag, and differ only in the recorded `type_id`, which is the target
type. The same holds where the conversion is used: the datums and null flags
bound for a row by `ExecuteBatchMQO` do not depend on the plan's argument
types, and the search keys of `ExecuteSharedScan` do not depend on the type of
the scanned column. -/
theorem C17_encoding_ignores_target_type (eng : Engine) (hist : List Event) (val : Value)
    (t1 t2 : Oid) :
    (TypeMapper.ToPgParam eng hist val t1).map (fun p => (p.value, p.null_flag))
      = (TypeMapper.ToPgParam eng hist val t2).map (fun p => (p.value, p.null_flag)) ∧
    (TypeMapper.ToPgParam eng hist val t1).map (fun p => p.type_id)
      = (TypeMapper.ToPgParam eng hist val t1).map (fun _ => t1) ∧
    TypeMapper.ToPgParam eng hist val t2 =
      (TypeMapper.ToPgParam eng hist val t1).map (fun p => { p with type_id := t2 }) ∧
    (∀ (values : List Value) (ts ts' : List Oid), ts.length = ts'.length →
      bindValues eng hist ts values = bindValues eng hist ts' values) ∧
    (∀ rows : List ParamRow,
      Runtime.searchKeys eng hist t1 rows = Runtime.searchKeys eng hist t2 rows) := by
  have h := TypeMapper.ToPgParam_retarget eng hist val t1 t2
  refine ⟨?_, ?_, h, fun values ts ts' hlen => bindValues_retarget eng hist values ts ts' hlen,
    fun rows => Runtime.searchKeys_retarget eng hist t1 t2 rows⟩
  · rw [h]
    cases TypeMapper.ToPgParam eng hist val t1 <;> rfl
  · have h' := TypeMapper.ToPgParam_retarget eng hist val t1 t1
    cases hp : TypeMapper.ToPgParam eng hist val t1 with
    | none => rfl
    | some p =>
      rw [hp] at h'
      simp only [Option.map_some', Option.some.injEq] at h' ⊢
      rw [h']

/-- C17 at a text value converted for `text` and for `int8`, and at a row of
two values bound under two lists of argument types of the same length. -/
theorem C17_encoding_ignores_target_type_witness :
    (TypeMapper.ToPgParam sampleEngine [] (textValue "a") TEXTOID).map
        (fun p => (p.value, p.null_flag))
      = (TypeMapper.ToPgParam sampleEngine [] (textValue "a") INT8OID).map
        (fun p => (p.value, p.null_flag)) ∧
    [TEXTOID, TEXTOID].length = [INT8OID, BOOLOID].length ∧
    bindValues sampleEngine [] [TEXTOID, TEXTOID] [textValue "a", textValue "bc"]
      = bindValues sampleEngine [] [INT8OID, BOOLOID] [textValue "a", textValue "bc"] :=
  ⟨(C17_encoding_ignores_target_type sampleEngine [] (textValue "a") TEXTOID INT8OID).1, rfl,
    (C17_encoding_ignores_target_type sampleEngine [] (textValue "a") TEXTOID INT8OID).2.2.2.1
      [textValue "a", textValue "bc"] [TEXTOID, TEXTOID] [INT8OID, BOOLOID] rfl⟩
